import Mathlib

/-!
CSV scanner driver (`BaseScanner::Process`, `BaseScanner::ParseChunkInternal`) and interval
arithmetic (`IntervalTryAddition`, `Interval::FromMicro`, `Interval::Add`).

A shallow embedding of `src/include/duckdb/execution/operator/csv_scanner/base_scanner.hpp`
and of parts of `src/common/types/interval.cpp`.

* Buffer offsets (`idx_t`) are natural numbers.  A bound segment is an in-memory allocation,
  so `actual_size + 8 < 2^64` and none of the cursor computations `buffer_pos++`,
  `buffer_pos + 8`, `buffer_pos += 8` can wrap; `to_pos - 1` is only evaluated inside the main
  loop, where `buffer_pos < to_pos` gives `1 ≤ to_pos`.
* `lines_read` is a 64-bit counter that lives across chunks; its increment wraps modulo `2^64`.
* The hook calls made through the template parameter `T`, the calls of `Transition` and the
  buffer indices that are read are recorded in three logs carried next to the scanner fields.
  The logs are observations of the run; no branch of the program depends on them.
* The signed integers of `interval.cpp` (`int32_t`, `int64_t`) are integers with explicit range
  tests; `/` and `%` are the truncating division and remainder; a signed computation that the
  code does not check and whose value is not representable is reported as an overflow and has
  no result; the narrowing cast of `Interval::FromMicro` is taken in two's complement.
-/

namespace duckdb

/-! ## Collaborator types (declared outside this header) -/

/-- Modelled from the spec: the enum `CSVState` is declared in `csv_state.hpp`, which is not
part of the sources at hand.  The constructors are the states that `base_scanner.hpp` names;
`OTHER` stands for every further state of the enum, all of which take the `default` branch of
the dispatch. -/
inductive CSVState where
  | STANDARD
  | DELIMITER
  | RECORD_SEPARATOR
  | CARRIAGE_RETURN
  | QUOTED
  | UNQUOTED
  | ESCAPE
  | INVALID
  | NOT_SET
  | QUOTED_NEW_LINE
  | COMMENT
  | UNQUOTED_ESCAPE
  | ESCAPED_RETURN
  | MAYBE_QUOTED
  | OTHER (tag : Nat)
deriving DecidableEq, Repr

/-- Modelled from the spec: `NewLineIdentifier` (the newline convention of the dialect) is
declared outside this header; the driver only compares it with `CARRY_ON`. -/
inductive NewLineIdentifier where
  | CARRY_ON
  | OTHER (tag : Nat)
deriving DecidableEq, Repr

/-- The two most recently computed states: `states[0]` is the previous one, `states[1]` the
current one. -/
structure CSVStates where
  states_0 : CSVState
  states_1 : CSVState
deriving DecidableEq, Repr

/-- An option value with its `IsSetByUser` mark (`GetValue`, `IsSetByUser`). -/
structure CSVOption (α : Type) where
  value : α
  set_by_user : Bool

/-- The fields of `state_machine_options` that the driver reads. -/
structure CSVStateMachineOptions where
  escape : Nat
  strict_mode : CSVOption Bool
  new_line : CSVOption NewLineIdentifier

/-- The container `dialect_options` with its `state_machine_options`. -/
structure DialectOptions where
  state_machine_options : CSVStateMachineOptions

/-- The member `transition_array` of the state machine: the transition table, the three
256-entry skip tables and the 64-bit broadcast masks. -/
structure TransitionArray where
  /-- The entry `transition_array[byte][state]`. -/
  table : Nat → CSVState → CSVState
  skip_standard : Nat → Bool
  skip_quoted : Nat → Bool
  skip_comment : Nat → Bool
  delimiter : Nat
  new_line : Nat
  carriage_return : Nat
  quote : Nat
  escape : Nat
  comment : Nat

/-- The shared, read-only automaton and dialect description. -/
structure CSVStateMachine where
  transition_array : TransitionArray
  state_machine_options : CSVStateMachineOptions
  dialect_options : DialectOptions

/-- Modelled from the spec: `CSVStateMachine::Transition` is defined in
`csv_state_machine.hpp`, which is not part of the sources at hand.  It feeds one byte to the
transition table, obtaining the next state from the current one and retaining the one-step
history (previous, current). -/
def CSVStateMachine.Transition (sm : CSVStateMachine) (states : CSVStates) (current_char : Nat) :
    CSVStates :=
  { states_0 := states.states_1
    states_1 := sm.transition_array.table current_char states.states_1 }

/-! ## Observation logs -/

/-- One call of a hook of the template parameter `T`, with the position passed to it and, for
the hooks that return `bool`, the value returned. -/
inductive HookCall where
  | InvalidState
  | EmptyLine (buffer_pos : Nat) (ret : Bool)
  | IsCommentSet (ret : Bool)
  | UnsetComment (buffer_pos : Nat) (ret : Bool)
  | AddRow (buffer_pos : Nat) (ret : Bool)
  | AddValue (buffer_pos : Nat)
  | SetEscaped
  | SetQuoted (quoted_position : Nat)
  | SetUnquoted
  | QuotedNewLine
  | SetComment (buffer_pos : Nat)
deriving DecidableEq, Repr

/-- The static hooks of the template parameter `T` of `Process`, acting on a result of type
`R`.  A result holds a reference to the scanner's `states`, so every hook may read them. -/
structure Behavior (R : Type) where
  InvalidState : CSVStates → R → R
  EmptyLine : CSVStates → R → Nat → R × Bool
  IsCommentSet : CSVStates → R → Bool
  UnsetComment : CSVStates → R → Nat → R × Bool
  AddRow : CSVStates → R → Nat → R × Bool
  AddValue : CSVStates → R → Nat → R
  SetEscaped : CSVStates → R → R
  SetQuoted : CSVStates → R → Nat → R
  SetUnquoted : CSVStates → R → R
  QuotedNewLine : CSVStates → R → R
  SetComment : CSVStates → R → Nat → R

/-! ## `LinePosition` and `ScannerResult` -/

/-- The class `LinePosition`. -/
structure LinePosition where
  buffer_pos : Nat := 0
  buffer_size : Nat := 0
  buffer_idx : Nat := 0
deriving DecidableEq, Repr

/-- The flag fields of `ScannerResult`. -/
structure ScannerResult where
  quoted : Bool := false
  unquoted : Bool := false
  escaped : Bool := false
  comment : Bool := false
  quoted_position : Nat := 0
  last_position : LinePosition := {}
  result_size : Nat := 0
deriving DecidableEq, Repr

/-- `ScannerResult::SetQuoted`. -/
def ScannerResult.SetQuoted (result : ScannerResult) (quoted_position : Nat) : ScannerResult :=
  let result :=
    if !result.quoted then { result with quoted_position := quoted_position } else result
  let result := { result with quoted := true }
  { result with unquoted := true }

/-- `ScannerResult::SetUnquoted`; `states` is the scanner's state pair the result refers to and
`sm` the state machine it refers to. -/
def ScannerResult.SetUnquoted (sm : CSVStateMachine) (states : CSVStates)
    (result : ScannerResult) : ScannerResult :=
  let result :=
    if states.states_0 = CSVState.UNQUOTED ∧ states.states_1 = CSVState.UNQUOTED ∧
        sm.dialect_options.state_machine_options.escape ≠ 0 then
      { result with escaped := true }
    else result
  { result with quoted := true }

/-- `ScannerResult::SetEscaped`. -/
def ScannerResult.SetEscaped (result : ScannerResult) : ScannerResult :=
  { result with escaped := true }

/-- `ScannerResult::SetComment`. -/
def ScannerResult.SetComment (result : ScannerResult) (_buffer_pos : Nat) : ScannerResult :=
  { result with comment := true }

/-- `ScannerResult::UnsetComment`. -/
def ScannerResult.UnsetComment (result : ScannerResult) (_buffer_pos : Nat) :
    ScannerResult × Bool :=
  ({ result with comment := false }, false)

/-- `ScannerResult::IsCommentSet`. -/
def ScannerResult.IsCommentSet (result : ScannerResult) : Bool :=
  result.comment == true

/-! ## `BaseScanner` -/

/-- `BaseScanner::ContainsZeroByte` on a 64-bit word `v < 2^64`; the subtraction and the
complement are those of `uint64_t`. -/
def BaseScanner.ContainsZeroByte (v : Nat) : Bool :=
  (((v + 2 ^ 64 - 0x0101010101010101) % 2 ^ 64) &&& (2 ^ 64 - 1 - v) &&& 0x8080808080808080) != 0

/-- The scanner fields that `Process` reads and writes, followed by the three logs. -/
structure BaseScanner where
  states : CSVStates
  ever_quoted : Bool := false
  ever_escaped : Bool := false
  /-- The cursor `iterator.pos.buffer_pos`. -/
  buffer_pos : Nat
  lines_read : Nat := 0
  bytes_read : Nat := 0
  /-- Log of the hook calls made so far, oldest first. -/
  calls : List HookCall := []
  /-- Log of the calls of `Transition` so far, oldest first: the position of the byte that was
  fed and the state pair that came out. -/
  transitions : List (Nat × CSVStates) := []
  /-- Log of the buffer indices read so far, oldest first. -/
  reads : List Nat := []
deriving DecidableEq, Repr

/-- The byte `static_cast<uint8_t>(buffer_handle_ptr[i])`. -/
def BaseScanner.byteAt (buffer_handle_ptr : List Nat) (i : Nat) : Nat :=
  buffer_handle_ptr.getD i 0 % 256

/-- The 8-byte load `Load<uint64_t>(&buffer_handle_ptr[pos])` (little endian). -/
def BaseScanner.Load (buffer_handle_ptr : List Nat) (pos : Nat) : Nat :=
  BaseScanner.byteAt buffer_handle_ptr pos
    + 256 * (BaseScanner.byteAt buffer_handle_ptr (pos + 1)
    + 256 * (BaseScanner.byteAt buffer_handle_ptr (pos + 2)
    + 256 * (BaseScanner.byteAt buffer_handle_ptr (pos + 3)
    + 256 * (BaseScanner.byteAt buffer_handle_ptr (pos + 4)
    + 256 * (BaseScanner.byteAt buffer_handle_ptr (pos + 5)
    + 256 * (BaseScanner.byteAt buffer_handle_ptr (pos + 6)
    + 256 * BaseScanner.byteAt buffer_handle_ptr (pos + 7)))))))

/-- The increment `lines_read++` of the 64-bit counter. -/
def BaseScanner.lines_read_incr (lines_read : Nat) : Nat :=
  (lines_read + 1) % 2 ^ 64

/-- Appends one hook call to the call log. -/
def BaseScanner.logCall (self : BaseScanner) (c : HookCall) : BaseScanner :=
  { self with calls := self.calls ++ [c] }

/-- What one pass through the body of the main loop leaves behind: the scanner, the result, and
whether the body executed `return`. -/
structure ProcessStep (R : Type) where
  scanner : BaseScanner
  result : R
  returned : Bool

namespace BaseScanner.Process

/-- The constant `has_escaped_value` of `Process`. -/
def has_escaped_value (sm : CSVStateMachine) : Bool :=
  sm.dialect_options.state_machine_options.escape != 0

/-- The constant `only_rn_newlines` of `Process`. -/
def only_rn_newlines (sm : CSVStateMachine) : Bool :=
  sm.state_machine_options.strict_mode.value &&
  sm.state_machine_options.strict_mode.set_by_user &&
  (sm.state_machine_options.new_line.value == NewLineIdentifier.CARRY_ON) &&
  sm.state_machine_options.new_line.set_by_user

/-- The chunk end `to_pos`: the assigned end clamped to `actual_size` when a boundary is set,
`actual_size` otherwise. -/
def to_pos (IsBoundarySet : Bool) (GetEndPos actual_size : Nat) : Nat :=
  if IsBoundarySet then
    if GetEndPos > actual_size then actual_size else GetEndPos
  else actual_size

/-- The block `buffer_pos++; bytes_read = buffer_pos - start_pos; lines_read++; return;` that
follows a hook returning true. -/
def stopAfterTerminator (start_pos : Nat) (self : BaseScanner) : BaseScanner :=
  let self := { self with buffer_pos := self.buffer_pos + 1 }
  let self := { self with bytes_read := self.buffer_pos - start_pos }
  { self with lines_read := BaseScanner.lines_read_incr self.lines_read }

/-- The word loop `while (buffer_pos + 8 < to_pos) { load; if (special) break; buffer_pos += 8; }`;
`special value` is the `ContainsZeroByte` test of the case at hand.  Every pass adds 8 to the
cursor, so `to_pos` passes are never used up. -/
def wordLoop (special : Nat → Bool) (buffer_handle_ptr : List Nat) (to_pos : Nat) :
    Nat → BaseScanner → BaseScanner
  | 0, self => self
  | fuel + 1, self =>
    if self.buffer_pos + 8 < to_pos then
      let value := BaseScanner.Load buffer_handle_ptr self.buffer_pos
      let self := { self with reads := self.reads ++ List.range' self.buffer_pos 8 }
      if special value then self
      else wordLoop special buffer_handle_ptr to_pos fuel
        { self with buffer_pos := self.buffer_pos + 8 }
    else self

/-- The table loop `while (skip[buffer[buffer_pos]] && buffer_pos < to_pos - 1) buffer_pos++;`.
The table lookup, and with it the read of the buffer, comes first in the condition. -/
def tableLoop (skip : Nat → Bool) (buffer_handle_ptr : List Nat) (to_pos : Nat) :
    Nat → BaseScanner → BaseScanner
  | 0, self => self
  | fuel + 1, self =>
    let byte := BaseScanner.byteAt buffer_handle_ptr self.buffer_pos
    let self := { self with reads := self.reads ++ [self.buffer_pos] }
    if skip byte && decide (self.buffer_pos < to_pos - 1) then
      tableLoop skip buffer_handle_ptr to_pos fuel { self with buffer_pos := self.buffer_pos + 1 }
    else self

/-- The test of the word loop of the `QUOTED` case. -/
def quotedSpecial (sm : CSVStateMachine) (value : Nat) : Bool :=
  BaseScanner.ContainsZeroByte
    ((value ^^^ sm.transition_array.quote) &&& (value ^^^ sm.transition_array.escape))

/-- The test of the word loop of the `STANDARD` case. -/
def standardSpecial (sm : CSVStateMachine) (value : Nat) : Bool :=
  BaseScanner.ContainsZeroByte
    ((value ^^^ sm.transition_array.delimiter) &&& (value ^^^ sm.transition_array.new_line) &&&
     (value ^^^ sm.transition_array.carriage_return) &&& (value ^^^ sm.transition_array.escape) &&&
     (value ^^^ sm.transition_array.comment))

/-- The test of the word loop of the `COMMENT` case. -/
def commentSpecial (sm : CSVStateMachine) (value : Nat) : Bool :=
  BaseScanner.ContainsZeroByte
    ((value ^^^ sm.transition_array.new_line) &&& (value ^^^ sm.transition_array.carriage_return))

/-- The two skip loops that follow `buffer_pos++` in the `QUOTED`, `STANDARD` and `COMMENT`
cases. -/
def skipLoops (special : Nat → Bool) (skip : Nat → Bool) (buffer_handle_ptr : List Nat)
    (to_pos : Nat) (self : BaseScanner) : BaseScanner :=
  tableLoop skip buffer_handle_ptr to_pos to_pos
    (wordLoop special buffer_handle_ptr to_pos to_pos self)

/-- One pass through the body of `while (iterator.pos.buffer_pos < to_pos)`: the call of
`Transition` on the byte under the cursor and the `switch` on the new current state. -/
def iteration {R : Type} (sm : CSVStateMachine) (T : Behavior R) (buffer_handle_ptr : List Nat)
    (to_pos start_pos : Nat) (self : BaseScanner) (result : R) : ProcessStep R :=
  let pos := self.buffer_pos
  let states := sm.Transition self.states (BaseScanner.byteAt buffer_handle_ptr pos)
  let self := { self with
    states := states, transitions := self.transitions ++ [(pos, states)],
    reads := self.reads ++ [pos] }
  match states.states_1 with
  | CSVState.INVALID =>
    let result := T.InvalidState states result
    let self := self.logCall HookCall.InvalidState
    let self := { self with buffer_pos := self.buffer_pos + 1 }
    let self := { self with bytes_read := self.buffer_pos - start_pos }
    ⟨self, result, true⟩
  | CSVState.RECORD_SEPARATOR =>
    if states.states_0 = CSVState.RECORD_SEPARATOR ∨ states.states_0 = CSVState.NOT_SET then
      let out := T.EmptyLine states result pos
      let self := self.logCall (HookCall.EmptyLine pos out.2)
      if out.2 then ⟨stopAfterTerminator start_pos self, out.1, true⟩
      else
        let self := { self with lines_read := BaseScanner.lines_read_incr self.lines_read }
        ⟨{ self with buffer_pos := self.buffer_pos + 1 }, out.1, false⟩
    else if states.states_0 ≠ CSVState.CARRIAGE_RETURN then
      let is_comment := T.IsCommentSet states result
      let self := self.logCall (HookCall.IsCommentSet is_comment)
      if is_comment then
        let out := T.UnsetComment states result pos
        let self := self.logCall (HookCall.UnsetComment pos out.2)
        if out.2 then ⟨stopAfterTerminator start_pos self, out.1, true⟩
        else
          let self := { self with lines_read := BaseScanner.lines_read_incr self.lines_read }
          ⟨{ self with buffer_pos := self.buffer_pos + 1 }, out.1, false⟩
      else
        let out := T.AddRow states result pos
        let self := self.logCall (HookCall.AddRow pos out.2)
        if out.2 then ⟨stopAfterTerminator start_pos self, out.1, true⟩
        else
          let self := { self with lines_read := BaseScanner.lines_read_incr self.lines_read }
          ⟨{ self with buffer_pos := self.buffer_pos + 1 }, out.1, false⟩
    else
      ⟨{ self with buffer_pos := self.buffer_pos + 1 }, result, false⟩
  | CSVState.CARRIAGE_RETURN =>
    if states.states_0 = CSVState.RECORD_SEPARATOR ∨ states.states_0 = CSVState.NOT_SET then
      let out := T.EmptyLine states result pos
      let self := self.logCall (HookCall.EmptyLine pos out.2)
      if out.2 then ⟨stopAfterTerminator start_pos self, out.1, true⟩
      else
        let self := { self with buffer_pos := self.buffer_pos + 1 }
        ⟨{ self with lines_read := BaseScanner.lines_read_incr self.lines_read }, out.1, false⟩
    else if states.states_0 ≠ CSVState.CARRIAGE_RETURN then
      let is_comment := T.IsCommentSet states result
      let self := self.logCall (HookCall.IsCommentSet is_comment)
      if is_comment then
        let out := T.UnsetComment states result pos
        let self := self.logCall (HookCall.UnsetComment pos out.2)
        if out.2 then ⟨stopAfterTerminator start_pos self, out.1, true⟩
        else
          let self := { self with buffer_pos := self.buffer_pos + 1 }
          ⟨{ self with lines_read := BaseScanner.lines_read_incr self.lines_read }, out.1, false⟩
      else if !only_rn_newlines sm then
        let out := T.AddRow states result pos
        let self := self.logCall (HookCall.AddRow pos out.2)
        if out.2 then ⟨stopAfterTerminator start_pos self, out.1, true⟩
        else
          let self := { self with buffer_pos := self.buffer_pos + 1 }
          ⟨{ self with lines_read := BaseScanner.lines_read_incr self.lines_read }, out.1, false⟩
      else
        let self := { self with buffer_pos := self.buffer_pos + 1 }
        ⟨{ self with lines_read := BaseScanner.lines_read_incr self.lines_read }, result, false⟩
    else
      let self := { self with buffer_pos := self.buffer_pos + 1 }
      ⟨{ self with lines_read := BaseScanner.lines_read_incr self.lines_read }, result, false⟩
  | CSVState.DELIMITER =>
    let result := T.AddValue states result pos
    let self := self.logCall (HookCall.AddValue pos)
    ⟨{ self with buffer_pos := self.buffer_pos + 1 }, result, false⟩
  | CSVState.QUOTED =>
    let mark := decide (states.states_0 = CSVState.UNQUOTED ∨
      states.states_0 = CSVState.MAYBE_QUOTED) && has_escaped_value sm
    let self :=
      if mark then ({ self with ever_escaped := true }).logCall HookCall.SetEscaped else self
    let result := if mark then T.SetEscaped states result else result
    let self := { self with ever_quoted := true }
    let result := T.SetQuoted states result pos
    let self := self.logCall (HookCall.SetQuoted pos)
    let self := { self with buffer_pos := self.buffer_pos + 1 }
    ⟨skipLoops (quotedSpecial sm) sm.transition_array.skip_quoted buffer_handle_ptr to_pos self,
      result, false⟩
  | CSVState.UNQUOTED =>
    let mark := decide (states.states_0 = CSVState.MAYBE_QUOTED)
    let self :=
      if mark then ({ self with ever_escaped := true }).logCall HookCall.SetEscaped else self
    let result := if mark then T.SetEscaped states result else result
    let result := T.SetUnquoted states result
    let self := self.logCall HookCall.SetUnquoted
    ⟨{ self with buffer_pos := self.buffer_pos + 1 }, result, false⟩
  | CSVState.ESCAPE | CSVState.UNQUOTED_ESCAPE | CSVState.ESCAPED_RETURN =>
    let result := T.SetEscaped states result
    let self := self.logCall HookCall.SetEscaped
    let self := { self with ever_escaped := true }
    ⟨{ self with buffer_pos := self.buffer_pos + 1 }, result, false⟩
  | CSVState.STANDARD =>
    let self := { self with buffer_pos := self.buffer_pos + 1 }
    ⟨skipLoops (standardSpecial sm) sm.transition_array.skip_standard buffer_handle_ptr to_pos
      self, result, false⟩
  | CSVState.QUOTED_NEW_LINE =>
    let result := T.QuotedNewLine states result
    let self := self.logCall HookCall.QuotedNewLine
    ⟨{ self with buffer_pos := self.buffer_pos + 1 }, result, false⟩
  | CSVState.COMMENT =>
    let result := T.SetComment states result pos
    let self := self.logCall (HookCall.SetComment pos)
    let self := { self with buffer_pos := self.buffer_pos + 1 }
    ⟨skipLoops (commentSpecial sm) sm.transition_array.skip_comment buffer_handle_ptr to_pos self,
      result, false⟩
  | _ =>
    ⟨{ self with buffer_pos := self.buffer_pos + 1 }, result, false⟩

/-- The main loop `while (iterator.pos.buffer_pos < to_pos) { ... }` followed by
`bytes_read = iterator.pos.buffer_pos - start_pos`.  Every pass moves the cursor forward, so
`to_pos - start_pos` passes are never used up before the loop condition fails. -/
def loop {R : Type} (sm : CSVStateMachine) (T : Behavior R) (buffer_handle_ptr : List Nat)
    (to_pos start_pos : Nat) : Nat → BaseScanner → R → BaseScanner × R
  | 0, self, result => ({ self with bytes_read := self.buffer_pos - start_pos }, result)
  | fuel + 1, self, result =>
    if self.buffer_pos < to_pos then
      let step := iteration sm T buffer_handle_ptr to_pos start_pos self result
      if step.returned then (step.scanner, step.result)
      else loop sm T buffer_handle_ptr to_pos start_pos fuel step.scanner step.result
    else ({ self with bytes_read := self.buffer_pos - start_pos }, result)

end BaseScanner.Process

/-- `BaseScanner::Process`: `IsBoundarySet` and `GetEndPos` are the answers of `iterator`,
`actual_size` is `cur_buffer_handle->actual_size` and `buffer_handle_ptr` the memory behind
the raw pointer. -/
def BaseScanner.Process {R : Type} (sm : CSVStateMachine) (T : Behavior R)
    (IsBoundarySet : Bool) (GetEndPos actual_size : Nat) (buffer_handle_ptr : List Nat)
    (self : BaseScanner) (result : R) : BaseScanner × R :=
  let start_pos := self.buffer_pos
  let to_pos := BaseScanner.Process.to_pos IsBoundarySet GetEndPos actual_size
  BaseScanner.Process.loop sm T buffer_handle_ptr to_pos start_pos (to_pos - start_pos) self result

/-! ## The byte-at-a-time reference walk -/

namespace BaseScanner.ByteWalk

/-- The reference walk of the specification: one byte is fed to `Transition` and dispatched on
exactly as in `Process`, and the cursor then advances by that one byte; there is no word loop
and no table loop. -/
def iteration {R : Type} (sm : CSVStateMachine) (T : Behavior R) (buffer_handle_ptr : List Nat)
    (start_pos : Nat) (self : BaseScanner) (result : R) : ProcessStep R :=
  let pos := self.buffer_pos
  let states := sm.Transition self.states (BaseScanner.byteAt buffer_handle_ptr pos)
  let self := { self with
    states := states, transitions := self.transitions ++ [(pos, states)],
    reads := self.reads ++ [pos] }
  match states.states_1 with
  | CSVState.INVALID =>
    let result := T.InvalidState states result
    let self := self.logCall HookCall.InvalidState
    let self := { self with buffer_pos := self.buffer_pos + 1 }
    let self := { self with bytes_read := self.buffer_pos - start_pos }
    ⟨self, result, true⟩
  | CSVState.RECORD_SEPARATOR =>
    if states.states_0 = CSVState.RECORD_SEPARATOR ∨ states.states_0 = CSVState.NOT_SET then
      let out := T.EmptyLine states result pos
      let self := self.logCall (HookCall.EmptyLine pos out.2)
      if out.2 then ⟨BaseScanner.Process.stopAfterTerminator start_pos self, out.1, true⟩
      else
        let self := { self with lines_read := BaseScanner.lines_read_incr self.lines_read }
        ⟨{ self with buffer_pos := self.buffer_pos + 1 }, out.1, false⟩
    else if states.states_0 ≠ CSVState.CARRIAGE_RETURN then
      let is_comment := T.IsCommentSet states result
      let self := self.logCall (HookCall.IsCommentSet is_comment)
      if is_comment then
        let out := T.UnsetComment states result pos
        let self := self.logCall (HookCall.UnsetComment pos out.2)
        if out.2 then ⟨BaseScanner.Process.stopAfterTerminator start_pos self, out.1, true⟩
        else
          let self := { self with lines_read := BaseScanner.lines_read_incr self.lines_read }
          ⟨{ self with buffer_pos := self.buffer_pos + 1 }, out.1, false⟩
      else
        let out := T.AddRow states result pos
        let self := self.logCall (HookCall.AddRow pos out.2)
        if out.2 then ⟨BaseScanner.Process.stopAfterTerminator start_pos self, out.1, true⟩
        else
          let self := { self with lines_read := BaseScanner.lines_read_incr self.lines_read }
          ⟨{ self with buffer_pos := self.buffer_pos + 1 }, out.1, false⟩
    else
      ⟨{ self with buffer_pos := self.buffer_pos + 1 }, result, false⟩
  | CSVState.CARRIAGE_RETURN =>
    if states.states_0 = CSVState.RECORD_SEPARATOR ∨ states.states_0 = CSVState.NOT_SET then
      let out := T.EmptyLine states result pos
      let self := self.logCall (HookCall.EmptyLine pos out.2)
      if out.2 then ⟨BaseScanner.Process.stopAfterTerminator start_pos self, out.1, true⟩
      else
        let self := { self with buffer_pos := self.buffer_pos + 1 }
        ⟨{ self with lines_read := BaseScanner.lines_read_incr self.lines_read }, out.1, false⟩
    else if states.states_0 ≠ CSVState.CARRIAGE_RETURN then
      let is_comment := T.IsCommentSet states result
      let self := self.logCall (HookCall.IsCommentSet is_comment)
      if is_comment then
        let out := T.UnsetComment states result pos
        let self := self.logCall (HookCall.UnsetComment pos out.2)
        if out.2 then ⟨BaseScanner.Process.stopAfterTerminator start_pos self, out.1, true⟩
        else
          let self := { self with buffer_pos := self.buffer_pos + 1 }
          ⟨{ self with lines_read := BaseScanner.lines_read_incr self.lines_read }, out.1, false⟩
      else if !BaseScanner.Process.only_rn_newlines sm then
        let out := T.AddRow states result pos
        let self := self.logCall (HookCall.AddRow pos out.2)
        if out.2 then ⟨BaseScanner.Process.stopAfterTerminator start_pos self, out.1, true⟩
        else
          let self := { self with buffer_pos := self.buffer_pos + 1 }
          ⟨{ self with lines_read := BaseScanner.lines_read_incr self.lines_read }, out.1, false⟩
      else
        let self := { self with buffer_pos := self.buffer_pos + 1 }
        ⟨{ self with lines_read := BaseScanner.lines_read_incr self.lines_read }, result, false⟩
    else
      let self := { self with buffer_pos := self.buffer_pos + 1 }
      ⟨{ self with lines_read := BaseScanner.lines_read_incr self.lines_read }, result, false⟩
  | CSVState.DELIMITER =>
    let result := T.AddValue states result pos
    let self := self.logCall (HookCall.AddValue pos)
    ⟨{ self with buffer_pos := self.buffer_pos + 1 }, result, false⟩
  | CSVState.QUOTED =>
    let mark := decide (states.states_0 = CSVState.UNQUOTED ∨
      states.states_0 = CSVState.MAYBE_QUOTED) && BaseScanner.Process.has_escaped_value sm
    let self :=
      if mark then ({ self with ever_escaped := true }).logCall HookCall.SetEscaped else self
    let result := if mark then T.SetEscaped states result else result
    let self := { self with ever_quoted := true }
    let result := T.SetQuoted states result pos
    let self := self.logCall (HookCall.SetQuoted pos)
    ⟨{ self with buffer_pos := self.buffer_pos + 1 }, result, false⟩
  | CSVState.UNQUOTED =>
    let mark := decide (states.states_0 = CSVState.MAYBE_QUOTED)
    let self :=
      if mark then ({ self with ever_escaped := true }).logCall HookCall.SetEscaped else self
    let result := if mark then T.SetEscaped states result else result
    let result := T.SetUnquoted states result
    let self := self.logCall HookCall.SetUnquoted
    ⟨{ self with buffer_pos := self.buffer_pos + 1 }, result, false⟩
  | CSVState.ESCAPE | CSVState.UNQUOTED_ESCAPE | CSVState.ESCAPED_RETURN =>
    let result := T.SetEscaped states result
    let self := self.logCall HookCall.SetEscaped
    let self := { self with ever_escaped := true }
    ⟨{ self with buffer_pos := self.buffer_pos + 1 }, result, false⟩
  | CSVState.STANDARD =>
    ⟨{ self with buffer_pos := self.buffer_pos + 1 }, result, false⟩
  | CSVState.QUOTED_NEW_LINE =>
    let result := T.QuotedNewLine states result
    let self := self.logCall HookCall.QuotedNewLine
    ⟨{ self with buffer_pos := self.buffer_pos + 1 }, result, false⟩
  | CSVState.COMMENT =>
    let result := T.SetComment states result pos
    let self := self.logCall (HookCall.SetComment pos)
    ⟨{ self with buffer_pos := self.buffer_pos + 1 }, result, false⟩
  | _ =>
    ⟨{ self with buffer_pos := self.buffer_pos + 1 }, result, false⟩

/-- The reference walk over the bytes before `to_pos`, one `Transition` per byte. -/
def loop {R : Type} (sm : CSVStateMachine) (T : Behavior R) (buffer_handle_ptr : List Nat)
    (to_pos start_pos : Nat) : Nat → BaseScanner → R → BaseScanner × R
  | 0, self, result => ({ self with bytes_read := self.buffer_pos - start_pos }, result)
  | fuel + 1, self, result =>
    if self.buffer_pos < to_pos then
      let step := iteration sm T buffer_handle_ptr start_pos self result
      if step.returned then (step.scanner, step.result)
      else loop sm T buffer_handle_ptr to_pos start_pos fuel step.scanner step.result
    else ({ self with bytes_read := self.buffer_pos - start_pos }, result)

end BaseScanner.ByteWalk

/-- The reference walk over the chunk that `Process` scans: same chunk end, same start. -/
def BaseScanner.ByteWalk {R : Type} (sm : CSVStateMachine) (T : Behavior R)
    (IsBoundarySet : Bool) (GetEndPos actual_size : Nat) (buffer_handle_ptr : List Nat)
    (self : BaseScanner) (result : R) : BaseScanner × R :=
  let start_pos := self.buffer_pos
  let to_pos := BaseScanner.Process.to_pos IsBoundarySet GetEndPos actual_size
  BaseScanner.ByteWalk.loop sm T buffer_handle_ptr to_pos start_pos (to_pos - start_pos)
    self result

/-! ## A sample dialect and a sample behavior for the worked examples -/

/-- The 64-bit word all of whose eight bytes are `byte`. -/
def broadcast (byte : Nat) : Nat :=
  byte * 0x0101010101010101

/-- A sample transition table for a dialect with the given delimiter, quote, escape and comment
bytes (`0` switches quoting, escaping or comments off), `\n` and `\r` as line breaks.  Outside
quotes a byte is classified by itself; inside quotes everything but the quote and the escape
byte stays quoted; a closing quote followed by the quote byte (doubled quote) re-enters the
quoted state. -/
def sampleTable (delimiter quote escape comment : Nat) (byte : Nat) : CSVState → CSVState
  | CSVState.INVALID => CSVState.INVALID
  | CSVState.QUOTED =>
    if byte = quote ∧ quote ≠ 0 then CSVState.UNQUOTED
    else if byte = escape ∧ escape ≠ 0 then CSVState.ESCAPE
    else CSVState.QUOTED
  | CSVState.ESCAPE => CSVState.QUOTED
  | CSVState.UNQUOTED =>
    if byte = delimiter then CSVState.DELIMITER
    else if byte = 10 then CSVState.RECORD_SEPARATOR
    else if byte = 13 then CSVState.CARRIAGE_RETURN
    else if byte = quote ∧ quote = escape then CSVState.QUOTED
    else CSVState.INVALID
  | CSVState.COMMENT =>
    if byte = 10 then CSVState.RECORD_SEPARATOR
    else if byte = 13 then CSVState.CARRIAGE_RETURN
    else CSVState.COMMENT
  | CSVState.STANDARD =>
    if byte = delimiter then CSVState.DELIMITER
    else if byte = 10 then CSVState.RECORD_SEPARATOR
    else if byte = 13 then CSVState.CARRIAGE_RETURN
    else if byte = comment ∧ comment ≠ 0 then CSVState.COMMENT
    else CSVState.STANDARD
  | _ =>
    if byte = delimiter then CSVState.DELIMITER
    else if byte = 10 then CSVState.RECORD_SEPARATOR
    else if byte = 13 then CSVState.CARRIAGE_RETURN
    else if byte = quote ∧ quote ≠ 0 then CSVState.QUOTED
    else if byte = comment ∧ comment ≠ 0 then CSVState.COMMENT
    else CSVState.STANDARD

/-- The sample state machine: the sample table, skip tables that allow exactly the bytes that
are none of the special bytes of the state, broadcast masks of the special bytes, and the
given strictness and newline options. -/
def sampleMachine (delimiter quote escape comment : Nat) (strict_mode : CSVOption Bool)
    (new_line : CSVOption NewLineIdentifier) : CSVStateMachine :=
  let options : CSVStateMachineOptions :=
    { escape := escape, strict_mode := strict_mode, new_line := new_line }
  { transition_array :=
      { table := sampleTable delimiter quote escape comment
        skip_standard := fun b =>
          b != delimiter && b != 10 && b != 13 && b != escape && b != comment
        skip_quoted := fun b => b != quote && b != escape
        skip_comment := fun b => b != 10 && b != 13
        delimiter := broadcast delimiter
        new_line := broadcast 10
        carriage_return := broadcast 13
        quote := broadcast quote
        escape := broadcast escape
        comment := broadcast comment }
    state_machine_options := options
    dialect_options := { state_machine_options := options } }

/-- The flag hooks that `ScannerResult` defines, completed by hooks `AddValue`, `AddRow`,
`EmptyLine`, `QuotedNewLine` and `InvalidState` (which the base class leaves to the concrete
result types) that keep the flags as they are and never ask to stop. -/
def ScannerResult.behavior (sm : CSVStateMachine) : Behavior ScannerResult where
  InvalidState := fun _ result => result
  EmptyLine := fun _ result _ => (result, false)
  IsCommentSet := fun _ result => ScannerResult.IsCommentSet result
  UnsetComment := fun _ result buffer_pos => ScannerResult.UnsetComment result buffer_pos
  AddRow := fun _ result _ => (result, false)
  AddValue := fun _ result _ => result
  SetEscaped := fun _ result => ScannerResult.SetEscaped result
  SetQuoted := fun _ result quoted_position => ScannerResult.SetQuoted result quoted_position
  SetUnquoted := fun states result => ScannerResult.SetUnquoted sm states result
  QuotedNewLine := fun _ result => result
  SetComment := fun _ result buffer_pos => ScannerResult.SetComment result buffer_pos

/-- The sample behavior with an `AddRow` that asks to stop after every row (an output buffer
that holds one row). -/
def ScannerResult.stoppingBehavior (sm : CSVStateMachine) : Behavior ScannerResult :=
  { ScannerResult.behavior sm with AddRow := fun _ result _ => (result, true) }

/-- A scanner at the start of a stream: both states `NOT_SET`, cursor at `buffer_pos`, all
counters zero and empty logs. -/
def BaseScanner.fresh (buffer_pos : Nat) : BaseScanner :=
  { states := { states_0 := CSVState.NOT_SET, states_1 := CSVState.NOT_SET }
    buffer_pos := buffer_pos }

/-- The sample dialect of the CRLF examples in lenient mode: delimiter `,`, no quote, no
escape, no comment byte; neither `strict_mode` nor `new_line` set by the user. -/
def lenientMachine : CSVStateMachine :=
  sampleMachine 44 0 0 0 ⟨false, false⟩ ⟨NewLineIdentifier.OTHER 0, false⟩

/-- The sample dialect of the CRLF examples in strict CRLF-only mode: as `lenientMachine`, with
`strict_mode` and `new_line = CARRY_ON` both set by the user. -/
def strictMachine : CSVStateMachine :=
  sampleMachine 44 0 0 0 ⟨true, true⟩ ⟨NewLineIdentifier.CARRY_ON, true⟩

/-- The sample dialect with delimiter `,` and quote `"`, no escape byte. -/
def quoteMachine : CSVStateMachine :=
  sampleMachine 44 34 0 0 ⟨false, false⟩ ⟨NewLineIdentifier.OTHER 0, false⟩

/-- The sample dialect with delimiter `,`, quote `"` and escape `"` (doubled quotes). -/
def escapeMachine : CSVStateMachine :=
  sampleMachine 44 34 34 0 ⟨false, false⟩ ⟨NewLineIdentifier.OTHER 0, false⟩

/-- The sample dialect with delimiter `,`, quote `"`, escape `"` and comment byte `#`. -/
def commentMachine : CSVStateMachine :=
  sampleMachine 44 34 34 35 ⟨false, false⟩ ⟨NewLineIdentifier.OTHER 0, false⟩

/-- The bytes of `a,b\r\nc,d\r\n`. -/
def crlfInput : List Nat := [97, 44, 98, 13, 10, 99, 44, 100, 13, 10]

/-- The bytes of `"a,b",c`. -/
def quotedInput : List Nat := [34, 97, 44, 98, 34, 44, 99]

/-- The bytes of `"a""b",c`. -/
def escapedInput : List Nat := [34, 97, 34, 34, 98, 34, 44, 99]

/-- The bytes of `#note\na,b\n`. -/
def commentInput : List Nat := [35, 110, 111, 116, 101, 10, 97, 44, 98, 10]

/-- A full scan of `buffer` from a fresh scanner with the sample behavior: no boundary set,
`actual_size` the length of the buffer. -/
def fullScan (sm : CSVStateMachine) (buffer : List Nat) : BaseScanner × ScannerResult :=
  BaseScanner.Process sm (ScannerResult.behavior sm) false 0 buffer.length buffer
    (BaseScanner.fresh 0) {}

/-! ## Predicates on the logs -/

/-- The call is a call of `AddRow`. -/
def HookCall.isAddRow : HookCall → Bool
  | HookCall.AddRow _ _ => true
  | _ => false

/-- The position of an `AddValue` call. -/
def HookCall.addValuePos : HookCall → Option Nat
  | HookCall.AddValue buffer_pos => some buffer_pos
  | _ => none

/-- The call is one of the three hooks that can ask to stop, made at `buffer_pos`, and it
returned true. -/
def HookCall.stopsAt (buffer_pos : Nat) (c : HookCall) : Prop :=
  c = HookCall.AddRow buffer_pos true ∨ c = HookCall.EmptyLine buffer_pos true ∨
    c = HookCall.UnsetComment buffer_pos true

/-- The position of an `AddRow` call. -/
def HookCall.addRowPos : HookCall → Option Nat
  | HookCall.AddRow buffer_pos _ => some buffer_pos
  | _ => none

/-- The position of a logged `Transition` that came out in the `DELIMITER` state. -/
def delimiterPos (t : Nat × CSVStates) : Option Nat :=
  if t.2.states_1 = CSVState.DELIMITER then some t.1 else none

/-- The separators that count as a line: a byte in the `CARRIAGE_RETURN` state, or a byte in
the `RECORD_SEPARATOR` state whose previous state is not `CARRIAGE_RETURN`. -/
def countsLine (states : CSVStates) : Bool :=
  states.states_1 == CSVState.CARRIAGE_RETURN ||
    (states.states_1 == CSVState.RECORD_SEPARATOR &&
      states.states_0 != CSVState.CARRIAGE_RETURN)

/-- The previous state is one after which a line break ends a record: none of
`RECORD_SEPARATOR`, `NOT_SET` and `CARRIAGE_RETURN`. -/
def endsRecord (states : CSVStates) : Prop :=
  states.states_0 ≠ CSVState.RECORD_SEPARATOR ∧ states.states_0 ≠ CSVState.NOT_SET ∧
    states.states_0 ≠ CSVState.CARRIAGE_RETURN

instance endsRecord.decidable (states : CSVStates) : Decidable (endsRecord states) :=
  inferInstanceAs (Decidable (_ ∧ _ ∧ _))

/-- The situations in which `Process` marks the value as escaped: `QUOTED` after `UNQUOTED` or
`MAYBE_QUOTED` with a dialect escape byte other than `'\0'`, `UNQUOTED` after `MAYBE_QUOTED`,
and the states `ESCAPE`, `UNQUOTED_ESCAPE`, `ESCAPED_RETURN`. -/
def marksEscaped (sm : CSVStateMachine) (states : CSVStates) : Prop :=
  (states.states_1 = CSVState.QUOTED ∧
    (states.states_0 = CSVState.UNQUOTED ∨ states.states_0 = CSVState.MAYBE_QUOTED) ∧
    sm.dialect_options.state_machine_options.escape ≠ 0) ∨
  (states.states_1 = CSVState.UNQUOTED ∧ states.states_0 = CSVState.MAYBE_QUOTED) ∨
  states.states_1 = CSVState.ESCAPE ∨ states.states_1 = CSVState.UNQUOTED_ESCAPE ∨
  states.states_1 = CSVState.ESCAPED_RETURN

instance marksEscaped.decidable (sm : CSVStateMachine) (states : CSVStates) :
    Decidable (marksEscaped sm states) :=
  inferInstanceAs (Decidable (_ ∨ _ ∨ _ ∨ _ ∨ _))

/-! ## Agreement of masks and skip tables with the transition function -/

/-- The byte of index `i` (0 the lowest) of the 64-bit word `v`. -/
def byteOfWord (v i : Nat) : Nat :=
  v / 256 ^ i % 256

/-- The broadcast masks and the skip tables of the automaton agree with its transition
function: every byte that a skip table allows to be skipped in its state (`STANDARD`, `QUOTED`,
`COMMENT`) is one on which the transition table stays in that state, and so is every byte of an
8-byte word on which the word test of that state finds no special byte. -/
def SkipAgrees (sm : CSVStateMachine) : Prop :=
  (∀ b, b < 256 → sm.transition_array.skip_standard b = true →
    sm.transition_array.table b CSVState.STANDARD = CSVState.STANDARD) ∧
  (∀ b, b < 256 → sm.transition_array.skip_quoted b = true →
    sm.transition_array.table b CSVState.QUOTED = CSVState.QUOTED) ∧
  (∀ b, b < 256 → sm.transition_array.skip_comment b = true →
    sm.transition_array.table b CSVState.COMMENT = CSVState.COMMENT) ∧
  (∀ v i, v < 2 ^ 64 → i < 8 → BaseScanner.Process.standardSpecial sm v = false →
    sm.transition_array.table (byteOfWord v i) CSVState.STANDARD = CSVState.STANDARD) ∧
  (∀ v i, v < 2 ^ 64 → i < 8 → BaseScanner.Process.quotedSpecial sm v = false →
    sm.transition_array.table (byteOfWord v i) CSVState.QUOTED = CSVState.QUOTED) ∧
  (∀ v i, v < 2 ^ 64 → i < 8 → BaseScanner.Process.commentSpecial sm v = false →
    sm.transition_array.table (byteOfWord v i) CSVState.COMMENT = CSVState.COMMENT)

/-- A `SetQuoted` call made inside a quoted span right after a `SetQuoted` call changes
nothing, and likewise for `SetComment` inside a comment. -/
def Behavior.AbsorbsRepeats {R : Type} (T : Behavior R) : Prop :=
  (∀ (states : CSVStates) (result : R) (p q : Nat),
    T.SetQuoted ⟨CSVState.QUOTED, CSVState.QUOTED⟩ (T.SetQuoted states result p) q
      = T.SetQuoted states result p) ∧
  (∀ (states : CSVStates) (result : R) (p q : Nat),
    T.SetComment ⟨CSVState.COMMENT, CSVState.COMMENT⟩ (T.SetComment states result p) q
      = T.SetComment states result p)

/-- The call is a call of `SetQuoted` or of `SetComment`, the two hooks that the byte-at-a-time
walk repeats at every byte of a quoted span or of a comment. -/
def HookCall.isSpanMark : HookCall → Bool
  | HookCall.SetQuoted _ => true
  | HookCall.SetComment _ => true
  | _ => false

/-- The skip loops that the case of the state `cur` runs after `buffer_pos++`; the other cases
run none. -/
def BaseScanner.Process.skipLoopsOf (sm : CSVStateMachine) (cur : CSVState)
    (buffer_handle_ptr : List Nat) (to_pos : Nat) (self : BaseScanner) : BaseScanner :=
  match cur with
  | CSVState.QUOTED =>
    BaseScanner.Process.skipLoops (BaseScanner.Process.quotedSpecial sm)
      sm.transition_array.skip_quoted buffer_handle_ptr to_pos self
  | CSVState.STANDARD =>
    BaseScanner.Process.skipLoops (BaseScanner.Process.standardSpecial sm)
      sm.transition_array.skip_standard buffer_handle_ptr to_pos self
  | CSVState.COMMENT =>
    BaseScanner.Process.skipLoops (BaseScanner.Process.commentSpecial sm)
      sm.transition_array.skip_comment buffer_handle_ptr to_pos self
  | _ => self

/-- The scanner fields that `Process` works on, without the previous state and the logs. -/
def BaseScanner.core (self : BaseScanner) : CSVState × Bool × Bool × Nat × Nat × Nat :=
  (self.states.states_1, self.ever_quoted, self.ever_escaped, self.buffer_pos,
    self.lines_read, self.bytes_read)

/-- The bytes of `"abc",d`. -/
def quotedSpanInput : List Nat := [34, 97, 98, 99, 34, 44, 100]

/-! ## Further predicates on the logs and the empty-line example -/

/-- The position of an `EmptyLine` call. -/
def HookCall.emptyLinePos : HookCall → Option Nat
  | HookCall.EmptyLine buffer_pos _ => some buffer_pos
  | _ => none

/-- The call is a call of `UnsetComment`. -/
def HookCall.isUnsetComment : HookCall → Bool
  | HookCall.UnsetComment _ _ => true
  | _ => false

/-- The byte is a line break on an empty line: it came out as `RECORD_SEPARATOR` or
`CARRIAGE_RETURN` and the previous state is `RECORD_SEPARATOR` or `NOT_SET`. -/
def isEmptyLine (states : CSVStates) : Prop :=
  (states.states_1 = CSVState.RECORD_SEPARATOR ∨ states.states_1 = CSVState.CARRIAGE_RETURN) ∧
  (states.states_0 = CSVState.RECORD_SEPARATOR ∨ states.states_0 = CSVState.NOT_SET)

instance isEmptyLine.decidable (states : CSVStates) : Decidable (isEmptyLine states) :=
  inferInstanceAs (Decidable (_ ∧ _))

/-- The position of a logged `Transition` that came out as a line break on an empty line. -/
def emptyLinePosOf (t : Nat × CSVStates) : Option Nat :=
  if isEmptyLine t.2 then some t.1 else none

/-- The bytes of `a,b\n\nc,d\n`. -/
def emptyLineInput : List Nat := [97, 44, 98, 10, 10, 99, 44, 100, 10]

/-! ## `LinePosition`: distance and global position -/

/-- `LinePosition::operator-`, `self - other`, in the arithmetic of `idx_t` (64 bits); the
fields are values of `idx_t`, that is below `2^64`. -/
def LinePosition.sub (self other : LinePosition) : Nat :=
  if other.buffer_idx = self.buffer_idx then
    (self.buffer_pos + 2 ^ 64 - other.buffer_pos) % 2 ^ 64
  else
    ((other.buffer_size + 2 ^ 64 - other.buffer_pos) % 2 ^ 64 + self.buffer_pos) % 2 ^ 64

/-- `LinePosition::GetGlobalPosition` in the arithmetic of `idx_t`. -/
def LinePosition.GetGlobalPosition (self : LinePosition) (requested_buffer_size : Nat)
    (first_char_nl : Bool := false) : Nat :=
  (requested_buffer_size * self.buffer_idx + self.buffer_pos +
    (if first_char_nl then 1 else 0)) % 2 ^ 64

/-- The reference distance of the specification, over the integers: the offset difference for
two positions in the same segment, `other.buffer_size - other.offset + this.offset` across
segments. -/
def LinePosition.Distance (self other : LinePosition) : Int :=
  if self.buffer_idx = other.buffer_idx then
    (self.buffer_pos : Int) - other.buffer_pos
  else
    (other.buffer_size : Int) - other.buffer_pos + self.buffer_pos

/-- The offset of a position in the byte stream made of consecutive segments of the sizes
`sizes`: the bytes of the segments before its own, and its offset in its own segment. -/
def streamOffset (sizes : List Nat) (p : LinePosition) : Nat :=
  (sizes.take p.buffer_idx).sum + p.buffer_pos

/-! ## The special bytes behind the broadcast masks -/

/-- The six masks of the automaton are the broadcasts of the six given bytes. -/
def BroadcastMasks (sm : CSVStateMachine)
    (delimiter new_line carriage_return quote escape comment : Nat) : Prop :=
  (delimiter < 256 ∧ new_line < 256 ∧ carriage_return < 256 ∧ quote < 256 ∧ escape < 256 ∧
    comment < 256) ∧
  sm.transition_array.delimiter = broadcast delimiter ∧
  sm.transition_array.new_line = broadcast new_line ∧
  sm.transition_array.carriage_return = broadcast carriage_return ∧
  sm.transition_array.quote = broadcast quote ∧
  sm.transition_array.escape = broadcast escape ∧
  sm.transition_array.comment = broadcast comment

/-- The bytes of `a\tbcdefg`: a word with a tab and neither `\n` nor `\r`. -/
def tabInput : List Nat := [97, 9, 98, 99, 100, 101, 102, 103]

/-! ## The calls that C21 compares -/

/-- The call is one of `AddValue`, `AddRow`, `EmptyLine`, `UnsetComment`, `QuotedNewLine` and
`InvalidState`. -/
def HookCall.isOutputCall : HookCall → Bool
  | HookCall.AddValue _ => true
  | HookCall.AddRow _ _ => true
  | HookCall.EmptyLine _ _ => true
  | HookCall.UnsetComment _ _ => true
  | HookCall.QuotedNewLine => true
  | HookCall.InvalidState => true
  | _ => false

/-! ## `ParseChunkInternal` -/

/-- The member functions that `ParseChunkInternal` calls. -/
inductive LifecycleCall where
  | Initialize
  | Process
  | FinalizeChunkProcess
deriving DecidableEq, Repr

/-- The scanner object as `ParseChunkInternal` sees it: the fields that `Process` works on
(with the logs of hook calls, `Transition` calls and reads), the result that is passed along,
and the members `iterator.done`, `cur_buffer_handle`, `buffer_handle_ptr` and `initialized`;
`IsBoundarySet` and `GetEndPos` are the answers of `iterator`. -/
structure ChunkScanner (R : Type) where
  scanner : BaseScanner
  result : R
  /-- The flag `iterator.done`. -/
  done : Bool
  IsBoundarySet : Bool
  GetEndPos : Nat
  /-- The pointer `cur_buffer_handle`: `none` when null, else the `actual_size` of the bound
  segment. -/
  cur_buffer_handle : Option Nat
  buffer_handle_ptr : List Nat
  initialized : Bool := false

/-- The member `BaseScanner::ParseChunkInternal`, returning the scanner it leaves behind and
the member functions it called, in order.  The virtual functions `Initialize` and `FinalizeChunkProcess`
are defined by the concrete scanners, outside this header; they are parameters, and each may
change every member of the scanner. -/
def BaseScanner.ParseChunkInternal {R : Type} (sm : CSVStateMachine) (T : Behavior R)
    (Initialize FinalizeChunkProcess : ChunkScanner R → ChunkScanner R)
    (self : ChunkScanner R) : ChunkScanner R × List LifecycleCall :=
  if self.done then (self, [])
  else
    let step1 : ChunkScanner R × List LifecycleCall :=
      if !self.initialized then
        ({ Initialize self with initialized := true }, [LifecycleCall.Initialize])
      else (self, [])
    let step2 : ChunkScanner R × List LifecycleCall :=
      match step1.1.cur_buffer_handle with
      | some actual_size =>
        if !step1.1.done then
          let out := BaseScanner.Process sm T step1.1.IsBoundarySet step1.1.GetEndPos
            actual_size step1.1.buffer_handle_ptr step1.1.scanner step1.1.result
          ({ step1.1 with scanner := out.1, result := out.2 },
            step1.2 ++ [LifecycleCall.Process])
        else step1
      | none => step1
    (FinalizeChunkProcess step2.1, step2.2 ++ [LifecycleCall.FinalizeChunkProcess])

/-- A sequence of `ParseChunkInternal` calls on one scanner: before each call, other code may
act on the scanner (`SetIterator` for instance), which is the element of the list for that
call.  The outcome is the scanner after the last call and, for each call in order, the value
of `iterator.done` on entry and the member functions that the call made. -/
def BaseScanner.ParseChunks {R : Type} (sm : CSVStateMachine) (T : Behavior R)
    (Initialize FinalizeChunkProcess : ChunkScanner R → ChunkScanner R) :
    List (ChunkScanner R → ChunkScanner R) → ChunkScanner R →
      ChunkScanner R × List (Bool × List LifecycleCall)
  | [], self => (self, [])
  | between :: rest, self =>
    let self := between self
    let out := BaseScanner.ParseChunkInternal sm T Initialize FinalizeChunkProcess self
    let tail := BaseScanner.ParseChunks sm T Initialize FinalizeChunkProcess rest out.1
    (tail.1, (self.done, out.2) :: tail.2)

/-- A sample `Initialize`: binds the segment `a,b\r\nc,d\r\n`. -/
def sampleInitialize (self : ChunkScanner ScannerResult) : ChunkScanner ScannerResult :=
  { self with cur_buffer_handle := some 10, buffer_handle_ptr := crlfInput }

/-- A sample `FinalizeChunkProcess`: the range is done once the cursor is at the end of the
segment. -/
def sampleFinalizeChunkProcess (self : ChunkScanner ScannerResult) :
    ChunkScanner ScannerResult :=
  { self with done := decide (10 ≤ self.scanner.buffer_pos) }

/-- A scanner object fresh from its constructor, with a range that is not done. -/
def ChunkScanner.fresh : ChunkScanner ScannerResult :=
  { scanner := BaseScanner.fresh 0, result := {}, done := false, IsBoundarySet := false,
    GetEndPos := 0, cur_buffer_handle := none, buffer_handle_ptr := [] }

/-! ## `interval.cpp`: types and constants -/

/-- The struct `interval_t`: `months` and `days` are `int32_t`, `micros` is `int64_t`. -/
structure interval_t where
  months : Int
  days : Int
  micros : Int
deriving DecidableEq, Repr

/-- The struct `dtime_t`: microseconds since midnight, an `int64_t`. -/
structure dtime_t where
  micros : Int
deriving DecidableEq, Repr

/-- The struct `date_t`: days since the epoch, an `int32_t`. -/
structure date_t where
  days : Int
deriving DecidableEq, Repr

/-- The integer type `T` that `IntervalTryAddition` is instantiated with. -/
inductive IntervalField where
  | int32_t
  | int64_t
deriving DecidableEq, Repr

/-- The value is representable in the integer type. -/
def IntervalField.fits : IntervalField → Int → Bool
  | IntervalField.int32_t, v => decide (-2147483648 ≤ v ∧ v ≤ 2147483647)
  | IntervalField.int64_t, v => decide (-9223372036854775808 ≤ v ∧ v ≤ 9223372036854775807)

/-- The narrowing conversion `UnsafeNumericCast<int32_t>` of the `int64_t` value `v` (two's
complement). -/
def wrap_int32 (v : Int) : Int :=
  (v + 2147483648) % 4294967296 - 2147483648

namespace Interval

/-- The constants of `interval.hpp`, a header outside the sources at hand, with the values of
the calendar that the header gives them. -/
def MONTHS_PER_MILLENIUM : Int := 12000

/-- See `MONTHS_PER_MILLENIUM`. -/
def MONTHS_PER_CENTURY : Int := 1200

/-- See `MONTHS_PER_MILLENIUM`. -/
def MONTHS_PER_DECADE : Int := 120

/-- See `MONTHS_PER_MILLENIUM`. -/
def MONTHS_PER_YEAR : Int := 12

/-- See `MONTHS_PER_MILLENIUM`. -/
def MONTHS_PER_QUARTER : Int := 3

/-- See `MONTHS_PER_MILLENIUM`. -/
def DAYS_PER_WEEK : Int := 7

/-- See `MONTHS_PER_MILLENIUM`; a month of an interval has 30 days. -/
def DAYS_PER_MONTH : Int := 30

/-- See `MONTHS_PER_MILLENIUM`. -/
def MICROS_PER_MSEC : Int := 1000

/-- See `MONTHS_PER_MILLENIUM`. -/
def MICROS_PER_SEC : Int := 1000000

/-- See `MONTHS_PER_MILLENIUM`. -/
def MICROS_PER_MINUTE : Int := 60000000

/-- See `MONTHS_PER_MILLENIUM`. -/
def MICROS_PER_HOUR : Int := 3600000000

/-- See `MONTHS_PER_MILLENIUM`. -/
def MICROS_PER_DAY : Int := 86400000000

end Interval

/-- The ways in which `IntervalTryAddition` and the specifier switch of
`Interval::FromCString` fail: the two exceptions that the code throws, the exception of a
failing `Cast::Operation<int64_t, T>` (for the value term and for the fraction term), a
signed overflow of an `int64_t` computation that the code does not check (the product
`fraction * multiplier`, the reduction `fraction *= k`, the rounding `number += ...`), and the
specifier that the switch does not support. -/
inductive IntervalError where
  | value_out_of_range
  | fraction_out_of_range
  | value_cast
  | fraction_cast
  | fraction_product_overflow
  | fraction_reduction_overflow
  | rounding_overflow
  | specifier_not_supported
deriving DecidableEq, Repr

/-- The function `IntervalTryAddition<T>(target, input, multiplier, fraction)`; the new value
of `target` is returned.  Division is the truncating division of C++. -/
def IntervalTryAddition (T : IntervalField) (target input multiplier fraction : Int) :
    Except IntervalError Int :=
  if !IntervalField.int64_t.fits (input * multiplier) then
    Except.error IntervalError.value_out_of_range
  else
    let addition := input * multiplier
    if !T.fits addition then Except.error IntervalError.value_cast
    else
      let addition_base := addition
      if !T.fits (target + addition_base) then Except.error IntervalError.value_out_of_range
      else
        let target := target + addition_base
        if fraction ≠ 0 then
          if !IntervalField.int64_t.fits (fraction * multiplier) then
            Except.error IntervalError.fraction_product_overflow
          else
            let addition := (fraction * multiplier).tdiv Interval.MICROS_PER_SEC
            if !T.fits addition then Except.error IntervalError.fraction_cast
            else
              let addition_base := addition
              if !T.fits (target + addition_base) then
                Except.error IntervalError.fraction_out_of_range
              else Except.ok (target + addition_base)
        else Except.ok target

/-- The enum `DatePartSpecifier` of `date_part_specifier.hpp`, a header outside the sources
at hand: the specifiers that the switch of `Interval::FromCString` names; `OTHER` stands for
all the others, which take the `default` branch. -/
inductive DatePartSpecifier where
  | MILLENNIUM
  | CENTURY
  | DECADE
  | YEAR
  | QUARTER
  | MONTH
  | DAY
  | WEEK
  | MICROSECONDS
  | MILLISECONDS
  | SECOND
  | MINUTE
  | HOUR
  | OTHER (tag : Nat)
deriving DecidableEq, Repr

namespace Interval.FromCString

/-- The loop of `Interval::FromCString` that reads the digits after the decimal point:
`for (++pos; pos < len && CharacterIsDigit(str[pos]); ++pos, mult /= 10)
 if (mult > 0) fraction += int64_t(str[pos] - '0') * mult;`
on the characters from `pos + 1` on. -/
def fractionLoop : List Nat → Int → Int → Int
  | [], _, fraction => fraction
  | c :: rest, mult, fraction =>
    if 48 ≤ c ∧ c ≤ 57 then
      fractionLoop rest (mult.tdiv 10)
        (if mult > 0 then fraction + ((c : Int) - 48) * mult else fraction)
    else fraction

/-- The fraction that `Interval::FromCString` has parsed when it reaches the specifier:
`fraction = 0`, the loop with `mult = 100000` when the number ends in `.`, and the negation
for a negative number; `digits` are the characters after the decimal point. -/
def parseFraction (has_point : Bool) (digits : List Nat) (negative : Bool) : Int :=
  let fraction : Int := 0
  let fraction := if has_point then fractionLoop digits 100000 fraction else fraction
  if negative then -fraction else fraction

/-- The switch `switch (specifier)` of `Interval::FromCString` that adds `number` and
`fraction` of the specifier to the interval. -/
def addSpecifier (specifier : DatePartSpecifier) (result : interval_t) (number fraction : Int) :
    Except IntervalError interval_t :=
  match specifier with
  | DatePartSpecifier.MILLENNIUM =>
    (IntervalTryAddition IntervalField.int32_t result.months number MONTHS_PER_MILLENIUM
      fraction).map fun months => { result with months := months }
  | DatePartSpecifier.CENTURY =>
    (IntervalTryAddition IntervalField.int32_t result.months number MONTHS_PER_CENTURY
      fraction).map fun months => { result with months := months }
  | DatePartSpecifier.DECADE =>
    (IntervalTryAddition IntervalField.int32_t result.months number MONTHS_PER_DECADE
      fraction).map fun months => { result with months := months }
  | DatePartSpecifier.YEAR =>
    (IntervalTryAddition IntervalField.int32_t result.months number MONTHS_PER_YEAR
      fraction).map fun months => { result with months := months }
  | DatePartSpecifier.QUARTER =>
    (IntervalTryAddition IntervalField.int32_t result.months number MONTHS_PER_QUARTER
      fraction).bind fun months =>
    let result := { result with months := months }
    if !IntervalField.int64_t.fits (fraction * MONTHS_PER_QUARTER) then
      Except.error IntervalError.fraction_reduction_overflow
    else
      let fraction := fraction * MONTHS_PER_QUARTER
      let fraction := fraction.tmod MICROS_PER_SEC
      (IntervalTryAddition IntervalField.int32_t result.days 0 DAYS_PER_MONTH fraction).map
        fun days => { result with days := days }
  | DatePartSpecifier.MONTH =>
    (IntervalTryAddition IntervalField.int32_t result.months number 1 0).bind fun months =>
    let result := { result with months := months }
    (IntervalTryAddition IntervalField.int32_t result.days 0 DAYS_PER_MONTH fraction).map
      fun days => { result with days := days }
  | DatePartSpecifier.DAY =>
    (IntervalTryAddition IntervalField.int32_t result.days number 1 0).bind fun days =>
    let result := { result with days := days }
    (IntervalTryAddition IntervalField.int64_t result.micros 0 MICROS_PER_DAY fraction).map
      fun micros => { result with micros := micros }
  | DatePartSpecifier.WEEK =>
    (IntervalTryAddition IntervalField.int32_t result.days number DAYS_PER_WEEK
      fraction).bind fun days =>
    let result := { result with days := days }
    if !IntervalField.int64_t.fits (fraction * DAYS_PER_WEEK) then
      Except.error IntervalError.fraction_reduction_overflow
    else
      let fraction := fraction * DAYS_PER_WEEK
      let fraction := fraction.tmod MICROS_PER_SEC
      (IntervalTryAddition IntervalField.int64_t result.micros 0 MICROS_PER_DAY fraction).map
        fun micros => { result with micros := micros }
  | DatePartSpecifier.MICROSECONDS =>
    if !IntervalField.int64_t.fits (fraction * 2) ||
        !IntervalField.int64_t.fits (number + (fraction * 2).tdiv MICROS_PER_SEC) then
      Except.error IntervalError.rounding_overflow
    else
      let number := number + (fraction * 2).tdiv MICROS_PER_SEC
      (IntervalTryAddition IntervalField.int64_t result.micros number 1 0).map
        fun micros => { result with micros := micros }
  | DatePartSpecifier.MILLISECONDS =>
    (IntervalTryAddition IntervalField.int64_t result.micros number MICROS_PER_MSEC
      fraction).map fun micros => { result with micros := micros }
  | DatePartSpecifier.SECOND =>
    (IntervalTryAddition IntervalField.int64_t result.micros number MICROS_PER_SEC
      fraction).map fun micros => { result with micros := micros }
  | DatePartSpecifier.MINUTE =>
    (IntervalTryAddition IntervalField.int64_t result.micros number MICROS_PER_MINUTE
      fraction).map fun micros => { result with micros := micros }
  | DatePartSpecifier.HOUR =>
    (IntervalTryAddition IntervalField.int64_t result.micros number MICROS_PER_HOUR
      fraction).map fun micros => { result with micros := micros }
  | DatePartSpecifier.OTHER _ => Except.error IntervalError.specifier_not_supported

end Interval.FromCString

/-- The function `Interval::FromMicro`. -/
def Interval.FromMicro (delta_us : Int) : interval_t :=
  { months := 0
    days := wrap_int32 (delta_us.tdiv Interval.MICROS_PER_DAY)
    micros := delta_us.tmod Interval.MICROS_PER_DAY }

/-- The overload `Interval::Add(dtime_t left, interval_t right, date_t &date)`: the time that
is returned and the date that is left in `date`.  None of the signed computations of the
function is checked; each of them is followed here by the test that its exact value is
representable, and the function has no result (`none`) when one is not, a signed overflow
being undefined. -/
def Interval.Add (left : dtime_t) (right : interval_t) (date : date_t) :
    Option (dtime_t × date_t) :=
  let product := right.micros.tdiv Interval.MICROS_PER_DAY * Interval.MICROS_PER_DAY
  if !IntervalField.int64_t.fits product then none
  else if !IntervalField.int64_t.fits (right.micros - product) then none
  else
    let diff := right.micros - product
    if !IntervalField.int64_t.fits (left.micros + diff) then none
    else
      let left : dtime_t := { micros := left.micros + diff }
      if left.micros ≥ Interval.MICROS_PER_DAY then
        if !IntervalField.int64_t.fits (left.micros - Interval.MICROS_PER_DAY) then none
        else if !IntervalField.int32_t.fits (date.days + 1) then none
        else
          some ({ micros := left.micros - Interval.MICROS_PER_DAY }, { days := date.days + 1 })
      else if left.micros < 0 then
        if !IntervalField.int64_t.fits (left.micros + Interval.MICROS_PER_DAY) then none
        else if !IntervalField.int32_t.fits (date.days - 1) then none
        else
          some ({ micros := left.micros + Interval.MICROS_PER_DAY }, { days := date.days - 1 })
      else some (left, date)

/-! ## Frame lemmas for the skip loops -/

namespace BaseScanner.Process

theorem wordLoop_frame (special : Nat → Bool) (buf : List Nat) (to_pos : Nat) :
    ∀ (fuel : Nat) (s : BaseScanner),
      (wordLoop special buf to_pos fuel s).states = s.states ∧
      (wordLoop special buf to_pos fuel s).ever_quoted = s.ever_quoted ∧
      (wordLoop special buf to_pos fuel s).ever_escaped = s.ever_escaped ∧
      (wordLoop special buf to_pos fuel s).lines_read = s.lines_read ∧
      (wordLoop special buf to_pos fuel s).bytes_read = s.bytes_read ∧
      (wordLoop special buf to_pos fuel s).calls = s.calls ∧
      (wordLoop special buf to_pos fuel s).transitions = s.transitions := by
  intro fuel
  induction fuel with
  | zero => intro s; simp [wordLoop]
  | succ n ih =>
    intro s
    unfold wordLoop
    by_cases h : s.buffer_pos + 8 < to_pos
    · by_cases hs : special (BaseScanner.Load buf s.buffer_pos) = true
      · simp [h, hs]
      · simp only [h, hs, if_true, if_false]
        exact ih _
    · simp [h]

theorem tableLoop_frame (skip : Nat → Bool) (buf : List Nat) (to_pos : Nat) :
    ∀ (fuel : Nat) (s : BaseScanner),
      (tableLoop skip buf to_pos fuel s).states = s.states ∧
      (tableLoop skip buf to_pos fuel s).ever_quoted = s.ever_quoted ∧
      (tableLoop skip buf to_pos fuel s).ever_escaped = s.ever_escaped ∧
      (tableLoop skip buf to_pos fuel s).lines_read = s.lines_read ∧
      (tableLoop skip buf to_pos fuel s).bytes_read = s.bytes_read ∧
      (tableLoop skip buf to_pos fuel s).calls = s.calls ∧
      (tableLoop skip buf to_pos fuel s).transitions = s.transitions := by
  intro fuel
  induction fuel with
  | zero => intro s; simp [tableLoop]
  | succ n ih =>
    intro s
    unfold tableLoop
    by_cases h : (skip (BaseScanner.byteAt buf s.buffer_pos) &&
        decide (s.buffer_pos < to_pos - 1)) = true
    · simp only [h, if_true]
      exact ih _
    · simp [h]

theorem skipLoops_frame (special skip : Nat → Bool) (buf : List Nat) (to_pos : Nat)
    (s : BaseScanner) :
      (skipLoops special skip buf to_pos s).states = s.states ∧
      (skipLoops special skip buf to_pos s).ever_quoted = s.ever_quoted ∧
      (skipLoops special skip buf to_pos s).ever_escaped = s.ever_escaped ∧
      (skipLoops special skip buf to_pos s).lines_read = s.lines_read ∧
      (skipLoops special skip buf to_pos s).bytes_read = s.bytes_read ∧
      (skipLoops special skip buf to_pos s).calls = s.calls ∧
      (skipLoops special skip buf to_pos s).transitions = s.transitions := by
  unfold skipLoops
  obtain ⟨a1, a2, a3, a4, a5, a6, a7⟩ :=
    tableLoop_frame skip buf to_pos to_pos (wordLoop special buf to_pos to_pos s)
  obtain ⟨b1, b2, b3, b4, b5, b6, b7⟩ := wordLoop_frame special buf to_pos to_pos s
  exact ⟨a1.trans b1, a2.trans b2, a3.trans b3, a4.trans b4, a5.trans b5, a6.trans b6,
    a7.trans b7⟩

@[simp] theorem skipLoops_states (special skip : Nat → Bool) (buf : List Nat) (to_pos : Nat)
    (s : BaseScanner) : (skipLoops special skip buf to_pos s).states = s.states :=
  (skipLoops_frame special skip buf to_pos s).1

@[simp] theorem skipLoops_ever_quoted (special skip : Nat → Bool) (buf : List Nat)
    (to_pos : Nat) (s : BaseScanner) :
    (skipLoops special skip buf to_pos s).ever_quoted = s.ever_quoted :=
  (skipLoops_frame special skip buf to_pos s).2.1

@[simp] theorem skipLoops_ever_escaped (special skip : Nat → Bool) (buf : List Nat)
    (to_pos : Nat) (s : BaseScanner) :
    (skipLoops special skip buf to_pos s).ever_escaped = s.ever_escaped :=
  (skipLoops_frame special skip buf to_pos s).2.2.1

@[simp] theorem skipLoops_lines_read (special skip : Nat → Bool) (buf : List Nat)
    (to_pos : Nat) (s : BaseScanner) :
    (skipLoops special skip buf to_pos s).lines_read = s.lines_read :=
  (skipLoops_frame special skip buf to_pos s).2.2.2.1

@[simp] theorem skipLoops_bytes_read (special skip : Nat → Bool) (buf : List Nat)
    (to_pos : Nat) (s : BaseScanner) :
    (skipLoops special skip buf to_pos s).bytes_read = s.bytes_read :=
  (skipLoops_frame special skip buf to_pos s).2.2.2.2.1

@[simp] theorem skipLoops_calls (special skip : Nat → Bool) (buf : List Nat) (to_pos : Nat)
    (s : BaseScanner) : (skipLoops special skip buf to_pos s).calls = s.calls :=
  (skipLoops_frame special skip buf to_pos s).2.2.2.2.2.1

@[simp] theorem skipLoops_transitions (special skip : Nat → Bool) (buf : List Nat)
    (to_pos : Nat) (s : BaseScanner) :
    (skipLoops special skip buf to_pos s).transitions = s.transitions :=
  (skipLoops_frame special skip buf to_pos s).2.2.2.2.2.2

/-! ## One pass of the main loop -/

/-- Every pass logs exactly one `Transition`: the byte under the cursor. -/
theorem iteration_transitions {R : Type} (sm : CSVStateMachine) (T : Behavior R)
    (buf : List Nat) (to_pos start_pos : Nat) (s : BaseScanner) (r : R) :
    (iteration sm T buf to_pos start_pos s r).scanner.transitions =
      s.transitions ++
        [(s.buffer_pos, sm.Transition s.states (BaseScanner.byteAt buf s.buffer_pos))] := by
  unfold iteration
  cases h : (sm.Transition s.states (BaseScanner.byteAt buf s.buffer_pos)).states_1 <;>
    simp only [h, BaseScanner.logCall, stopAfterTerminator, skipLoops_transitions] <;>
    (try split_ifs) <;> simp_all

/-- The effect of one pass on `lines_read`. -/
theorem iteration_lines_read {R : Type} (sm : CSVStateMachine) (T : Behavior R)
    (buf : List Nat) (to_pos start_pos : Nat) (s : BaseScanner) (r : R) :
    (iteration sm T buf to_pos start_pos s r).scanner.lines_read =
      if countsLine (sm.Transition s.states (BaseScanner.byteAt buf s.buffer_pos)) then
        (s.lines_read + 1) % 2 ^ 64
      else s.lines_read := by
  unfold iteration
  cases h : (sm.Transition s.states (BaseScanner.byteAt buf s.buffer_pos)).states_1 <;>
    simp only [h, countsLine, BaseScanner.logCall, stopAfterTerminator,
      BaseScanner.lines_read_incr, skipLoops_lines_read] <;>
    (try split_ifs) <;> simp_all

/-- A property of scanner and result that every pass of the loop body and the final
assignment of `bytes_read` preserve holds when the loop is left. -/
theorem loop_invariant {R : Type} (sm : CSVStateMachine) (T : Behavior R) (buf : List Nat)
    (to_pos start_pos : Nat) (P : BaseScanner → R → Prop)
    (hiter : ∀ s r, s.buffer_pos < to_pos → P s r →
      P (iteration sm T buf to_pos start_pos s r).scanner
        (iteration sm T buf to_pos start_pos s r).result)
    (hexit : ∀ s r, P s r → P { s with bytes_read := s.buffer_pos - start_pos } r) :
    ∀ (fuel : Nat) (s : BaseScanner) (r : R), P s r →
      P (loop sm T buf to_pos start_pos fuel s r).1 (loop sm T buf to_pos start_pos fuel s r).2 := by
  intro fuel
  induction fuel with
  | zero => intro s r h; exact hexit s r h
  | succ n ih =>
    intro s r h
    unfold loop
    by_cases hp : s.buffer_pos < to_pos
    · simp only [hp, if_true]
      by_cases hr : (iteration sm T buf to_pos start_pos s r).returned = true
      · simp only [hr, if_true]
        exact hiter s r hp h
      · simp only [hr]
        exact ih _ _ (hiter s r hp h)
    · simp only [hp, if_false]
      exact hexit s r h

end BaseScanner.Process

/-! ## C2: reads and the valid length -/

/-- C2 (evaluation at the failing input): the segment holds the single byte `a`, so its valid
length is 1; a boundary is set with range end 5, which is clamped to 1.  `Process` feeds byte 0
to `Transition` (state `STANDARD`), advances the cursor to 1 and then evaluates the condition
of the table loop, whose first operand looks up `skip_standard[buffer_handle_ptr[1]]`: the read
log ends with index 1, which is not below the valid length. -/
theorem Process_reads_index_at_actual_size :
    (BaseScanner.Process lenientMachine (ScannerResult.behavior lenientMachine) true 5 1 [97]
      (BaseScanner.fresh 0) {}).1.reads = [0, 1] ∧
    BaseScanner.Process.to_pos true 5 1 = 1 ∧
    ¬ (∀ i ∈ (BaseScanner.Process lenientMachine (ScannerResult.behavior lenientMachine)
        true 5 1 [97] (BaseScanner.fresh 0) {}).1.reads, i < 1) := by
  decide

/-! ## C4: the invalid state -/

namespace BaseScanner.Process

/-- The pass of the loop body on a byte that yields `INVALID`. -/
theorem iteration_invalid {R : Type} (sm : CSVStateMachine) (T : Behavior R) (buf : List Nat)
    (to_pos start_pos : Nat) (s : BaseScanner) (r : R)
    (hinv : (sm.Transition s.states (BaseScanner.byteAt buf s.buffer_pos)).states_1
      = CSVState.INVALID) :
    iteration sm T buf to_pos start_pos s r =
      ⟨{ s with
          states := sm.Transition s.states (BaseScanner.byteAt buf s.buffer_pos)
          transitions := s.transitions ++
            [(s.buffer_pos, sm.Transition s.states (BaseScanner.byteAt buf s.buffer_pos))]
          reads := s.reads ++ [s.buffer_pos]
          calls := s.calls ++ [HookCall.InvalidState]
          buffer_pos := s.buffer_pos + 1
          bytes_read := s.buffer_pos + 1 - start_pos },
        T.InvalidState (sm.Transition s.states (BaseScanner.byteAt buf s.buffer_pos)) r,
        true⟩ := by
  unfold iteration
  simp only [hinv, BaseScanner.logCall]

end BaseScanner.Process

/-- C4: whenever the main loop of `Process` stands at a cursor `p` below the chunk end and
`Transition` yields `INVALID` for the byte at `p`, the loop returns at once: exactly one call,
`InvalidState`, is added to the call log, exactly one `Transition` and one read (index `p`) are
added, the cursor is `p + 1`, `bytes_read` is `p + 1 - start_pos`, and `lines_read` and all
other scanner fields are as before; the result is the one `InvalidState` returned. -/
theorem Process_invalid_state_stops {R : Type} (sm : CSVStateMachine) (T : Behavior R)
    (buf : List Nat) (to_pos start_pos fuel : Nat) (s : BaseScanner) (r : R)
    (hpos : s.buffer_pos < to_pos)
    (hinv : (sm.Transition s.states (BaseScanner.byteAt buf s.buffer_pos)).states_1
      = CSVState.INVALID) :
    BaseScanner.Process.loop sm T buf to_pos start_pos (fuel + 1) s r =
      ({ s with
          states := sm.Transition s.states (BaseScanner.byteAt buf s.buffer_pos)
          transitions := s.transitions ++
            [(s.buffer_pos, sm.Transition s.states (BaseScanner.byteAt buf s.buffer_pos))]
          reads := s.reads ++ [s.buffer_pos]
          calls := s.calls ++ [HookCall.InvalidState]
          buffer_pos := s.buffer_pos + 1
          bytes_read := s.buffer_pos + 1 - start_pos },
        T.InvalidState (sm.Transition s.states (BaseScanner.byteAt buf s.buffer_pos)) r) := by
  unfold BaseScanner.Process.loop
  simp only [hpos, if_true,
    BaseScanner.Process.iteration_invalid sm T buf to_pos start_pos s r hinv]

/-- C4, at a concrete input: the bytes `"a"b` with quote `"`; the scanner stands at index 3
after the closing quote, and `b` is invalid there. -/
theorem Process_invalid_state_stops_witness :
    (3 < 4) ∧
    (quoteMachine.Transition ⟨CSVState.QUOTED, CSVState.UNQUOTED⟩
      (BaseScanner.byteAt [34, 97, 34, 98] 3)).states_1 = CSVState.INVALID ∧
    BaseScanner.Process.loop quoteMachine (ScannerResult.behavior quoteMachine)
        [34, 97, 34, 98] 4 0 1
        { states := ⟨CSVState.QUOTED, CSVState.UNQUOTED⟩, buffer_pos := 3, lines_read := 7 }
        ({} : ScannerResult) =
      ({ states := ⟨CSVState.UNQUOTED, CSVState.INVALID⟩, buffer_pos := 4, lines_read := 7,
         bytes_read := 4, calls := [HookCall.InvalidState],
         transitions := [(3, ⟨CSVState.UNQUOTED, CSVState.INVALID⟩)], reads := [3] }, {}) :=
  ⟨by decide, by decide,
    Process_invalid_state_stops quoteMachine (ScannerResult.behavior quoteMachine)
      [34, 97, 34, 98] 4 0 0
      { states := ⟨CSVState.QUOTED, CSVState.UNQUOTED⟩, buffer_pos := 3, lines_read := 7 }
      ({} : ScannerResult) (by decide) (by decide)⟩

/-! ## C3: backpressure -/

namespace BaseScanner.Process

/-- The pass of the loop body in which a hook asks to stop. -/
theorem iteration_backpressure {R : Type} (sm : CSVStateMachine) (T : Behavior R)
    (buf : List Nat) (to_pos start_pos : Nat) (s : BaseScanner) (r : R) (p : Nat)
    (c : HookCall) (new : List HookCall)
    (hnew : (iteration sm T buf to_pos start_pos s r).scanner.calls = s.calls ++ new)
    (hc : c ∈ new) (hstop : c.stopsAt p) :
    (iteration sm T buf to_pos start_pos s r).returned = true ∧
    p = s.buffer_pos ∧
    new.getLast? = some c ∧
    (iteration sm T buf to_pos start_pos s r).scanner.buffer_pos = p + 1 ∧
    (iteration sm T buf to_pos start_pos s r).scanner.lines_read
      = (s.lines_read + 1) % 2 ^ 64 ∧
    (iteration sm T buf to_pos start_pos s r).scanner.bytes_read = p + 1 - start_pos ∧
    (iteration sm T buf to_pos start_pos s r).scanner.reads = s.reads ++ [p] := by
  revert hnew
  unfold iteration
  cases h : (sm.Transition s.states (BaseScanner.byteAt buf s.buffer_pos)).states_1 <;>
    simp only [h, BaseScanner.logCall, stopAfterTerminator, BaseScanner.lines_read_incr,
      skipLoops_calls] <;>
    (try split_ifs) <;> intro hnew <;>
    simp only [List.append_cancel_left_eq, List.append_assoc, List.singleton_append,
      List.self_eq_append_right] at hnew <;>
    subst hnew <;>
    simp only [List.mem_cons, List.mem_singleton, List.not_mem_nil, or_false] at hc <;>
    rcases hstop with hs | hs | hs <;> subst hs <;> simp_all

end BaseScanner.Process

/-- C3: whenever the pass of the main loop of `Process` at a cursor below the chunk end makes a
call `c` of `AddRow`, `EmptyLine` or `UnsetComment` at a position `p` that returns true, `p` is
the cursor of that pass, `c` is the last call of the pass and of the whole run, and the loop
returns with what that pass left: cursor `p + 1`, `lines_read` incremented once (as a 64-bit
counter), `bytes_read = p + 1 - start_pos`, and no `Transition` and no read after the ones of
the byte at `p`. -/
theorem Process_backpressure {R : Type} (sm : CSVStateMachine) (T : Behavior R)
    (buf : List Nat) (to_pos start_pos fuel : Nat) (s : BaseScanner) (r : R) (p : Nat)
    (c : HookCall) (new : List HookCall)
    (hpos : s.buffer_pos < to_pos)
    (hnew : (BaseScanner.Process.iteration sm T buf to_pos start_pos s r).scanner.calls
      = s.calls ++ new)
    (hc : c ∈ new) (hstop : c.stopsAt p) :
    p = s.buffer_pos ∧
    new.getLast? = some c ∧
    (BaseScanner.Process.loop sm T buf to_pos start_pos (fuel + 1) s r).1.calls
      = s.calls ++ new ∧
    (BaseScanner.Process.loop sm T buf to_pos start_pos (fuel + 1) s r).1.buffer_pos
      = p + 1 ∧
    (BaseScanner.Process.loop sm T buf to_pos start_pos (fuel + 1) s r).1.lines_read
      = (s.lines_read + 1) % 2 ^ 64 ∧
    (BaseScanner.Process.loop sm T buf to_pos start_pos (fuel + 1) s r).1.bytes_read
      = p + 1 - start_pos ∧
    (BaseScanner.Process.loop sm T buf to_pos start_pos (fuel + 1) s r).1.transitions
      = s.transitions ++
        [(p, sm.Transition s.states (BaseScanner.byteAt buf p))] ∧
    (BaseScanner.Process.loop sm T buf to_pos start_pos (fuel + 1) s r).1.reads
      = s.reads ++ [p] := by
  obtain ⟨hret, hp, hlast, h1, h2, h3, h4⟩ :=
    BaseScanner.Process.iteration_backpressure sm T buf to_pos start_pos s r p c new hnew hc
      hstop
  have hloop : BaseScanner.Process.loop sm T buf to_pos start_pos (fuel + 1) s r =
      ((BaseScanner.Process.iteration sm T buf to_pos start_pos s r).scanner,
        (BaseScanner.Process.iteration sm T buf to_pos start_pos s r).result) := by
    rw [BaseScanner.Process.loop]
    simp only [hpos, hret, if_true]
  rw [hloop]
  refine ⟨hp, hlast, hnew, h1, h2, h3, ?_, h4⟩
  rw [BaseScanner.Process.iteration_transitions, hp]

/-- C3, at a concrete input: the bytes `a\nb` with an `AddRow` that asks to stop; the scanner
stands at the line break at index 1. -/
theorem Process_backpressure_witness :
    (1 < 3) ∧
    (BaseScanner.Process.iteration lenientMachine
      (ScannerResult.stoppingBehavior lenientMachine) [97, 10, 98] 3 0
      { states := ⟨CSVState.NOT_SET, CSVState.STANDARD⟩, buffer_pos := 1, lines_read := 4 }
      {}).scanner.calls = [] ++ [HookCall.IsCommentSet false, HookCall.AddRow 1 true] ∧
    HookCall.AddRow 1 true ∈ [HookCall.IsCommentSet false, HookCall.AddRow 1 true] ∧
    (HookCall.AddRow 1 true).stopsAt 1 ∧
    (BaseScanner.Process.loop lenientMachine (ScannerResult.stoppingBehavior lenientMachine)
      [97, 10, 98] 3 0 2
      { states := ⟨CSVState.NOT_SET, CSVState.STANDARD⟩, buffer_pos := 1, lines_read := 4 }
      {}).1.buffer_pos = 1 + 1 ∧
    (BaseScanner.Process.loop lenientMachine (ScannerResult.stoppingBehavior lenientMachine)
      [97, 10, 98] 3 0 2
      { states := ⟨CSVState.NOT_SET, CSVState.STANDARD⟩, buffer_pos := 1, lines_read := 4 }
      {}).1.lines_read = (4 + 1) % 2 ^ 64 :=
  have h := Process_backpressure lenientMachine (ScannerResult.stoppingBehavior lenientMachine)
    [97, 10, 98] 3 0 1
    { states := ⟨CSVState.NOT_SET, CSVState.STANDARD⟩, buffer_pos := 1, lines_read := 4 }
    ({} : ScannerResult) 1 (HookCall.AddRow 1 true)
    [HookCall.IsCommentSet false, HookCall.AddRow 1 true]
    (by decide) (by decide) (by decide) (Or.inl rfl)
  ⟨by decide, by decide, by decide, Or.inl rfl, h.2.2.2.1, h.2.2.2.2.1⟩

/-! ## C6: line counting -/

namespace BaseScanner.Process

/-- Along the main loop, `lines_read` is the start value incremented once for every logged
`Transition` that came out as a separator that counts as a line. -/
theorem loop_lines_read {R : Type} (sm : CSVStateMachine) (T : Behavior R) (buf : List Nat)
    (to_pos start_pos fuel : Nat) (s : BaseScanner) (r : R) :
    ∃ nt : List (Nat × CSVStates),
      (loop sm T buf to_pos start_pos fuel s r).1.transitions = s.transitions ++ nt ∧
      (loop sm T buf to_pos start_pos fuel s r).1.lines_read =
        BaseScanner.lines_read_incr^[nt.countP (fun t => countsLine t.2)] s.lines_read := by
  refine loop_invariant sm T buf to_pos start_pos
    (fun s' _ => ∃ nt : List (Nat × CSVStates), s'.transitions = s.transitions ++ nt ∧
      s'.lines_read =
        BaseScanner.lines_read_incr^[nt.countP (fun t => countsLine t.2)] s.lines_read)
    ?_ ?_ fuel s r ⟨[], by simp, by simp⟩
  · rintro s' r' _ ⟨nt, ht, hl⟩
    refine ⟨nt ++ [(s'.buffer_pos,
      sm.Transition s'.states (BaseScanner.byteAt buf s'.buffer_pos))], ?_, ?_⟩
    · rw [iteration_transitions, ht, List.append_assoc]
    · rw [iteration_lines_read, hl, List.countP_append]
      by_cases hc : countsLine
          (sm.Transition s'.states (BaseScanner.byteAt buf s'.buffer_pos)) = true
      · simp [hc, List.countP_cons, Function.iterate_succ_apply', BaseScanner.lines_read_incr]
      · simp [hc, List.countP_cons]
  · rintro s' r' ⟨nt, ht, hl⟩
    exact ⟨nt, ht, hl⟩

end BaseScanner.Process

/-- C6: in every run of `Process`, `lines_read` ends as its start value incremented (as a
64-bit counter) once for every `Transition` of the run that came out in the `CARRIAGE_RETURN`
state or in the `RECORD_SEPARATOR` state with a previous state other than `CARRIAGE_RETURN`;
every single pass of the loop body increments it once for such a byte and leaves it unchanged
for every other state; and the full scan of `a,b\r\nc,d\r\n` ends with `lines_read = 2` both
in lenient and in strict CRLF-only mode. -/
theorem Process_lines_read_counts_separators {R : Type} (sm : CSVStateMachine)
    (T : Behavior R) (IsBoundarySet : Bool) (GetEndPos actual_size : Nat) (buf : List Nat)
    (to_pos start_pos : Nat) (s : BaseScanner) (r : R) :
    (∃ nt : List (Nat × CSVStates),
      (BaseScanner.Process sm T IsBoundarySet GetEndPos actual_size buf s r).1.transitions
        = s.transitions ++ nt ∧
      (BaseScanner.Process sm T IsBoundarySet GetEndPos actual_size buf s r).1.lines_read
        = BaseScanner.lines_read_incr^[nt.countP (fun t => countsLine t.2)] s.lines_read) ∧
    (BaseScanner.Process.iteration sm T buf to_pos start_pos s r).scanner.lines_read =
      (if countsLine (sm.Transition s.states (BaseScanner.byteAt buf s.buffer_pos)) then
        (s.lines_read + 1) % 2 ^ 64
      else s.lines_read) ∧
    (fullScan lenientMachine crlfInput).1.lines_read = 2 ∧
    (fullScan strictMachine crlfInput).1.lines_read = 2 :=
  ⟨BaseScanner.Process.loop_lines_read sm T buf _ _ _ s r,
    BaseScanner.Process.iteration_lines_read sm T buf to_pos start_pos s r,
    by decide, by decide⟩

/-! ## C8: values and quoting -/

namespace BaseScanner.Process

/-- One pass calls `AddValue`, at the cursor, exactly when the byte came out as `DELIMITER`. -/
theorem iteration_addValue {R : Type} (sm : CSVStateMachine) (T : Behavior R)
    (buf : List Nat) (to_pos start_pos : Nat) (s : BaseScanner) (r : R) :
    ∃ new : List HookCall,
      (iteration sm T buf to_pos start_pos s r).scanner.calls = s.calls ++ new ∧
      new.filterMap HookCall.addValuePos =
        (delimiterPos
          (s.buffer_pos, sm.Transition s.states (BaseScanner.byteAt buf s.buffer_pos))).toList := by
  unfold iteration
  cases h : (sm.Transition s.states (BaseScanner.byteAt buf s.buffer_pos)).states_1 <;>
    simp only [h, BaseScanner.logCall, stopAfterTerminator, skipLoops_calls, delimiterPos,
      reduceCtorEq, if_false, if_true, Option.toList, List.append_assoc] <;>
    (try split_ifs) <;> (try simp only [List.append_assoc]) <;>
    first
      | exact ⟨_, rfl, by simp [HookCall.addValuePos]⟩
      | exact ⟨[], (List.append_nil _).symm, by simp⟩

/-- Along the main loop the positions of the `AddValue` calls are the positions of the
`Transition`s that came out as `DELIMITER`, in the same order. -/
theorem loop_addValue {R : Type} (sm : CSVStateMachine) (T : Behavior R) (buf : List Nat)
    (to_pos start_pos fuel : Nat) (s : BaseScanner) (r : R) :
    ∃ (new : List HookCall) (nt : List (Nat × CSVStates)),
      (loop sm T buf to_pos start_pos fuel s r).1.calls = s.calls ++ new ∧
      (loop sm T buf to_pos start_pos fuel s r).1.transitions = s.transitions ++ nt ∧
      new.filterMap HookCall.addValuePos = nt.filterMap delimiterPos := by
  refine loop_invariant sm T buf to_pos start_pos
    (fun s' _ => ∃ (new : List HookCall) (nt : List (Nat × CSVStates)),
      s'.calls = s.calls ++ new ∧ s'.transitions = s.transitions ++ nt ∧
      new.filterMap HookCall.addValuePos = nt.filterMap delimiterPos)
    ?_ ?_ fuel s r ⟨[], [], by simp, by simp, by simp⟩
  · rintro s' r' _ ⟨new, nt, hc, ht, hf⟩
    obtain ⟨new', hc', hf'⟩ := iteration_addValue sm T buf to_pos start_pos s' r'
    refine ⟨new ++ new', nt ++ [(s'.buffer_pos,
      sm.Transition s'.states (BaseScanner.byteAt buf s'.buffer_pos))], ?_, ?_, ?_⟩
    · rw [hc', hc, List.append_assoc]
    · rw [iteration_transitions, ht, List.append_assoc]
    · rw [List.filterMap_append, List.filterMap_append, hf, hf']
      cases hd : delimiterPos (s'.buffer_pos,
        sm.Transition s'.states (BaseScanner.byteAt buf s'.buffer_pos)) <;>
        simp [List.filterMap_cons, hd]
  · rintro s' r' ⟨new, nt, hc, ht, hf⟩
    exact ⟨new, nt, hc, ht, hf⟩

end BaseScanner.Process

/-- C8: in every run of `Process` the positions at which `AddValue` is called are exactly the
positions of the bytes for which `Transition` yielded `DELIMITER`, in the same order and each
once; and the full scan of `"a,b",c` with quote `"` and delimiter `,` makes the calls
`SetQuoted 0`, `SetUnquoted`, `AddValue 5` (none for the comma at index 2) and ends with
`quoted = true` and `quoted_position = 0`. -/
theorem Process_addValue_iff_delimiter {R : Type} (sm : CSVStateMachine) (T : Behavior R)
    (IsBoundarySet : Bool) (GetEndPos actual_size : Nat) (buf : List Nat) (s : BaseScanner)
    (r : R) :
    (∃ (new : List HookCall) (nt : List (Nat × CSVStates)),
      (BaseScanner.Process sm T IsBoundarySet GetEndPos actual_size buf s r).1.calls
        = s.calls ++ new ∧
      (BaseScanner.Process sm T IsBoundarySet GetEndPos actual_size buf s r).1.transitions
        = s.transitions ++ nt ∧
      new.filterMap HookCall.addValuePos = nt.filterMap delimiterPos) ∧
    (fullScan quoteMachine quotedInput).1.calls
      = [HookCall.SetQuoted 0, HookCall.SetUnquoted, HookCall.AddValue 5] ∧
    (fullScan quoteMachine quotedInput).1.transitions.map (fun t => (t.1, t.2.states_1))
      = [(0, CSVState.QUOTED), (4, CSVState.UNQUOTED), (5, CSVState.DELIMITER),
         (6, CSVState.STANDARD)] ∧
    (fullScan quoteMachine quotedInput).2.quoted = true ∧
    (fullScan quoteMachine quotedInput).2.quoted_position = 0 :=
  ⟨BaseScanner.Process.loop_addValue sm T buf _ _ _ s r,
    by decide, by decide, by decide, by decide⟩

/-! ## C5 and C7: line breaks in lenient and in strict CRLF-only mode -/

namespace BaseScanner.Process

/-- The pass on a byte that came out as `CARRIAGE_RETURN` after a state that lets a line
break end a record, with no comment open: `AddRow` is called unless `only_rn_newlines`
holds. -/
theorem iteration_carriage_return {R : Type} (sm : CSVStateMachine) (T : Behavior R)
    (buf : List Nat) (to_pos start_pos : Nat) (s : BaseScanner) (r : R)
    (hcr : (sm.Transition s.states (BaseScanner.byteAt buf s.buffer_pos)).states_1
      = CSVState.CARRIAGE_RETURN)
    (hprev : endsRecord (sm.Transition s.states (BaseScanner.byteAt buf s.buffer_pos)))
    (hcomment : T.IsCommentSet
      (sm.Transition s.states (BaseScanner.byteAt buf s.buffer_pos)) r = false) :
    (iteration sm T buf to_pos start_pos s r).scanner.calls =
      s.calls ++ HookCall.IsCommentSet false ::
        (if only_rn_newlines sm then []
         else [HookCall.AddRow s.buffer_pos
          (T.AddRow (sm.Transition s.states (BaseScanner.byteAt buf s.buffer_pos)) r
            s.buffer_pos).2]) ∧
    (iteration sm T buf to_pos start_pos s r).scanner.states =
      sm.Transition s.states (BaseScanner.byteAt buf s.buffer_pos) ∧
    (iteration sm T buf to_pos start_pos s r).scanner.buffer_pos = s.buffer_pos + 1 ∧
    ((iteration sm T buf to_pos start_pos s r).returned = true →
      only_rn_newlines sm = false) := by
  obtain ⟨h1, h2, h3⟩ := hprev
  unfold iteration
  simp only [hcr, h1, h2, h3, hcomment, BaseScanner.logCall, stopAfterTerminator, false_or,
    ne_eq, not_false_eq_true, if_true, if_false]
  cases ho : only_rn_newlines sm <;>
    simp only [Bool.not_true, Bool.not_false, if_true, if_false, Bool.false_eq_true] <;>
    (try split_ifs) <;> simp_all

/-- The pass on a byte that came out as `RECORD_SEPARATOR` right after `CARRIAGE_RETURN`: no
hook is called and the loop goes on. -/
theorem iteration_line_feed_after_carriage_return {R : Type} (sm : CSVStateMachine)
    (T : Behavior R) (buf : List Nat) (to_pos start_pos : Nat) (s : BaseScanner) (r : R)
    (hrs : (sm.Transition s.states (BaseScanner.byteAt buf s.buffer_pos)).states_1
      = CSVState.RECORD_SEPARATOR)
    (hprev : (sm.Transition s.states (BaseScanner.byteAt buf s.buffer_pos)).states_0
      = CSVState.CARRIAGE_RETURN) :
    (iteration sm T buf to_pos start_pos s r).scanner.calls = s.calls ∧
    (iteration sm T buf to_pos start_pos s r).returned = false := by
  unfold iteration
  simp [hrs, hprev]

/-- The calls of one pass in strict CRLF-only mode: an `AddRow` is among them exactly when the
byte came out as `RECORD_SEPARATOR` after a state that lets a line break end a record, with no
comment open; then it is made at the cursor. -/
theorem iteration_addRow_strict {R : Type} (sm : CSVStateMachine) (T : Behavior R)
    (buf : List Nat) (to_pos start_pos : Nat) (s : BaseScanner) (r : R)
    (hstrict : only_rn_newlines sm = true) :
    ∃ new : List HookCall,
      (iteration sm T buf to_pos start_pos s r).scanner.calls = s.calls ++ new ∧
      new.filterMap HookCall.addRowPos =
        if (sm.Transition s.states (BaseScanner.byteAt buf s.buffer_pos)).states_1
            = CSVState.RECORD_SEPARATOR ∧
          endsRecord (sm.Transition s.states (BaseScanner.byteAt buf s.buffer_pos)) ∧
          T.IsCommentSet (sm.Transition s.states (BaseScanner.byteAt buf s.buffer_pos)) r
            = false
        then [s.buffer_pos] else [] := by
  unfold iteration
  cases h : (sm.Transition s.states (BaseScanner.byteAt buf s.buffer_pos)).states_1 <;>
    simp only [h, hstrict, BaseScanner.logCall, stopAfterTerminator, skipLoops_calls,
      endsRecord, reduceCtorEq, if_false, if_true, List.append_assoc, false_and, true_and,
      Bool.not_true, Bool.false_eq_true] <;>
    (try split_ifs) <;> (try simp only [List.append_assoc]) <;>
    first
      | exact ⟨_, rfl, by simp_all [HookCall.addRowPos]⟩
      | exact ⟨[], (List.append_nil _).symm, by simp_all⟩

end BaseScanner.Process

/-- C5 (counterexample): in strict CRLF-only mode, with the automaton that classifies `,` as
`DELIMITER`, `\r` as `CARRIAGE_RETURN`, `\n` as `RECORD_SEPARATOR` and the other bytes as
`STANDARD`, the full scan of `a,b\r\nc,d\r\n` does not call `AddRow` twice: it does not call
it at all. -/
theorem Process_crlf_strict_mode_adds_no_row :
    BaseScanner.Process.only_rn_newlines strictMachine = true ∧
    (fullScan strictMachine crlfInput).1.transitions.map (fun t => (t.1, t.2.states_1))
      = [(0, CSVState.STANDARD), (1, CSVState.DELIMITER), (2, CSVState.STANDARD),
         (3, CSVState.CARRIAGE_RETURN), (4, CSVState.RECORD_SEPARATOR),
         (5, CSVState.STANDARD), (6, CSVState.DELIMITER), (7, CSVState.STANDARD),
         (8, CSVState.CARRIAGE_RETURN), (9, CSVState.RECORD_SEPARATOR)] ∧
    (fullScan strictMachine crlfInput).1.calls.countP HookCall.isAddRow = 0 ∧
    ¬ ((fullScan strictMachine crlfInput).1.calls.countP HookCall.isAddRow = 2) := by
  decide

/-- C5 (amended): a CRLF pair that ends a record (a byte in the `CARRIAGE_RETURN` state after a
state that lets a line break end a record, no comment open, followed by a byte in the
`RECORD_SEPARATOR` state, both below the chunk end) makes the main loop of `Process`, in its
two passes over the pair (`loop` with two passes, the second of which is not made when `AddRow`
asks to stop), call `IsCommentSet` and then, in lenient mode, `AddRow` exactly once, at the
`\r`; in strict CRLF-only mode it makes no `AddRow` call.  The
full scan of `a,b\r\nc,d\r\n` calls `AddValue` once per row in both modes, `AddRow` exactly
twice in lenient mode and never in strict CRLF-only mode. -/
theorem Process_crlf_rows {R : Type} (sm : CSVStateMachine) (T : Behavior R)
    (buf : List Nat) (to_pos start_pos : Nat) (s : BaseScanner) (r : R)
    (hpos : s.buffer_pos + 1 < to_pos)
    (hcr : (sm.Transition s.states (BaseScanner.byteAt buf s.buffer_pos)).states_1
      = CSVState.CARRIAGE_RETURN)
    (hprev : endsRecord (sm.Transition s.states (BaseScanner.byteAt buf s.buffer_pos)))
    (hcomment : T.IsCommentSet
      (sm.Transition s.states (BaseScanner.byteAt buf s.buffer_pos)) r = false)
    (hlf : (sm.Transition (sm.Transition s.states (BaseScanner.byteAt buf s.buffer_pos))
      (BaseScanner.byteAt buf (s.buffer_pos + 1))).states_1 = CSVState.RECORD_SEPARATOR) :
    (BaseScanner.Process.loop sm T buf to_pos start_pos 2 s r).1.calls =
      s.calls ++ HookCall.IsCommentSet false ::
        (if BaseScanner.Process.only_rn_newlines sm then []
         else [HookCall.AddRow s.buffer_pos
          (T.AddRow (sm.Transition s.states (BaseScanner.byteAt buf s.buffer_pos)) r
            s.buffer_pos).2]) ∧
    (fullScan lenientMachine crlfInput).1.calls =
      [HookCall.AddValue 1, HookCall.IsCommentSet false, HookCall.AddRow 3 false,
       HookCall.AddValue 6, HookCall.IsCommentSet false, HookCall.AddRow 8 false] ∧
    (fullScan strictMachine crlfInput).1.calls =
      [HookCall.AddValue 1, HookCall.IsCommentSet false,
       HookCall.AddValue 6, HookCall.IsCommentSet false] := by
  refine ⟨?_, by decide, by decide⟩
  obtain ⟨hcalls, hstates, hbp, _⟩ :=
    BaseScanner.Process.iteration_carriage_return sm T buf to_pos start_pos s r hcr hprev
      hcomment
  have hp : s.buffer_pos < to_pos := by omega
  rw [BaseScanner.Process.loop]
  simp only [hp, if_true]
  by_cases hret : (BaseScanner.Process.iteration sm T buf to_pos start_pos s r).returned = true
  · simp only [hret, if_true]
    exact hcalls
  · simp only [hret]
    rw [BaseScanner.Process.loop]
    have hp2 : (BaseScanner.Process.iteration sm T buf to_pos start_pos s r).scanner.buffer_pos
        < to_pos := by rw [hbp]; exact hpos
    simp only [hp2, if_true]
    have hrs : (sm.Transition
        (BaseScanner.Process.iteration sm T buf to_pos start_pos s r).scanner.states
        (BaseScanner.byteAt buf
          (BaseScanner.Process.iteration sm T buf to_pos start_pos s r).scanner.buffer_pos)
        ).states_1 = CSVState.RECORD_SEPARATOR := by
      rw [hstates, hbp]; exact hlf
    have hpr : (sm.Transition
        (BaseScanner.Process.iteration sm T buf to_pos start_pos s r).scanner.states
        (BaseScanner.byteAt buf
          (BaseScanner.Process.iteration sm T buf to_pos start_pos s r).scanner.buffer_pos)
        ).states_0 = CSVState.CARRIAGE_RETURN := by
      rw [hstates]; exact hcr
    obtain ⟨hc2, hr2⟩ :=
      BaseScanner.Process.iteration_line_feed_after_carriage_return sm T buf to_pos start_pos
        _ (BaseScanner.Process.iteration sm T buf to_pos start_pos s r).result hrs hpr
    simp only [hr2, Bool.false_eq_true, if_false, BaseScanner.Process.loop, hc2, hcalls]

/-- C5 (amended), at a concrete input: the first CRLF pair of `a,b\r\nc,d\r\n` in lenient
mode. -/
theorem Process_crlf_rows_witness :
    (3 + 1 < 10) ∧
    (lenientMachine.Transition ⟨CSVState.DELIMITER, CSVState.STANDARD⟩
      (BaseScanner.byteAt crlfInput 3)).states_1 = CSVState.CARRIAGE_RETURN ∧
    endsRecord (lenientMachine.Transition ⟨CSVState.DELIMITER, CSVState.STANDARD⟩
      (BaseScanner.byteAt crlfInput 3)) ∧
    (BaseScanner.Process.loop lenientMachine (ScannerResult.behavior lenientMachine) crlfInput
      10 0 2 { states := ⟨CSVState.DELIMITER, CSVState.STANDARD⟩, buffer_pos := 3 }
      ({} : ScannerResult)).1.calls
      = [] ++ [HookCall.IsCommentSet false, HookCall.AddRow 3 false] :=
  ⟨by decide, by decide, by decide,
    (Process_crlf_rows lenientMachine (ScannerResult.behavior lenientMachine) crlfInput 10 0
      { states := ⟨CSVState.DELIMITER, CSVState.STANDARD⟩, buffer_pos := 3 }
      ({} : ScannerResult) (by decide) (by decide) (by decide) (by decide) (by decide)).1⟩

namespace BaseScanner.Process

/-- In strict CRLF-only mode every `AddRow` call of the main loop is made at a byte that came
out as `RECORD_SEPARATOR` after a state that lets a line break end a record. -/
theorem loop_addRow_strict {R : Type} (sm : CSVStateMachine) (T : Behavior R)
    (buf : List Nat) (to_pos start_pos fuel : Nat) (s : BaseScanner) (r : R)
    (hstrict : only_rn_newlines sm = true) :
    ∃ (new : List HookCall) (nt : List (Nat × CSVStates)),
      (loop sm T buf to_pos start_pos fuel s r).1.calls = s.calls ++ new ∧
      (loop sm T buf to_pos start_pos fuel s r).1.transitions = s.transitions ++ nt ∧
      ∀ p ∈ new.filterMap HookCall.addRowPos, ∃ st : CSVStates,
        (p, st) ∈ nt ∧ st.states_1 = CSVState.RECORD_SEPARATOR ∧ endsRecord st := by
  refine loop_invariant sm T buf to_pos start_pos
    (fun s' _ => ∃ (new : List HookCall) (nt : List (Nat × CSVStates)),
      s'.calls = s.calls ++ new ∧ s'.transitions = s.transitions ++ nt ∧
      ∀ p ∈ new.filterMap HookCall.addRowPos, ∃ st : CSVStates,
        (p, st) ∈ nt ∧ st.states_1 = CSVState.RECORD_SEPARATOR ∧ endsRecord st)
    ?_ ?_ fuel s r ⟨[], [], by simp, by simp, by simp⟩
  · rintro s' r' _ ⟨new, nt, hc, ht, hf⟩
    obtain ⟨new', hc', hf'⟩ := iteration_addRow_strict sm T buf to_pos start_pos s' r' hstrict
    refine ⟨new ++ new', nt ++ [(s'.buffer_pos,
      sm.Transition s'.states (BaseScanner.byteAt buf s'.buffer_pos))], ?_, ?_, ?_⟩
    · rw [hc', hc, List.append_assoc]
    · rw [iteration_transitions, ht, List.append_assoc]
    · intro p hp
      rw [List.filterMap_append, List.mem_append] at hp
      rcases hp with hp | hp
      · obtain ⟨st, hst, h1, h2⟩ := hf p hp
        exact ⟨st, List.mem_append_left _ hst, h1, h2⟩
      · rw [hf'] at hp
        split_ifs at hp with hcond
        · rw [List.mem_singleton] at hp
          subst hp
          exact ⟨_, List.mem_append_right _ (List.mem_singleton_self _), hcond.1, hcond.2.1⟩
        · exact absurd hp (List.not_mem_nil _)
  · rintro s' r' ⟨new, nt, hc, ht, hf⟩
    exact ⟨new, nt, hc, ht, hf⟩

end BaseScanner.Process

/-- C7 (counterexample): in strict CRLF-only mode the scan of `a\n` calls `AddRow` at the lone
`\n` at index 1, a byte in the `RECORD_SEPARATOR` state whose previous state is `STANDARD`. -/
theorem Process_strict_mode_lone_line_feed_adds_row :
    BaseScanner.Process.only_rn_newlines strictMachine = true ∧
    (fullScan strictMachine [97, 10]).1.transitions
      = [(0, ⟨CSVState.NOT_SET, CSVState.STANDARD⟩),
         (1, ⟨CSVState.STANDARD, CSVState.RECORD_SEPARATOR⟩)] ∧
    (fullScan strictMachine [97, 10]).1.calls
      = [HookCall.IsCommentSet false, HookCall.AddRow 1 false] ∧
    ¬ (∀ c ∈ (fullScan strictMachine [97, 10]).1.calls, c.isAddRow = false) := by
  decide

/-- C7 (amended): in strict CRLF-only mode (`strict_mode` and `new_line = CARRY_ON` both set by
the user), in every run of `Process` each `AddRow` call is made at a byte that came out as
`RECORD_SEPARATOR` with a previous state other than `RECORD_SEPARATOR`, `NOT_SET` and
`CARRIAGE_RETURN`; a byte in the `CARRIAGE_RETURN` state, lone or not, never calls `AddRow`.
The `RECORD_SEPARATOR` path does not look at the mode: one pass of the loop body calls `AddRow`
exactly when the byte came out as `RECORD_SEPARATOR` after such a previous state with no
comment open, and then at the cursor, so a lone `\n` does end a record. -/
theorem Process_strict_mode_addRow_only_at_record_separator {R : Type}
    (sm : CSVStateMachine) (T : Behavior R) (IsBoundarySet : Bool)
    (GetEndPos actual_size : Nat) (buf : List Nat) (to_pos start_pos : Nat)
    (s : BaseScanner) (r : R)
    (hstrict : BaseScanner.Process.only_rn_newlines sm = true) :
    (∃ (new : List HookCall) (nt : List (Nat × CSVStates)),
      (BaseScanner.Process sm T IsBoundarySet GetEndPos actual_size buf s r).1.calls
        = s.calls ++ new ∧
      (BaseScanner.Process sm T IsBoundarySet GetEndPos actual_size buf s r).1.transitions
        = s.transitions ++ nt ∧
      ∀ p ∈ new.filterMap HookCall.addRowPos, ∃ st : CSVStates,
        (p, st) ∈ nt ∧ st.states_1 = CSVState.RECORD_SEPARATOR ∧ endsRecord st) ∧
    (∃ new : List HookCall,
      (BaseScanner.Process.iteration sm T buf to_pos start_pos s r).scanner.calls
        = s.calls ++ new ∧
      new.filterMap HookCall.addRowPos =
        if (sm.Transition s.states (BaseScanner.byteAt buf s.buffer_pos)).states_1
            = CSVState.RECORD_SEPARATOR ∧
          endsRecord (sm.Transition s.states (BaseScanner.byteAt buf s.buffer_pos)) ∧
          T.IsCommentSet (sm.Transition s.states (BaseScanner.byteAt buf s.buffer_pos)) r
            = false
        then [s.buffer_pos] else []) :=
  ⟨BaseScanner.Process.loop_addRow_strict sm T buf _ _ _ s r hstrict,
    BaseScanner.Process.iteration_addRow_strict sm T buf to_pos start_pos s r hstrict⟩

/-- C7 (amended), at a concrete input: the strict sample dialect on `a\r`, the scanner standing
at the lone `\r` at index 1; the pass makes no `AddRow` call. -/
theorem Process_strict_mode_addRow_only_at_record_separator_witness :
    BaseScanner.Process.only_rn_newlines strictMachine = true ∧
    (BaseScanner.Process.iteration strictMachine (ScannerResult.behavior strictMachine)
      [97, 13] 2 0 { states := ⟨CSVState.NOT_SET, CSVState.STANDARD⟩, buffer_pos := 1 }
      ({} : ScannerResult)).scanner.calls.filterMap HookCall.addRowPos = [] :=
  ⟨by decide,
    Exists.elim
      (Process_strict_mode_addRow_only_at_record_separator strictMachine
        (ScannerResult.behavior strictMachine) false 0 2 [97, 13] 2 0
        { states := ⟨CSVState.NOT_SET, CSVState.STANDARD⟩, buffer_pos := 1 }
        ({} : ScannerResult) (by decide)).2
      (fun _ h => by rw [h.1]; exact h.2)⟩

/-! ## C9: escaping -/

namespace BaseScanner.Process

/-- The pass on a byte in one of the situations of `marksEscaped`: the first call is
`SetEscaped` and `ever_escaped` is set. -/
theorem iteration_marks_escaped {R : Type} (sm : CSVStateMachine) (T : Behavior R)
    (buf : List Nat) (to_pos start_pos : Nat) (s : BaseScanner) (r : R)
    (hcond : marksEscaped sm (sm.Transition s.states (BaseScanner.byteAt buf s.buffer_pos))) :
    (∃ rest : List HookCall,
      (iteration sm T buf to_pos start_pos s r).scanner.calls
        = s.calls ++ HookCall.SetEscaped :: rest) ∧
    (iteration sm T buf to_pos start_pos s r).scanner.ever_escaped = true ∧
    (iteration sm T buf to_pos start_pos s r).returned = false := by
  unfold iteration
  rcases hcond with ⟨h, hp, he⟩ | ⟨h, hp⟩ | h | h | h
  · have hesc : has_escaped_value sm = true := by simpa [has_escaped_value] using he
    have hd : decide ((sm.Transition s.states (BaseScanner.byteAt buf s.buffer_pos)).states_0
        = CSVState.UNQUOTED ∨
        (sm.Transition s.states (BaseScanner.byteAt buf s.buffer_pos)).states_0
        = CSVState.MAYBE_QUOTED) = true := by simpa using hp
    simp only [h, hd, hesc, Bool.and_self, if_true, BaseScanner.logCall, skipLoops_calls,
      skipLoops_ever_escaped, List.append_assoc, List.singleton_append]
    exact ⟨⟨_, rfl⟩, trivial, trivial⟩
  · simp only [h, hp, decide_True, if_true, BaseScanner.logCall, List.append_assoc,
      List.singleton_append]
    exact ⟨⟨_, rfl⟩, trivial, trivial⟩
  · simp only [h, BaseScanner.logCall]
    exact ⟨⟨_, rfl⟩, trivial, trivial⟩
  · simp only [h, BaseScanner.logCall]
    exact ⟨⟨_, rfl⟩, trivial, trivial⟩
  · simp only [h, BaseScanner.logCall]
    exact ⟨⟨_, rfl⟩, trivial, trivial⟩

/-- With the flag hooks of `ScannerResult`, the pass on a byte in one of the situations of
`marksEscaped` leaves `escaped` set. -/
theorem iteration_sets_escaped (sm : CSVStateMachine) (buf : List Nat)
    (to_pos start_pos : Nat) (s : BaseScanner) (r : ScannerResult)
    (hcond : marksEscaped sm (sm.Transition s.states (BaseScanner.byteAt buf s.buffer_pos))) :
    (iteration sm (ScannerResult.behavior sm) buf to_pos start_pos s r).result.escaped
      = true := by
  unfold iteration
  rcases hcond with ⟨h, hp, he⟩ | ⟨h, hp⟩ | h | h | h
  · have hesc : has_escaped_value sm = true := by simpa [has_escaped_value] using he
    have hd : decide ((sm.Transition s.states (BaseScanner.byteAt buf s.buffer_pos)).states_0
        = CSVState.UNQUOTED ∨
        (sm.Transition s.states (BaseScanner.byteAt buf s.buffer_pos)).states_0
        = CSVState.MAYBE_QUOTED) = true := by simpa using hp
    simp only [h, hd, hesc, Bool.and_self, if_true, ScannerResult.behavior,
      ScannerResult.SetQuoted, ScannerResult.SetEscaped]
    split_ifs <;> rfl
  · simp only [h, hp, decide_True, if_true, ScannerResult.behavior,
      ScannerResult.SetUnquoted, ScannerResult.SetEscaped]
    split_ifs <;> rfl
  · simp only [h, ScannerResult.behavior, ScannerResult.SetEscaped]
  · simp only [h, ScannerResult.behavior, ScannerResult.SetEscaped]
  · simp only [h, ScannerResult.behavior, ScannerResult.SetEscaped]

/-- With the flag hooks of `ScannerResult` no pass clears `escaped`. -/
theorem iteration_keeps_escaped (sm : CSVStateMachine) (buf : List Nat)
    (to_pos start_pos : Nat) (s : BaseScanner) (r : ScannerResult)
    (hesc : r.escaped = true) :
    (iteration sm (ScannerResult.behavior sm) buf to_pos start_pos s r).result.escaped
      = true := by
  unfold iteration
  cases h : (sm.Transition s.states (BaseScanner.byteAt buf s.buffer_pos)).states_1 <;>
    simp only [h, ScannerResult.behavior, ScannerResult.SetQuoted, ScannerResult.SetEscaped,
      ScannerResult.SetUnquoted, ScannerResult.SetComment, ScannerResult.UnsetComment,
      ScannerResult.IsCommentSet] <;>
    (try split_ifs) <;> simp_all

end BaseScanner.Process

namespace BaseScanner.Process

/-- With the flag hooks of `ScannerResult`, `escaped` once set stays set to the end of the
main loop. -/
theorem loop_keeps_escaped (sm : CSVStateMachine) (buf : List Nat)
    (to_pos start_pos fuel : Nat) (s : BaseScanner) (r : ScannerResult)
    (hesc : r.escaped = true) :
    (loop sm (ScannerResult.behavior sm) buf to_pos start_pos fuel s r).2.escaped = true :=
  loop_invariant sm (ScannerResult.behavior sm) buf to_pos start_pos
    (fun _ r' => r'.escaped = true)
    (fun s' r' _ h => iteration_keeps_escaped sm buf to_pos start_pos s' r' h)
    (fun _ _ h => h) fuel s r hesc

end BaseScanner.Process

/-- C9: whenever the main loop of `Process` stands at a cursor below the chunk end and
`Transition` yields `QUOTED` after `UNQUOTED` or `MAYBE_QUOTED` with a dialect escape byte
other than `'\0'`, or `UNQUOTED` after `MAYBE_QUOTED`, or `ESCAPE`, `UNQUOTED_ESCAPE` or
`ESCAPED_RETURN`, the pass calls `SetEscaped` (its first call) and sets `ever_escaped`; with
the flag hooks of `ScannerResult` the flag `escaped` is true after the pass and at the end of
the loop.  For `"a""b",c` with quote and escape `"`, the scan of the bytes before the
delimiter at index 6 ends with the cursor at 6 and `escaped = true`, and the full scan calls
`AddValue` at 6 after the `SetEscaped` call; the buffer is an input that no hook receives. -/
theorem Process_marks_escaped {R : Type} (sm : CSVStateMachine) (T : Behavior R)
    (buf : List Nat) (to_pos start_pos fuel : Nat) (s : BaseScanner) (r : R)
    (r0 : ScannerResult)
    (hpos : s.buffer_pos < to_pos)
    (hcond : marksEscaped sm (sm.Transition s.states (BaseScanner.byteAt buf s.buffer_pos))) :
    (∃ rest : List HookCall,
      (BaseScanner.Process.iteration sm T buf to_pos start_pos s r).scanner.calls
        = s.calls ++ HookCall.SetEscaped :: rest) ∧
    (BaseScanner.Process.iteration sm T buf to_pos start_pos s r).scanner.ever_escaped
      = true ∧
    (BaseScanner.Process.iteration sm (ScannerResult.behavior sm) buf to_pos start_pos s
      r0).result.escaped = true ∧
    (BaseScanner.Process.loop sm (ScannerResult.behavior sm) buf to_pos start_pos (fuel + 1) s
      r0).2.escaped = true ∧
    (BaseScanner.Process escapeMachine (ScannerResult.behavior escapeMachine) true 6 8
      escapedInput (BaseScanner.fresh 0) {}).1.buffer_pos = 6 ∧
    (BaseScanner.Process escapeMachine (ScannerResult.behavior escapeMachine) true 6 8
      escapedInput (BaseScanner.fresh 0) {}).2.escaped = true ∧
    (fullScan escapeMachine escapedInput).1.calls =
      [HookCall.SetQuoted 0, HookCall.SetUnquoted, HookCall.SetEscaped, HookCall.SetQuoted 3,
       HookCall.SetUnquoted, HookCall.AddValue 6] ∧
    (fullScan escapeMachine escapedInput).1.ever_escaped = true ∧
    (fullScan escapeMachine escapedInput).2.escaped = true := by
  obtain ⟨h1, h2, h3⟩ :=
    BaseScanner.Process.iteration_marks_escaped sm T buf to_pos start_pos s r hcond
  have h4 := BaseScanner.Process.iteration_sets_escaped sm buf to_pos start_pos s r0 hcond
  have h5 := (BaseScanner.Process.iteration_marks_escaped sm (ScannerResult.behavior sm) buf
    to_pos start_pos s r0 hcond).2.2
  refine ⟨h1, h2, h4, ?_, by decide, by decide, by decide, by decide, by decide⟩
  rw [BaseScanner.Process.loop]
  simp only [hpos, if_true, h5, Bool.false_eq_true, if_false]
  exact BaseScanner.Process.loop_keeps_escaped sm buf to_pos start_pos fuel _ _ h4

/-- C9, at a concrete input: `"a""b",c` with the scanner standing at the second of the doubled
quotes (index 3), which re-enters the quoted state after `UNQUOTED`. -/
theorem Process_marks_escaped_witness :
    (3 < 8) ∧
    marksEscaped escapeMachine
      (escapeMachine.Transition ⟨CSVState.QUOTED, CSVState.UNQUOTED⟩
        (BaseScanner.byteAt escapedInput 3)) ∧
    (BaseScanner.Process.iteration escapeMachine (ScannerResult.behavior escapeMachine)
      escapedInput 8 0 { states := ⟨CSVState.QUOTED, CSVState.UNQUOTED⟩, buffer_pos := 3 }
      ({} : ScannerResult)).scanner.ever_escaped = true ∧
    (BaseScanner.Process.loop escapeMachine (ScannerResult.behavior escapeMachine)
      escapedInput 8 0 (4 + 1) { states := ⟨CSVState.QUOTED, CSVState.UNQUOTED⟩, buffer_pos := 3 }
      ({} : ScannerResult)).2.escaped = true :=
  have h := Process_marks_escaped escapeMachine (ScannerResult.behavior escapeMachine)
    escapedInput 8 0 4 { states := ⟨CSVState.QUOTED, CSVState.UNQUOTED⟩, buffer_pos := 3 }
    ({} : ScannerResult) ({} : ScannerResult) (by decide) (by decide)
  ⟨by decide, by decide, h.2.1, h.2.2.2.1⟩

/-! ## C10: comments -/

namespace BaseScanner.Process

/-- The pass on a line break that ends a record while a comment is open. -/
theorem iteration_unsets_comment {R : Type} (sm : CSVStateMachine) (T : Behavior R)
    (buf : List Nat) (to_pos start_pos : Nat) (s : BaseScanner) (r : R)
    (hcur : (sm.Transition s.states (BaseScanner.byteAt buf s.buffer_pos)).states_1
        = CSVState.RECORD_SEPARATOR ∨
      (sm.Transition s.states (BaseScanner.byteAt buf s.buffer_pos)).states_1
        = CSVState.CARRIAGE_RETURN)
    (hprev : endsRecord (sm.Transition s.states (BaseScanner.byteAt buf s.buffer_pos)))
    (hcomment : T.IsCommentSet
      (sm.Transition s.states (BaseScanner.byteAt buf s.buffer_pos)) r = true) :
    (iteration sm T buf to_pos start_pos s r).scanner.calls =
      s.calls ++ [HookCall.IsCommentSet true,
        HookCall.UnsetComment s.buffer_pos
          (T.UnsetComment (sm.Transition s.states (BaseScanner.byteAt buf s.buffer_pos)) r
            s.buffer_pos).2] ∧
    (iteration sm T buf to_pos start_pos s r).result =
      (T.UnsetComment (sm.Transition s.states (BaseScanner.byteAt buf s.buffer_pos)) r
        s.buffer_pos).1 := by
  obtain ⟨h1, h2, h3⟩ := hprev
  unfold iteration
  rcases hcur with h | h <;>
    simp only [h, h1, h2, h3, hcomment, BaseScanner.logCall, stopAfterTerminator, false_or,
      ne_eq, not_false_eq_true, if_true, if_false] <;>
    split_ifs <;> simp_all

end BaseScanner.Process

/-- C10: whenever `Transition` yields `RECORD_SEPARATOR` or `CARRIAGE_RETURN` with a previous
state other than `RECORD_SEPARATOR`, `NOT_SET` and `CARRIAGE_RETURN` while `IsCommentSet`
answers true, the pass of the main loop of `Process` calls `IsCommentSet` and `UnsetComment`
at the cursor and nothing else (no `AddRow`), and hands on the result of `UnsetComment`.  With
the flag hooks of `ScannerResult` and comment byte `#`, the full scan of `#note\na,b\n` calls
`SetComment` at 0, `UnsetComment` at the first `\n` (index 5) and `AddRow` exactly once, at the
final `\n` (index 9). -/
theorem Process_comment_line_adds_no_row {R : Type} (sm : CSVStateMachine) (T : Behavior R)
    (buf : List Nat) (to_pos start_pos : Nat) (s : BaseScanner) (r : R)
    (hcur : (sm.Transition s.states (BaseScanner.byteAt buf s.buffer_pos)).states_1
        = CSVState.RECORD_SEPARATOR ∨
      (sm.Transition s.states (BaseScanner.byteAt buf s.buffer_pos)).states_1
        = CSVState.CARRIAGE_RETURN)
    (hprev : endsRecord (sm.Transition s.states (BaseScanner.byteAt buf s.buffer_pos)))
    (hcomment : T.IsCommentSet
      (sm.Transition s.states (BaseScanner.byteAt buf s.buffer_pos)) r = true) :
    (BaseScanner.Process.iteration sm T buf to_pos start_pos s r).scanner.calls =
      s.calls ++ [HookCall.IsCommentSet true,
        HookCall.UnsetComment s.buffer_pos
          (T.UnsetComment (sm.Transition s.states (BaseScanner.byteAt buf s.buffer_pos)) r
            s.buffer_pos).2] ∧
    (BaseScanner.Process.iteration sm T buf to_pos start_pos s r).result =
      (T.UnsetComment (sm.Transition s.states (BaseScanner.byteAt buf s.buffer_pos)) r
        s.buffer_pos).1 ∧
    (fullScan commentMachine commentInput).1.calls =
      [HookCall.SetComment 0, HookCall.IsCommentSet true, HookCall.UnsetComment 5 false,
       HookCall.AddValue 7, HookCall.IsCommentSet false, HookCall.AddRow 9 false] ∧
    (fullScan commentMachine commentInput).1.calls.countP HookCall.isAddRow = 1 ∧
    (fullScan commentMachine commentInput).2.comment = false := by
  obtain ⟨h1, h2⟩ :=
    BaseScanner.Process.iteration_unsets_comment sm T buf to_pos start_pos s r hcur hprev
      hcomment
  exact ⟨h1, h2, by decide, by decide, by decide⟩

/-- C10, at a concrete input: `#note\na,b\n` with the scanner standing at the first `\n`
(index 5) and the comment flag set. -/
theorem Process_comment_line_adds_no_row_witness :
    ((commentMachine.Transition ⟨CSVState.NOT_SET, CSVState.COMMENT⟩
        (BaseScanner.byteAt commentInput 5)).states_1 = CSVState.RECORD_SEPARATOR ∨
      (commentMachine.Transition ⟨CSVState.NOT_SET, CSVState.COMMENT⟩
        (BaseScanner.byteAt commentInput 5)).states_1 = CSVState.CARRIAGE_RETURN) ∧
    endsRecord (commentMachine.Transition ⟨CSVState.NOT_SET, CSVState.COMMENT⟩
      (BaseScanner.byteAt commentInput 5)) ∧
    (BaseScanner.Process.iteration commentMachine (ScannerResult.behavior commentMachine)
      commentInput 10 0 { states := ⟨CSVState.NOT_SET, CSVState.COMMENT⟩, buffer_pos := 5 }
      ({ comment := true } : ScannerResult)).scanner.calls =
      [] ++ [HookCall.IsCommentSet true, HookCall.UnsetComment 5 false] :=
  ⟨by decide, by decide,
    (Process_comment_line_adds_no_row commentMachine (ScannerResult.behavior commentMachine)
      commentInput 10 0 { states := ⟨CSVState.NOT_SET, CSVState.COMMENT⟩, buffer_pos := 5 }
      ({ comment := true } : ScannerResult) (by decide) (by decide) (by decide)).1⟩

/-! ## C1: the skip loops and the byte-at-a-time walk -/

/-! ### Bytes of a 64-bit word -/

theorem byteOfWord_testBit (v i j : Nat) :
    (byteOfWord v i).testBit j = (decide (j < 8) && v.testBit (8 * i + j)) := by
  unfold byteOfWord
  have h256 : (256 : Nat) ^ i = 2 ^ (8 * i) := by
    rw [pow_mul]; norm_num
  rw [h256, show (256 : Nat) = 2 ^ 8 by norm_num, Nat.testBit_mod_two_pow,
    ← Nat.shiftRight_eq_div_pow, Nat.testBit_shiftRight]

theorem byteOfWord_xor (a b i : Nat) :
    byteOfWord (a ^^^ b) i = byteOfWord a i ^^^ byteOfWord b i := by
  apply Nat.eq_of_testBit_eq
  intro j
  rw [Nat.testBit_xor, byteOfWord_testBit, byteOfWord_testBit, byteOfWord_testBit,
    Nat.testBit_xor]
  cases decide (j < 8) <;> simp

theorem byteOfWord_and (a b i : Nat) :
    byteOfWord (a &&& b) i = byteOfWord a i &&& byteOfWord b i := by
  apply Nat.eq_of_testBit_eq
  intro j
  rw [Nat.testBit_and, byteOfWord_testBit, byteOfWord_testBit, byteOfWord_testBit,
    Nat.testBit_and]
  cases decide (j < 8) <;> simp

theorem byteOfWord_broadcast (t i : Nat) (ht : t < 256) (hi : i < 8) :
    byteOfWord (broadcast t) i = t := by
  unfold byteOfWord broadcast
  have hq : t * 0x0101010101010101 / 256 ^ i = t * (0x0101010101010101 / 256 ^ i) := by
    apply Nat.div_eq_of_lt_le
    · interval_cases i <;> norm_num <;> omega
    · interval_cases i <;> norm_num <;> omega
  rw [hq]
  interval_cases i <;> norm_num <;> omega

theorem byteAt_lt (buf : List Nat) (i : Nat) : BaseScanner.byteAt buf i < 256 := by
  unfold BaseScanner.byteAt
  omega

theorem byteOfWord_Load (buf : List Nat) (pos i : Nat) (hi : i < 8) :
    byteOfWord (BaseScanner.Load buf pos) i = BaseScanner.byteAt buf (pos + i) := by
  unfold byteOfWord BaseScanner.Load
  have h0 := byteAt_lt buf pos
  have h1 := byteAt_lt buf (pos + 1)
  have h2 := byteAt_lt buf (pos + 2)
  have h3 := byteAt_lt buf (pos + 3)
  have h4 := byteAt_lt buf (pos + 4)
  have h5 := byteAt_lt buf (pos + 5)
  have h6 := byteAt_lt buf (pos + 6)
  have h7 := byteAt_lt buf (pos + 7)
  interval_cases i <;> norm_num <;> omega

theorem Load_lt (buf : List Nat) (pos : Nat) : BaseScanner.Load buf pos < 2 ^ 64 := by
  unfold BaseScanner.Load
  have h0 := byteAt_lt buf pos
  have h1 := byteAt_lt buf (pos + 1)
  have h2 := byteAt_lt buf (pos + 2)
  have h3 := byteAt_lt buf (pos + 3)
  have h4 := byteAt_lt buf (pos + 4)
  have h5 := byteAt_lt buf (pos + 5)
  have h6 := byteAt_lt buf (pos + 6)
  have h7 := byteAt_lt buf (pos + 7)
  norm_num
  omega

theorem ContainsZeroByte_of_byte_zero (x i : Nat) (hx : x < 2 ^ 64) (hi : i < 8)
    (h : byteOfWord x i = 0) : BaseScanner.ContainsZeroByte x = true := by
  unfold BaseScanner.ContainsZeroByte
  have key : (((x + 2 ^ 64 - 0x0101010101010101) % 2 ^ 64) &&& (2 ^ 64 - 1 - x) &&&
      0x8080808080808080).testBit (8 * i + 7) = true := by
    rw [Nat.testBit_and, Nat.testBit_and, Nat.testBit_to_div_mod, Nat.testBit_to_div_mod,
      Nat.testBit_to_div_mod]
    unfold byteOfWord at h
    interval_cases i <;> norm_num at h hx ⊢ <;> omega
  simp only [bne_iff_ne, ne_eq]
  intro h0
  rw [h0] at key
  simp at key

/-! ### The skip loops -/

namespace BaseScanner

/-- The pass of `Process` is the pass of the byte-at-a-time walk followed by the skip loops of
the case taken; a pass that returns runs no skip loop. -/
theorem Process.iteration_eq_skip_byteWalk {R : Type} (sm : CSVStateMachine) (T : Behavior R)
    (buf : List Nat) (to_pos start_pos : Nat) (s : BaseScanner) (r : R) :
    Process.iteration sm T buf to_pos start_pos s r =
      ⟨Process.skipLoopsOf sm (sm.Transition s.states (byteAt buf s.buffer_pos)).states_1 buf
          to_pos (ByteWalk.iteration sm T buf start_pos s r).scanner,
        (ByteWalk.iteration sm T buf start_pos s r).result,
        (ByteWalk.iteration sm T buf start_pos s r).returned⟩ ∧
    ((ByteWalk.iteration sm T buf start_pos s r).returned = true →
      Process.skipLoopsOf sm (sm.Transition s.states (byteAt buf s.buffer_pos)).states_1 buf
          to_pos (ByteWalk.iteration sm T buf start_pos s r).scanner
        = (ByteWalk.iteration sm T buf start_pos s r).scanner) := by
  unfold Process.iteration ByteWalk.iteration
  cases h : (sm.Transition s.states (byteAt buf s.buffer_pos)).states_1 <;>
    simp only [h, Process.skipLoopsOf] <;>
    (try split_ifs) <;> simp

/-- The word loop only moves the cursor forward, stops below the chunk end when it has moved,
and moves only over positions that a word without special byte covers. -/
theorem Process.wordLoop_skips (special : Nat → Bool) (buf : List Nat) (to_pos : Nat)
    (Q : Nat → Prop)
    (hword : ∀ pos i, i < 8 → special (Load buf pos) = false → Q (pos + i)) :
    ∀ (fuel : Nat) (s : BaseScanner),
      s.buffer_pos ≤ (Process.wordLoop special buf to_pos fuel s).buffer_pos ∧
      ((Process.wordLoop special buf to_pos fuel s).buffer_pos = s.buffer_pos ∨
        (Process.wordLoop special buf to_pos fuel s).buffer_pos < to_pos) ∧
      ∀ j, s.buffer_pos ≤ j → j < (Process.wordLoop special buf to_pos fuel s).buffer_pos →
        Q j := by
  intro fuel
  induction fuel with
  | zero =>
    intro s
    have e : Process.wordLoop special buf to_pos 0 s = s := rfl
    rw [e]
    exact ⟨le_refl _, Or.inl rfl, fun j h1 h2 => absurd h2 (by omega)⟩
  | succ n ih =>
    intro s
    by_cases h : s.buffer_pos + 8 < to_pos
    · by_cases hs : special (Load buf s.buffer_pos) = true
      · have e : (Process.wordLoop special buf to_pos (n + 1) s).buffer_pos = s.buffer_pos := by
          simp [Process.wordLoop, h, hs]
        rw [e]
        exact ⟨le_refl _, Or.inl rfl, fun j h1 h2 => absurd h2 (by omega)⟩
      · have e : Process.wordLoop special buf to_pos (n + 1) s =
            Process.wordLoop special buf to_pos n { s with
              reads := s.reads ++ List.range' s.buffer_pos 8,
              buffer_pos := s.buffer_pos + 8 } := by
          simp [Process.wordLoop, h, hs]
        rw [e]
        obtain ⟨h1, h2, h3⟩ := ih { s with
          reads := s.reads ++ List.range' s.buffer_pos 8, buffer_pos := s.buffer_pos + 8 }
        simp only at h1 h2 h3
        refine ⟨by omega, ?_, ?_⟩
        · rcases h2 with h2 | h2
          · right; rw [h2]; exact h
          · right; exact h2
        · intro j hj1 hj2
          by_cases hj : j < s.buffer_pos + 8
          · have := hword s.buffer_pos (j - s.buffer_pos) (by omega) (by simpa using hs)
            rwa [show s.buffer_pos + (j - s.buffer_pos) = j by omega] at this
          · exact h3 j (by omega) hj2
    · have e : Process.wordLoop special buf to_pos (n + 1) s = s := by
        simp [Process.wordLoop, h]
      rw [e]
      exact ⟨le_refl _, Or.inl rfl, fun j h1 h2 => absurd h2 (by omega)⟩

/-- The table loop only moves the cursor forward, stops below the chunk end when it has moved,
and moves only over bytes that the skip table allows. -/
theorem Process.tableLoop_skips (skip : Nat → Bool) (buf : List Nat) (to_pos : Nat)
    (Q : Nat → Prop) (hskip : ∀ pos, skip (byteAt buf pos) = true → Q pos) :
    ∀ (fuel : Nat) (s : BaseScanner),
      s.buffer_pos ≤ (Process.tableLoop skip buf to_pos fuel s).buffer_pos ∧
      ((Process.tableLoop skip buf to_pos fuel s).buffer_pos = s.buffer_pos ∨
        (Process.tableLoop skip buf to_pos fuel s).buffer_pos < to_pos) ∧
      ∀ j, s.buffer_pos ≤ j → j < (Process.tableLoop skip buf to_pos fuel s).buffer_pos →
        Q j := by
  intro fuel
  induction fuel with
  | zero =>
    intro s
    have e : Process.tableLoop skip buf to_pos 0 s = s := rfl
    rw [e]
    exact ⟨le_refl _, Or.inl rfl, fun j h1 h2 => absurd h2 (by omega)⟩
  | succ n ih =>
    intro s
    by_cases h : (skip (byteAt buf s.buffer_pos) && decide (s.buffer_pos < to_pos - 1)) = true
    · have e : Process.tableLoop skip buf to_pos (n + 1) s =
          Process.tableLoop skip buf to_pos n { s with
            reads := s.reads ++ [s.buffer_pos], buffer_pos := s.buffer_pos + 1 } := by
        rw [Process.tableLoop]
        simp only [h, if_true]
      rw [e]
      obtain ⟨h1, h2, h3⟩ := ih { s with
        reads := s.reads ++ [s.buffer_pos], buffer_pos := s.buffer_pos + 1 }
      simp only at h1 h2 h3
      simp only [Bool.and_eq_true, decide_eq_true_eq] at h
      refine ⟨by omega, ?_, ?_⟩
      · rcases h2 with h2 | h2
        · right; rw [h2]; omega
        · right; exact h2
      · intro j hj1 hj2
        by_cases hj : j = s.buffer_pos
        · rw [hj]; exact hskip _ h.1
        · exact h3 j (by omega) hj2
    · have e : (Process.tableLoop skip buf to_pos (n + 1) s).buffer_pos = s.buffer_pos := by
        rw [Process.tableLoop]
        simp only [h]
        rfl
      rw [e]
      exact ⟨le_refl _, Or.inl rfl, fun j h1 h2 => absurd h2 (by omega)⟩

/-- The two skip loops together. -/
theorem Process.skipLoops_skips (special skip : Nat → Bool) (buf : List Nat) (to_pos : Nat)
    (Q : Nat → Prop)
    (hword : ∀ pos i, i < 8 → special (Load buf pos) = false → Q (pos + i))
    (hskip : ∀ pos, skip (byteAt buf pos) = true → Q pos) (s : BaseScanner) :
    s.buffer_pos ≤ (Process.skipLoops special skip buf to_pos s).buffer_pos ∧
    ((Process.skipLoops special skip buf to_pos s).buffer_pos = s.buffer_pos ∨
      (Process.skipLoops special skip buf to_pos s).buffer_pos < to_pos) ∧
    ∀ j, s.buffer_pos ≤ j → j < (Process.skipLoops special skip buf to_pos s).buffer_pos →
      Q j := by
  unfold Process.skipLoops
  obtain ⟨a1, a2, a3⟩ := Process.wordLoop_skips special buf to_pos Q hword to_pos s
  obtain ⟨b1, b2, b3⟩ := Process.tableLoop_skips skip buf to_pos Q hskip to_pos
    (Process.wordLoop special buf to_pos to_pos s)
  refine ⟨le_trans a1 b1, ?_, ?_⟩
  · rcases b2 with b2 | b2
    · rcases a2 with a2 | a2
      · left; rw [b2, a2]
      · right; rw [b2]; exact a2
    · right; exact b2
  · intro j hj1 hj2
    by_cases hj : j < (Process.wordLoop special buf to_pos to_pos s).buffer_pos
    · exact a3 j hj1 hj
    · exact b3 j (by omega) hj2

/-- Under `SkipAgrees` the skip loops of a case move the cursor forward over bytes on which the
transition table stays in the state of the case; they stop below the chunk end when they have
moved, and touch nothing but the cursor and the read log. -/
theorem Process.skipLoopsOf_spec (sm : CSVStateMachine) (hagree : SkipAgrees sm)
    (cur : CSVState) (buf : List Nat) (to_pos : Nat) (s : BaseScanner) :
    s.buffer_pos ≤ (Process.skipLoopsOf sm cur buf to_pos s).buffer_pos ∧
    ((Process.skipLoopsOf sm cur buf to_pos s).buffer_pos = s.buffer_pos ∨
      (Process.skipLoopsOf sm cur buf to_pos s).buffer_pos < to_pos) ∧
    (∀ j, s.buffer_pos ≤ j → j < (Process.skipLoopsOf sm cur buf to_pos s).buffer_pos →
      sm.transition_array.table (byteAt buf j) cur = cur) ∧
    ((Process.skipLoopsOf sm cur buf to_pos s).buffer_pos ≠ s.buffer_pos →
      cur = CSVState.QUOTED ∨ cur = CSVState.STANDARD ∨ cur = CSVState.COMMENT) ∧
    (Process.skipLoopsOf sm cur buf to_pos s).states = s.states ∧
    (Process.skipLoopsOf sm cur buf to_pos s).calls = s.calls ∧
    (Process.skipLoopsOf sm cur buf to_pos s).core =
      ({ s with buffer_pos := (Process.skipLoopsOf sm cur buf to_pos s).buffer_pos }).core := by
  obtain ⟨hs, hq, hc, hws, hwq, hwc⟩ := hagree
  have hframe := fun special skip => Process.skipLoops_frame special skip buf to_pos s
  cases cur <;> simp only [Process.skipLoopsOf]
  case STANDARD =>
    obtain ⟨h1, h2, h3⟩ := Process.skipLoops_skips (Process.standardSpecial sm)
      sm.transition_array.skip_standard buf to_pos
      (fun j => sm.transition_array.table (byteAt buf j) CSVState.STANDARD = CSVState.STANDARD)
      (fun pos i hi hsp => by
        show sm.transition_array.table (byteAt buf (pos + i)) _ = _
        rw [← byteOfWord_Load buf pos i hi]
        exact hws _ i (Load_lt buf pos) hi hsp)
      (fun pos hsk => hs _ (byteAt_lt buf pos) hsk) s
    obtain ⟨f1, f2, f3, f4, f5, f6, f7⟩ := hframe (Process.standardSpecial sm)
      sm.transition_array.skip_standard
    exact ⟨h1, h2, h3, by simp, f1, f6, by simp [core, f1, f2, f3, f4, f5]⟩
  case QUOTED =>
    obtain ⟨h1, h2, h3⟩ := Process.skipLoops_skips (Process.quotedSpecial sm)
      sm.transition_array.skip_quoted buf to_pos
      (fun j => sm.transition_array.table (byteAt buf j) CSVState.QUOTED = CSVState.QUOTED)
      (fun pos i hi hsp => by
        show sm.transition_array.table (byteAt buf (pos + i)) _ = _
        rw [← byteOfWord_Load buf pos i hi]
        exact hwq _ i (Load_lt buf pos) hi hsp)
      (fun pos hsk => hq _ (byteAt_lt buf pos) hsk) s
    obtain ⟨f1, f2, f3, f4, f5, f6, f7⟩ := hframe (Process.quotedSpecial sm)
      sm.transition_array.skip_quoted
    exact ⟨h1, h2, h3, by simp, f1, f6, by simp [core, f1, f2, f3, f4, f5]⟩
  case COMMENT =>
    obtain ⟨h1, h2, h3⟩ := Process.skipLoops_skips (Process.commentSpecial sm)
      sm.transition_array.skip_comment buf to_pos
      (fun j => sm.transition_array.table (byteAt buf j) CSVState.COMMENT = CSVState.COMMENT)
      (fun pos i hi hsp => by
        show sm.transition_array.table (byteAt buf (pos + i)) _ = _
        rw [← byteOfWord_Load buf pos i hi]
        exact hwc _ i (Load_lt buf pos) hi hsp)
      (fun pos hsk => hc _ (byteAt_lt buf pos) hsk) s
    obtain ⟨f1, f2, f3, f4, f5, f6, f7⟩ := hframe (Process.commentSpecial sm)
      sm.transition_array.skip_comment
    exact ⟨h1, h2, h3, by simp, f1, f6,
      by simp [core, f1, f2, f3, f4, f5]⟩
  all_goals
    exact ⟨le_refl _, by simp, fun j h1 h2 => absurd h2 (by omega), by simp, by simp,
      by simp, by simp⟩

/-! ### The byte-at-a-time walk -/

/-- The pass of the byte-at-a-time walk always moves the cursor by one byte. -/
theorem ByteWalk.iteration_buffer_pos {R : Type} (sm : CSVStateMachine) (T : Behavior R)
    (buf : List Nat) (start_pos : Nat) (s : BaseScanner) (r : R) :
    (ByteWalk.iteration sm T buf start_pos s r).scanner.buffer_pos = s.buffer_pos + 1 ∧
    (ByteWalk.iteration sm T buf start_pos s r).scanner.states =
      sm.Transition s.states (byteAt buf s.buffer_pos) := by
  unfold ByteWalk.iteration
  cases h : (sm.Transition s.states (byteAt buf s.buffer_pos)).states_1 <;>
    simp only [h, BaseScanner.logCall, Process.stopAfterTerminator] <;>
    (try split_ifs) <;> simp_all

/-- The pass of the byte-at-a-time walk does not look at the previous state or at the logs:
from two scanners with the same `core` it returns alike, with the same result, the same state
pair, the same `core` and the same new calls. -/
theorem ByteWalk.iteration_core {R : Type} (sm : CSVStateMachine) (T : Behavior R)
    (buf : List Nat) (start_pos : Nat) (s s' : BaseScanner) (r : R)
    (hcore : s.core = s'.core) :
    (ByteWalk.iteration sm T buf start_pos s r).returned
      = (ByteWalk.iteration sm T buf start_pos s' r).returned ∧
    (ByteWalk.iteration sm T buf start_pos s r).result
      = (ByteWalk.iteration sm T buf start_pos s' r).result ∧
    (ByteWalk.iteration sm T buf start_pos s r).scanner.states
      = (ByteWalk.iteration sm T buf start_pos s' r).scanner.states ∧
    (ByteWalk.iteration sm T buf start_pos s r).scanner.core
      = (ByteWalk.iteration sm T buf start_pos s' r).scanner.core ∧
    ∃ new : List HookCall,
      (ByteWalk.iteration sm T buf start_pos s r).scanner.calls = s.calls ++ new ∧
      (ByteWalk.iteration sm T buf start_pos s' r).scanner.calls = s'.calls ++ new := by
  obtain ⟨⟨a0, a1⟩, aq, ae, ap, al, ab, ac, at_, ar⟩ := s
  obtain ⟨⟨b0, b1⟩, bq, be, bp, bl, bb, bc, bt, br⟩ := s'
  simp only [core, Prod.mk.injEq] at hcore
  obtain ⟨h1, h2, h3, h4, h5, h6⟩ := hcore
  subst h1 h2 h3 h4 h5 h6
  unfold ByteWalk.iteration
  simp only [CSVStateMachine.Transition]
  cases h : sm.transition_array.table (byteAt buf ap) a1 <;>
    simp only [h, BaseScanner.logCall, Process.stopAfterTerminator, core,
      List.append_assoc] <;>
    (try split_ifs) <;> (try simp only [List.append_assoc]) <;>
    first
      | exact ⟨by trivial, by trivial, by trivial, by trivial, _, rfl, rfl⟩
      | exact ⟨by trivial, by trivial, by trivial, by trivial, [],
          (List.append_nil _).symm, (List.append_nil _).symm⟩

/-- The pass of the byte-at-a-time walk on a byte that keeps the state `S` of a quoted span,
of a plain value or of a comment: nothing changes but the cursor, the previous state and the
logs, and the only calls are repeated `SetQuoted` or `SetComment` calls. -/
theorem ByteWalk.iteration_stays {R : Type} (sm : CSVStateMachine) (T : Behavior R)
    (buf : List Nat) (start_pos : Nat) (s : BaseScanner) (r : R) (S : CSVState)
    (hS : S = CSVState.QUOTED ∨ S = CSVState.STANDARD ∨ S = CSVState.COMMENT)
    (hcur : s.states.states_1 = S)
    (htable : sm.transition_array.table (byteAt buf s.buffer_pos) S = S)
    (hquoted : S = CSVState.QUOTED →
      s.ever_quoted = true ∧ ∀ p, T.SetQuoted ⟨S, S⟩ r p = r)
    (hcomment : S = CSVState.COMMENT → ∀ p, T.SetComment ⟨S, S⟩ r p = r) :
    (ByteWalk.iteration sm T buf start_pos s r).returned = false ∧
    (ByteWalk.iteration sm T buf start_pos s r).result = r ∧
    (ByteWalk.iteration sm T buf start_pos s r).scanner.core
      = ({ s with buffer_pos := s.buffer_pos + 1 }).core ∧
    ∃ marks : List HookCall,
      (ByteWalk.iteration sm T buf start_pos s r).scanner.calls = s.calls ++ marks ∧
      ∀ c ∈ marks, c.isSpanMark = true := by
  unfold ByteWalk.iteration
  rcases hS with h | h | h
  · subst h
    obtain ⟨hq1, hq2⟩ := hquoted rfl
    simp only [CSVStateMachine.Transition, hcur, htable, reduceCtorEq, or_self, decide_False,
      Bool.false_and, Bool.false_eq_true, if_false, BaseScanner.logCall, hq2, core, hq1]
    exact ⟨by trivial, by trivial, by trivial, [_], rfl, by simp [HookCall.isSpanMark]⟩
  · subst h
    simp only [CSVStateMachine.Transition, hcur, htable, core]
    exact ⟨by trivial, by trivial, by trivial, [], (List.append_nil _).symm, by simp⟩
  · subst h
    have hc := hcomment rfl
    simp only [CSVStateMachine.Transition, hcur, htable, BaseScanner.logCall, hc, core]
    exact ⟨by trivial, by trivial, by trivial, [_], rfl, by simp [HookCall.isSpanMark]⟩

/-- After a pass of the byte-at-a-time walk that entered `QUOTED` (or `COMMENT`), `ever_quoted`
is set and the result is one that a repeated `SetQuoted` (or `SetComment`) leaves as it is. -/
theorem ByteWalk.iteration_settles {R : Type} (sm : CSVStateMachine) (T : Behavior R)
    (habs : T.AbsorbsRepeats) (buf : List Nat) (start_pos : Nat) (s : BaseScanner) (r : R) :
    ((sm.Transition s.states (byteAt buf s.buffer_pos)).states_1 = CSVState.QUOTED →
      (ByteWalk.iteration sm T buf start_pos s r).scanner.ever_quoted = true ∧
      ∀ p, T.SetQuoted ⟨CSVState.QUOTED, CSVState.QUOTED⟩
        (ByteWalk.iteration sm T buf start_pos s r).result p
        = (ByteWalk.iteration sm T buf start_pos s r).result) ∧
    ((sm.Transition s.states (byteAt buf s.buffer_pos)).states_1 = CSVState.COMMENT →
      ∀ p, T.SetComment ⟨CSVState.COMMENT, CSVState.COMMENT⟩
        (ByteWalk.iteration sm T buf start_pos s r).result p
        = (ByteWalk.iteration sm T buf start_pos s r).result) := by
  obtain ⟨hq, hc⟩ := habs
  unfold ByteWalk.iteration
  constructor
  · intro h
    simp only [h, BaseScanner.logCall, true_and]
    intro p
    exact hq _ _ _ _
  · intro h
    simp only [h]
    intro p
    exact hc _ _ _ _

/-- The byte-at-a-time walk over `k` bytes that keep the state `S`: the loop arrives, with
`k` passes, at a scanner that differs from the one it started from in the cursor, the previous
state and the logs only; the calls it made are repeated `SetQuoted` or `SetComment` calls. -/
theorem ByteWalk.loop_over_span {R : Type} (sm : CSVStateMachine) (T : Behavior R)
    (buf : List Nat) (to_pos start_pos : Nat) (r : R) (S : CSVState)
    (hS : S = CSVState.QUOTED ∨ S = CSVState.STANDARD ∨ S = CSVState.COMMENT)
    (hquoted : S = CSVState.QUOTED → ∀ p, T.SetQuoted ⟨S, S⟩ r p = r)
    (hcomment : S = CSVState.COMMENT → ∀ p, T.SetComment ⟨S, S⟩ r p = r) :
    ∀ (k : Nat) (s : BaseScanner) (f : Nat),
      s.states.states_1 = S →
      (S = CSVState.QUOTED → s.ever_quoted = true) →
      (∀ j, s.buffer_pos ≤ j → j < s.buffer_pos + k →
        sm.transition_array.table (byteAt buf j) S = S) →
      s.buffer_pos + k ≤ to_pos →
      ∃ s' : BaseScanner,
        ByteWalk.loop sm T buf to_pos start_pos (f + k) s r
          = ByteWalk.loop sm T buf to_pos start_pos f s' r ∧
        s'.core = ({ s with buffer_pos := s.buffer_pos + k }).core ∧
        (k = 0 → s' = s) ∧
        ∃ marks : List HookCall, s'.calls = s.calls ++ marks ∧
          ∀ c ∈ marks, c.isSpanMark = true := by
  intro k
  induction k with
  | zero =>
    intro s f _ _ _ _
    exact ⟨s, rfl, rfl, fun _ => rfl, [], (List.append_nil _).symm, by simp⟩
  | succ k ih =>
    intro s f hcur hever hbytes hle
    obtain ⟨h1, h2, h3, marks, h4, h5⟩ := ByteWalk.iteration_stays sm T buf start_pos s r S hS
      hcur (hbytes _ (le_refl _) (by omega)) (fun h => ⟨hever h, hquoted h⟩) hcomment
    have hlt : s.buffer_pos < to_pos := by omega
    have hstep : ByteWalk.loop sm T buf to_pos start_pos (f + (k + 1)) s r =
        ByteWalk.loop sm T buf to_pos start_pos (f + k)
          (ByteWalk.iteration sm T buf start_pos s r).scanner r := by
      rw [show f + (k + 1) = (f + k) + 1 by omega, ByteWalk.loop]
      simp only [hlt, if_true, h1, h2, Bool.false_eq_true, if_false]
    simp only [core, Prod.mk.injEq] at h3
    obtain ⟨c1, c2, c3, c4, c5, c6⟩ := h3
    obtain ⟨s', e1, e2, _, marks', e4, e5⟩ :=
      ih (ByteWalk.iteration sm T buf start_pos s r).scanner f (c1.trans hcur)
        (fun h => c2.trans (hever h))
        (fun j hj1 hj2 => hbytes j (by omega) (by omega)) (by omega)
    refine ⟨s', hstep.trans e1, ?_, fun h => absurd h (by omega), marks ++ marks', ?_, ?_⟩
    · simp only [core, Prod.mk.injEq] at e2 ⊢
      obtain ⟨d1, d2, d3, d4, d5, d6⟩ := e2
      exact ⟨d1.trans c1, d2.trans c2, d3.trans c3, by omega, d5.trans c5, d6.trans c6⟩
    · rw [e4, h4, List.append_assoc]
    · intro c hc
      rcases List.mem_append.1 hc with hc | hc
      · exact h5 c hc
      · exact e5 c hc

/-! ### The simulation -/

/-- At or past the chunk end the main loop only assigns `bytes_read`. -/
theorem Process.loop_exit {R : Type} (sm : CSVStateMachine) (T : Behavior R) (buf : List Nat)
    (to_pos start_pos fuel : Nat) (s : BaseScanner) (r : R) (h : ¬ s.buffer_pos < to_pos) :
    Process.loop sm T buf to_pos start_pos fuel s r =
      ({ s with bytes_read := s.buffer_pos - start_pos }, r) := by
  cases fuel with
  | zero => rfl
  | succ n => rw [Process.loop]; simp only [h, if_false]

/-- At or past the chunk end the byte-at-a-time walk only assigns `bytes_read`. -/
theorem ByteWalk.walk_exit {R : Type} (sm : CSVStateMachine) (T : Behavior R) (buf : List Nat)
    (to_pos start_pos fuel : Nat) (s : BaseScanner) (r : R) (h : ¬ s.buffer_pos < to_pos) :
    ByteWalk.loop sm T buf to_pos start_pos fuel s r =
      ({ s with bytes_read := s.buffer_pos - start_pos }, r) := by
  cases fuel with
  | zero => rfl
  | succ n => rw [ByteWalk.loop]; simp only [h, if_false]

/-- The main loop of `Process` against the byte-at-a-time walk, from two scanners with the
same `core`. -/
theorem Process.loop_simulates_byteWalk {R : Type} (sm : CSVStateMachine) (T : Behavior R)
    (hagree : SkipAgrees sm) (habs : T.AbsorbsRepeats) (buf : List Nat)
    (to_pos start_pos : Nat) :
    ∀ (n : Nat) (fs rs : BaseScanner) (r : R) (f1 f2 : Nat),
      to_pos - fs.buffer_pos ≤ n → fs.core = rs.core →
      (fs.states = rs.states ∨ fs.buffer_pos < to_pos) →
      to_pos - fs.buffer_pos ≤ f1 → to_pos - fs.buffer_pos ≤ f2 →
      (Process.loop sm T buf to_pos start_pos f1 fs r).1.core
        = (ByteWalk.loop sm T buf to_pos start_pos f2 rs r).1.core ∧
      (Process.loop sm T buf to_pos start_pos f1 fs r).1.states
        = (ByteWalk.loop sm T buf to_pos start_pos f2 rs r).1.states ∧
      (Process.loop sm T buf to_pos start_pos f1 fs r).2
        = (ByteWalk.loop sm T buf to_pos start_pos f2 rs r).2 ∧
      ∃ new extra : List HookCall,
        (Process.loop sm T buf to_pos start_pos f1 fs r).1.calls = fs.calls ++ new ∧
        (ByteWalk.loop sm T buf to_pos start_pos f2 rs r).1.calls = rs.calls ++ extra ∧
        new.Sublist extra ∧
        new.filter (fun c => !c.isSpanMark) = extra.filter (fun c => !c.isSpanMark) := by
  intro n
  induction n with
  | zero =>
    intro fs rs r f1 f2 hn hcore hst _ _
    have hp : ¬ fs.buffer_pos < to_pos := by omega
    have hposeq : fs.buffer_pos = rs.buffer_pos := by
      simp only [core, Prod.mk.injEq] at hcore; exact hcore.2.2.2.1
    have hp' : ¬ rs.buffer_pos < to_pos := by omega
    rw [Process.loop_exit sm T buf to_pos start_pos f1 fs r hp,
      ByteWalk.walk_exit sm T buf to_pos start_pos f2 rs r hp']
    refine ⟨?_, ?_, rfl, [], [], by simp, by simp, List.Sublist.refl _, rfl⟩
    · simp only [core, Prod.mk.injEq] at hcore ⊢
      obtain ⟨c1, c2, c3, c4, c5, c6⟩ := hcore
      exact ⟨c1, c2, c3, c4, c5, by rw [c4]⟩
    · rcases hst with h | h
      · exact h
      · exact absurd h hp
  | succ n ih =>
    intro fs rs r f1 f2 hn hcore hst hf1 hf2
    have hposeq : fs.buffer_pos = rs.buffer_pos := by
      simp only [core, Prod.mk.injEq] at hcore; exact hcore.2.2.2.1
    by_cases hp : fs.buffer_pos < to_pos
    swap
    · have hp' : ¬ rs.buffer_pos < to_pos := by omega
      rw [Process.loop_exit sm T buf to_pos start_pos f1 fs r hp,
        ByteWalk.walk_exit sm T buf to_pos start_pos f2 rs r hp']
      refine ⟨?_, ?_, rfl, [], [], by simp, by simp, List.Sublist.refl _, rfl⟩
      · simp only [core, Prod.mk.injEq] at hcore ⊢
        obtain ⟨c1, c2, c3, c4, c5, c6⟩ := hcore
        exact ⟨c1, c2, c3, c4, c5, by rw [c4]⟩
      · rcases hst with h | h
        · exact h
        · exact absurd h hp
    · have hp' : rs.buffer_pos < to_pos := by omega
      obtain ⟨f1', rfl⟩ : ∃ k, f1 = k + 1 := ⟨f1 - 1, by omega⟩
      obtain ⟨f2', rfl⟩ : ∃ k, f2 = k + 1 := ⟨f2 - 1, by omega⟩
      obtain ⟨hB1, hB2⟩ := Process.iteration_eq_skip_byteWalk sm T buf to_pos start_pos fs r
      obtain ⟨hC1, hC2, hC3, hC4, new0, hC5, hC6⟩ :=
        ByteWalk.iteration_core sm T buf start_pos fs rs r hcore
      obtain ⟨hW1, hW2⟩ := ByteWalk.iteration_buffer_pos sm T buf start_pos fs r
      obtain ⟨hV1, hV2⟩ := ByteWalk.iteration_buffer_pos sm T buf start_pos rs r
      rw [Process.loop, ByteWalk.loop]
      simp only [hp, hp', if_true, hB1]
      by_cases hret : (ByteWalk.iteration sm T buf start_pos fs r).returned = true
      · have hret' : (ByteWalk.iteration sm T buf start_pos rs r).returned = true := by
          rw [← hC1]; exact hret
        simp only [hret, hret', if_true, hB2 hret]
        exact ⟨hC4, hC3, hC2, new0, new0, hC5, hC6, List.Sublist.refl _, rfl⟩
      · have hrf : (ByteWalk.iteration sm T buf start_pos fs r).returned = false := by
          simpa using hret
        have hrf' : (ByteWalk.iteration sm T buf start_pos rs r).returned = false := by
          rw [← hC1]; exact hrf
        simp only [hrf, hrf', Bool.false_eq_true, if_false]
        obtain ⟨hS1, hS2, hS3, hS4, hS5, hS6, hS7⟩ := Process.skipLoopsOf_spec sm hagree
          (sm.Transition fs.states (byteAt buf fs.buffer_pos)).states_1 buf to_pos
          (ByteWalk.iteration sm T buf start_pos fs r).scanner
        by_cases hq : (Process.skipLoopsOf sm
            (sm.Transition fs.states (byteAt buf fs.buffer_pos)).states_1 buf to_pos
            (ByteWalk.iteration sm T buf start_pos fs r).scanner).buffer_pos
            = (ByteWalk.iteration sm T buf start_pos fs r).scanner.buffer_pos
        · -- the skip loops did not move the cursor
          obtain ⟨i1, i2, i3, new2, extra2, i4, i5, i6, i7⟩ := ih
            (Process.skipLoopsOf sm
              (sm.Transition fs.states (byteAt buf fs.buffer_pos)).states_1 buf to_pos
              (ByteWalk.iteration sm T buf start_pos fs r).scanner)
            (ByteWalk.iteration sm T buf start_pos rs r).scanner
            (ByteWalk.iteration sm T buf start_pos fs r).result f1' f2'
            (by rw [hq, hW1]; omega)
            (by
              rw [hS7, ← hC4]
              simp only [core, Prod.mk.injEq, hq, and_self])
            (Or.inl (by rw [hS5, hC3]))
            (by rw [hq, hW1]; omega) (by rw [hq, hW1]; omega)
          rw [← hC2]
          refine ⟨i1, i2, i3, new0 ++ new2, new0 ++ extra2, ?_, ?_, ?_, ?_⟩
          · rw [i4, hS6, hC5, List.append_assoc]
          · rw [i5, hC6, List.append_assoc]
          · exact List.Sublist.append (List.Sublist.refl _) i6
          · rw [List.filter_append, List.filter_append, i7]
        · -- the skip loops moved the cursor over a span of bytes
          have hlt := hS2.resolve_left hq
          have hS := hS4 hq
          obtain ⟨hF1, hF2⟩ := ByteWalk.iteration_settles sm T habs buf start_pos rs r
          have hcur : (sm.Transition rs.states (byteAt buf rs.buffer_pos)).states_1
              = (sm.Transition fs.states (byteAt buf fs.buffer_pos)).states_1 := by
            rw [← hV2, ← hW2, hC3]
          obtain ⟨rq, e1, e2, _, marks, e4, e5⟩ := ByteWalk.loop_over_span sm T buf to_pos
            start_pos (ByteWalk.iteration sm T buf start_pos rs r).result
            (sm.Transition fs.states (byteAt buf fs.buffer_pos)).states_1 hS
            (fun h => by
              have := (hF1 (hcur.trans h)).2
              rw [h]; exact this)
            (fun h => by
              have := hF2 (hcur.trans h)
              rw [h]; exact this)
            ((Process.skipLoopsOf sm
              (sm.Transition fs.states (byteAt buf fs.buffer_pos)).states_1 buf to_pos
              (ByteWalk.iteration sm T buf start_pos fs r).scanner).buffer_pos
              - (fs.buffer_pos + 1))
            (ByteWalk.iteration sm T buf start_pos rs r).scanner
            (f2' - ((Process.skipLoopsOf sm
              (sm.Transition fs.states (byteAt buf fs.buffer_pos)).states_1 buf to_pos
              (ByteWalk.iteration sm T buf start_pos fs r).scanner).buffer_pos
              - (fs.buffer_pos + 1)))
            (by rw [hV2]; exact hcur)
            (fun h => (hF1 (hcur.trans h)).1)
            (fun j hj1 hj2 => hS3 j (by rw [hW1]; rw [hV1] at hj1; omega)
              (by rw [hV1] at hj2; rw [hW1] at hS1; omega))
            (by rw [hV1]; rw [hW1] at hS1; omega)
          rw [hW1] at hS1 hq
          have hfuel : f2' - ((Process.skipLoopsOf sm
              (sm.Transition fs.states (byteAt buf fs.buffer_pos)).states_1 buf to_pos
              (ByteWalk.iteration sm T buf start_pos fs r).scanner).buffer_pos
              - (fs.buffer_pos + 1)) + ((Process.skipLoopsOf sm
              (sm.Transition fs.states (byteAt buf fs.buffer_pos)).states_1 buf to_pos
              (ByteWalk.iteration sm T buf start_pos fs r).scanner).buffer_pos
              - (fs.buffer_pos + 1)) = f2' := by omega
          rw [hfuel] at e1
          obtain ⟨i1, i2, i3, new2, extra2, i4, i5, i6, i7⟩ := ih
            (Process.skipLoopsOf sm
              (sm.Transition fs.states (byteAt buf fs.buffer_pos)).states_1 buf to_pos
              (ByteWalk.iteration sm T buf start_pos fs r).scanner)
            rq (ByteWalk.iteration sm T buf start_pos fs r).result f1'
            (f2' - ((Process.skipLoopsOf sm
              (sm.Transition fs.states (byteAt buf fs.buffer_pos)).states_1 buf to_pos
              (ByteWalk.iteration sm T buf start_pos fs r).scanner).buffer_pos
              - (fs.buffer_pos + 1)))
            (by omega)
            (by
              rw [hS7, e2]
              simp only [core, Prod.mk.injEq] at hC4 ⊢
              obtain ⟨c1, c2, c3, c4, c5, c6⟩ := hC4
              refine ⟨c1, c2, c3, ?_, c5, c6⟩
              rw [hV1]; omega)
            (Or.inr hlt) (by omega) (by omega)
          rw [e1, ← hC2]
          refine ⟨i1, i2, i3, new0 ++ new2, new0 ++ (marks ++ extra2), ?_, ?_, ?_, ?_⟩
          · rw [i4, hS6, hC5, List.append_assoc]
          · rw [i5, e4, hC6, List.append_assoc, List.append_assoc]
          · exact List.Sublist.append (List.Sublist.refl _)
              (i6.trans (List.sublist_append_right _ _))
          · have hm : marks.filter (fun c => !c.isSpanMark) = [] := by
              rw [List.filter_eq_nil_iff]
              intro c hc
              simp [e5 c hc]
            rw [List.filter_append, List.filter_append, List.filter_append, hm, i7,
              List.nil_append]

end BaseScanner

/-! ### The sample dialect agrees; the flag hooks absorb repeats -/

theorem broadcast_lt (t : Nat) (ht : t < 256) : broadcast t < 2 ^ 64 := by
  unfold broadcast
  omega

theorem byteOfWord_xor_broadcast (v t i : Nat) (ht : t < 256) (hi : i < 8) :
    byteOfWord (v ^^^ broadcast t) i = byteOfWord v i ^^^ t := by
  rw [byteOfWord_xor, byteOfWord_broadcast t i ht hi]

/-- The masks and skip tables of the sample machine agree with the sample table. -/
theorem sampleMachine_skipAgrees (d q e c : Nat) (hd : d < 256) (hq : q < 256) (he : e < 256)
    (hc : c < 256) (strict_mode : CSVOption Bool) (new_line : CSVOption NewLineIdentifier) :
    SkipAgrees (sampleMachine d q e c strict_mode new_line) := by
  have h10 : (10 : Nat) < 256 := by norm_num
  have h13 : (13 : Nat) < 256 := by norm_num
  refine ⟨?_, ?_, ?_, ?_, ?_, ?_⟩
  · intro b _ hb
    simp only [sampleMachine, Bool.and_eq_true, bne_iff_ne, ne_eq] at hb
    obtain ⟨⟨⟨⟨b1, b2⟩, b3⟩, _⟩, b5⟩ := hb
    simp [sampleMachine, sampleTable, b1, b2, b3, b5]
  · intro b _ hb
    simp only [sampleMachine, Bool.and_eq_true, bne_iff_ne, ne_eq] at hb
    obtain ⟨b1, b2⟩ := hb
    simp [sampleMachine, sampleTable, b1, b2]
  · intro b _ hb
    simp only [sampleMachine, Bool.and_eq_true, bne_iff_ne, ne_eq] at hb
    obtain ⟨b1, b2⟩ := hb
    simp [sampleMachine, sampleTable, b1, b2]
  · intro v i hv hi hsp
    have hx : (v ^^^ broadcast d) &&& (v ^^^ broadcast 10) &&& (v ^^^ broadcast 13) &&&
        (v ^^^ broadcast e) &&& (v ^^^ broadcast c) < 2 ^ 64 :=
      Nat.and_lt_two_pow _ (Nat.xor_lt_two_pow hv (broadcast_lt c hc))
    have hne : byteOfWord ((v ^^^ broadcast d) &&& (v ^^^ broadcast 10) &&&
        (v ^^^ broadcast 13) &&& (v ^^^ broadcast e) &&& (v ^^^ broadcast c)) i ≠ 0 := by
      intro h0
      have := ContainsZeroByte_of_byte_zero _ i hx hi h0
      simp only [BaseScanner.Process.standardSpecial, sampleMachine] at hsp
      rw [hsp] at this
      exact absurd this (by decide)
    rw [byteOfWord_and, byteOfWord_and, byteOfWord_and, byteOfWord_and,
      byteOfWord_xor_broadcast v d i hd hi, byteOfWord_xor_broadcast v 10 i h10 hi,
      byteOfWord_xor_broadcast v 13 i h13 hi, byteOfWord_xor_broadcast v e i he hi,
      byteOfWord_xor_broadcast v c i hc hi] at hne
    have b1 : byteOfWord v i ≠ d := by
      intro h; apply hne; rw [h, Nat.xor_self]; simp
    have b2 : byteOfWord v i ≠ 10 := by
      intro h; apply hne; rw [h, Nat.xor_self]; simp
    have b3 : byteOfWord v i ≠ 13 := by
      intro h; apply hne; rw [h, Nat.xor_self]; simp
    have b5 : byteOfWord v i ≠ c := by
      intro h; apply hne; rw [h, Nat.xor_self]; simp
    simp [sampleMachine, sampleTable, b1, b2, b3, b5]
  · intro v i hv hi hsp
    have hx : (v ^^^ broadcast q) &&& (v ^^^ broadcast e) < 2 ^ 64 :=
      Nat.and_lt_two_pow _ (Nat.xor_lt_two_pow hv (broadcast_lt e he))
    have hne : byteOfWord ((v ^^^ broadcast q) &&& (v ^^^ broadcast e)) i ≠ 0 := by
      intro h0
      have := ContainsZeroByte_of_byte_zero _ i hx hi h0
      simp only [BaseScanner.Process.quotedSpecial, sampleMachine] at hsp
      rw [hsp] at this
      exact absurd this (by decide)
    rw [byteOfWord_and, byteOfWord_xor_broadcast v q i hq hi,
      byteOfWord_xor_broadcast v e i he hi] at hne
    have b1 : byteOfWord v i ≠ q := by
      intro h; apply hne; rw [h, Nat.xor_self]; simp
    have b2 : byteOfWord v i ≠ e := by
      intro h; apply hne; rw [h, Nat.xor_self]; simp
    simp [sampleMachine, sampleTable, b1, b2]
  · intro v i hv hi hsp
    have hx : (v ^^^ broadcast 10) &&& (v ^^^ broadcast 13) < 2 ^ 64 :=
      Nat.and_lt_two_pow _ (Nat.xor_lt_two_pow hv (broadcast_lt 13 h13))
    have hne : byteOfWord ((v ^^^ broadcast 10) &&& (v ^^^ broadcast 13)) i ≠ 0 := by
      intro h0
      have := ContainsZeroByte_of_byte_zero _ i hx hi h0
      simp only [BaseScanner.Process.commentSpecial, sampleMachine] at hsp
      rw [hsp] at this
      exact absurd this (by decide)
    rw [byteOfWord_and, byteOfWord_xor_broadcast v 10 i h10 hi,
      byteOfWord_xor_broadcast v 13 i h13 hi] at hne
    have b1 : byteOfWord v i ≠ 10 := by
      intro h; apply hne; rw [h, Nat.xor_self]; simp
    have b2 : byteOfWord v i ≠ 13 := by
      intro h; apply hne; rw [h, Nat.xor_self]; simp
    simp [sampleMachine, sampleTable, b1, b2]

/-- The flag hooks `SetQuoted` and `SetComment` of `ScannerResult` absorb an immediate
repetition. -/
theorem ScannerResult.behavior_absorbsRepeats (sm : CSVStateMachine) :
    (ScannerResult.behavior sm).AbsorbsRepeats := by
  constructor
  · intro states result p q
    simp [ScannerResult.behavior, ScannerResult.SetQuoted]
  · intro states result p q
    simp [ScannerResult.behavior, ScannerResult.SetComment]

/-! ### C1 -/

/-- C1 (counterexample): for `"abc",d` with quote `"` and delimiter `,`, an automaton whose
masks and skip tables agree with its transition function, `Process` calls `SetQuoted` once (at
the opening quote) and skips the bytes `abc`, while the walk that feeds every byte to
`Transition` and dispatches on it calls `SetQuoted` at each of them: the two hook-call
sequences are not the same. -/
theorem Process_calls_differ_from_ByteWalk :
    SkipAgrees quoteMachine ∧
    (BaseScanner.Process quoteMachine (ScannerResult.behavior quoteMachine) false 0 7
      quotedSpanInput (BaseScanner.fresh 0) {}).1.calls
      = [HookCall.SetQuoted 0, HookCall.SetUnquoted, HookCall.AddValue 5] ∧
    (BaseScanner.ByteWalk quoteMachine (ScannerResult.behavior quoteMachine) false 0 7
      quotedSpanInput (BaseScanner.fresh 0) {}).1.calls
      = [HookCall.SetQuoted 0, HookCall.SetQuoted 1, HookCall.SetQuoted 2,
         HookCall.SetQuoted 3, HookCall.SetUnquoted, HookCall.AddValue 5] ∧
    (BaseScanner.Process quoteMachine (ScannerResult.behavior quoteMachine) false 0 7
      quotedSpanInput (BaseScanner.fresh 0) {}).1.calls
      ≠ (BaseScanner.ByteWalk quoteMachine (ScannerResult.behavior quoteMachine) false 0 7
      quotedSpanInput (BaseScanner.fresh 0) {}).1.calls :=
  ⟨sampleMachine_skipAgrees 44 34 0 0 (by decide) (by decide) (by decide) (by decide) _ _,
    by decide, by decide, by decide⟩

/-- C1 (amended): for every buffer, chunk end and automaton whose broadcast masks and skip
tables agree with its transition function, and every behavior whose `SetQuoted` and
`SetComment` absorb an immediate repetition inside the span (as those of `ScannerResult` do),
the hook calls of `Process` are those of the byte-at-a-time walk with some `SetQuoted` and
`SetComment` calls left out (the ones the walk repeats at the bytes that `Process` skips): the
calls other than `SetQuoted` and `SetComment` are the same, in the same order, with the same
positions and returned values, and both runs end with the same result, state pair, cursor,
`lines_read`, `bytes_read`, `ever_quoted` and `ever_escaped`. -/
theorem Process_calls_eq_ByteWalk_up_to_span_marks {R : Type} (sm : CSVStateMachine)
    (T : Behavior R) (hagree : SkipAgrees sm) (habs : T.AbsorbsRepeats)
    (IsBoundarySet : Bool) (GetEndPos actual_size : Nat) (buf : List Nat) (s : BaseScanner)
    (r : R) :
    (BaseScanner.Process sm T IsBoundarySet GetEndPos actual_size buf s r).1.calls.filter
        (fun c => !c.isSpanMark)
      = (BaseScanner.ByteWalk sm T IsBoundarySet GetEndPos actual_size buf s r).1.calls.filter
        (fun c => !c.isSpanMark) ∧
    (BaseScanner.Process sm T IsBoundarySet GetEndPos actual_size buf s r).1.calls.Sublist
      (BaseScanner.ByteWalk sm T IsBoundarySet GetEndPos actual_size buf s r).1.calls ∧
    (BaseScanner.Process sm T IsBoundarySet GetEndPos actual_size buf s r).2
      = (BaseScanner.ByteWalk sm T IsBoundarySet GetEndPos actual_size buf s r).2 ∧
    (BaseScanner.Process sm T IsBoundarySet GetEndPos actual_size buf s r).1.states
      = (BaseScanner.ByteWalk sm T IsBoundarySet GetEndPos actual_size buf s r).1.states ∧
    (BaseScanner.Process sm T IsBoundarySet GetEndPos actual_size buf s r).1.buffer_pos
      = (BaseScanner.ByteWalk sm T IsBoundarySet GetEndPos actual_size buf s r).1.buffer_pos ∧
    (BaseScanner.Process sm T IsBoundarySet GetEndPos actual_size buf s r).1.lines_read
      = (BaseScanner.ByteWalk sm T IsBoundarySet GetEndPos actual_size buf s r).1.lines_read ∧
    (BaseScanner.Process sm T IsBoundarySet GetEndPos actual_size buf s r).1.bytes_read
      = (BaseScanner.ByteWalk sm T IsBoundarySet GetEndPos actual_size buf s r).1.bytes_read ∧
    (BaseScanner.Process sm T IsBoundarySet GetEndPos actual_size buf s r).1.ever_quoted
      = (BaseScanner.ByteWalk sm T IsBoundarySet GetEndPos actual_size buf s r).1.ever_quoted ∧
    (BaseScanner.Process sm T IsBoundarySet GetEndPos actual_size buf s r).1.ever_escaped
      = (BaseScanner.ByteWalk sm T IsBoundarySet GetEndPos actual_size buf s r).1.ever_escaped := by
  obtain ⟨hcore, hstates, hres, new, extra, hc1, hc2, hsub, hfil⟩ :=
    BaseScanner.Process.loop_simulates_byteWalk sm T hagree habs buf
      (BaseScanner.Process.to_pos IsBoundarySet GetEndPos actual_size) s.buffer_pos
      (BaseScanner.Process.to_pos IsBoundarySet GetEndPos actual_size - s.buffer_pos) s s r
      (BaseScanner.Process.to_pos IsBoundarySet GetEndPos actual_size - s.buffer_pos)
      (BaseScanner.Process.to_pos IsBoundarySet GetEndPos actual_size - s.buffer_pos)
      (le_refl _) rfl (Or.inl rfl) (le_refl _) (le_refl _)
  simp only [BaseScanner.core, Prod.mk.injEq] at hcore
  obtain ⟨_, c2, c3, c4, c5, c6⟩ := hcore
  unfold BaseScanner.Process BaseScanner.ByteWalk
  refine ⟨?_, ?_, hres, hstates, c4, c5, c6, c2, c3⟩
  · rw [hc1, hc2, List.filter_append, List.filter_append, hfil]
  · rw [hc1, hc2]
    exact List.Sublist.append (List.Sublist.refl _) hsub

/-- C1 (amended), at a concrete input: `"abc",d` with the sample dialect with quote `"` and
the flag hooks of `ScannerResult`. -/
theorem Process_calls_eq_ByteWalk_up_to_span_marks_witness :
    SkipAgrees quoteMachine ∧
    (ScannerResult.behavior quoteMachine).AbsorbsRepeats ∧
    (BaseScanner.Process quoteMachine (ScannerResult.behavior quoteMachine) false 0 7
        quotedSpanInput (BaseScanner.fresh 0) {}).1.calls.filter (fun c => !c.isSpanMark)
      = (BaseScanner.ByteWalk quoteMachine (ScannerResult.behavior quoteMachine) false 0 7
        quotedSpanInput (BaseScanner.fresh 0) {}).1.calls.filter (fun c => !c.isSpanMark) ∧
    (BaseScanner.Process quoteMachine (ScannerResult.behavior quoteMachine) false 0 7
        quotedSpanInput (BaseScanner.fresh 0) {}).2
      = (BaseScanner.ByteWalk quoteMachine (ScannerResult.behavior quoteMachine) false 0 7
        quotedSpanInput (BaseScanner.fresh 0) {}).2 :=
  have h := Process_calls_eq_ByteWalk_up_to_span_marks quoteMachine
    (ScannerResult.behavior quoteMachine)
    (sampleMachine_skipAgrees 44 34 0 0 (by decide) (by decide) (by decide) (by decide) _ _)
    (ScannerResult.behavior_absorbsRepeats quoteMachine) false 0 7 quotedSpanInput
    (BaseScanner.fresh 0) ({} : ScannerResult)
  ⟨sampleMachine_skipAgrees 44 34 0 0 (by decide) (by decide) (by decide) (by decide) _ _,
    ScannerResult.behavior_absorbsRepeats quoteMachine, h.1, h.2.2.1⟩

/-! ## The fuel of the loops is never used up -/

namespace BaseScanner

/-- The word loop never uses up `to_pos - buffer_pos` passes: more fuel changes nothing. -/
theorem Process.wordLoop_fuel (special : Nat → Bool) (buf : List Nat) (to_pos : Nat) :
    ∀ (f : Nat) (s : BaseScanner), to_pos - s.buffer_pos ≤ f →
      Process.wordLoop special buf to_pos (f + 1) s = Process.wordLoop special buf to_pos f s := by
  intro f
  induction f with
  | zero =>
    intro s h
    have hc : ¬ s.buffer_pos + 8 < to_pos := by omega
    simp [Process.wordLoop, hc]
  | succ n ih =>
    intro s h
    rw [Process.wordLoop, Process.wordLoop.eq_def special buf to_pos (n + 1) s]
    by_cases hc : s.buffer_pos + 8 < to_pos
    · by_cases hs : special (Load buf s.buffer_pos) = true
      · simp only [hc, hs, if_true]
      · simp only [hc, hs, if_true, Bool.false_eq_true, if_false]
        exact ih _ (by simp only; omega)
    · simp only [hc, if_false]

/-- The table loop never uses up `to_pos - buffer_pos` passes (and at least one for the
first evaluation of its condition): more fuel changes nothing. -/
theorem Process.tableLoop_fuel (skip : Nat → Bool) (buf : List Nat) (to_pos : Nat) :
    ∀ (f : Nat) (s : BaseScanner), to_pos - s.buffer_pos ≤ f → 1 ≤ f →
      Process.tableLoop skip buf to_pos (f + 1) s = Process.tableLoop skip buf to_pos f s := by
  intro f
  induction f with
  | zero => intro s _ h; omega
  | succ n ih =>
    intro s h _
    rw [Process.tableLoop, Process.tableLoop.eq_def skip buf to_pos (n + 1) s]
    by_cases hc : (skip (byteAt buf s.buffer_pos) && decide (s.buffer_pos < to_pos - 1)) = true
    · simp only [hc, if_true]
      have hlt : s.buffer_pos < to_pos - 1 := by
        simp only [Bool.and_eq_true, decide_eq_true_eq] at hc; exact hc.2
      exact ih _ (by simp only; omega) (by omega)
    · simp only [hc, Bool.false_eq_true, if_false]

/-- The fuel that the passes of the main loop hand to the word loop is enough. -/
theorem Process.wordLoop_fuel_adequate (special : Nat → Bool) (buf : List Nat) (to_pos : Nat)
    (s : BaseScanner) (extra : Nat) :
    Process.wordLoop special buf to_pos (to_pos + extra) s
      = Process.wordLoop special buf to_pos to_pos s := by
  induction extra with
  | zero => rfl
  | succ n ih =>
    rw [← ih, ← Nat.add_assoc]
    exact Process.wordLoop_fuel special buf to_pos _ s (by omega)

/-- The fuel that the passes of the main loop hand to the table loop is enough; inside the
main loop `1 ≤ to_pos` holds. -/
theorem Process.tableLoop_fuel_adequate (skip : Nat → Bool) (buf : List Nat) (to_pos : Nat)
    (hpos : 1 ≤ to_pos) (s : BaseScanner) (extra : Nat) :
    Process.tableLoop skip buf to_pos (to_pos + extra) s
      = Process.tableLoop skip buf to_pos to_pos s := by
  induction extra with
  | zero => rfl
  | succ n ih =>
    rw [← ih, ← Nat.add_assoc]
    exact Process.tableLoop_fuel skip buf to_pos _ s (by omega) (by omega)

/-- Every pass of the loop body moves the cursor forward. -/
theorem Process.iteration_progress {R : Type} (sm : CSVStateMachine) (T : Behavior R)
    (buf : List Nat) (to_pos start_pos : Nat) (s : BaseScanner) (r : R) :
    s.buffer_pos < (Process.iteration sm T buf to_pos start_pos s r).scanner.buffer_pos := by
  have hskip : ∀ (special skip : Nat → Bool) (s' : BaseScanner),
      s'.buffer_pos ≤ (Process.skipLoops special skip buf to_pos s').buffer_pos :=
    fun special skip s' =>
      (Process.skipLoops_skips special skip buf to_pos (fun _ => True)
        (fun _ _ _ _ => trivial) (fun _ _ => trivial) s').1
  unfold Process.iteration
  cases h : (sm.Transition s.states (byteAt buf s.buffer_pos)).states_1 <;>
    simp only [h, BaseScanner.logCall, Process.stopAfterTerminator] <;>
    (try split_ifs) <;>
    first
      | exact Nat.lt_succ_self _
      | (refine Nat.lt_of_lt_of_le ?_ (hskip _ _ _); exact Nat.lt_succ_self _)

/-- The main loop never uses up `to_pos - buffer_pos` passes: more fuel changes nothing. -/
theorem Process.loop_fuel {R : Type} (sm : CSVStateMachine) (T : Behavior R) (buf : List Nat)
    (to_pos start_pos : Nat) :
    ∀ (f : Nat) (s : BaseScanner) (r : R), to_pos - s.buffer_pos ≤ f →
      Process.loop sm T buf to_pos start_pos (f + 1) s r
        = Process.loop sm T buf to_pos start_pos f s r := by
  intro f
  induction f with
  | zero =>
    intro s r h
    have hc : ¬ s.buffer_pos < to_pos := by omega
    rw [Process.loop_exit sm T buf to_pos start_pos 1 s r hc,
      Process.loop_exit sm T buf to_pos start_pos 0 s r hc]
  | succ n ih =>
    intro s r h
    rw [Process.loop, Process.loop.eq_def sm T buf to_pos start_pos (n + 1) s r]
    by_cases hc : s.buffer_pos < to_pos
    · simp only [hc, if_true]
      by_cases hr : (Process.iteration sm T buf to_pos start_pos s r).returned = true
      · simp only [hr, if_true]
      · simp only [hr]
        have := Process.iteration_progress sm T buf to_pos start_pos s r
        exact ih _ _ (by omega)
    · simp only [hc, if_false]

/-- The fuel that `Process` hands to its main loop is enough: any larger amount gives the
same outcome. -/
theorem Process_fuel_adequate {R : Type} (sm : CSVStateMachine) (T : Behavior R)
    (IsBoundarySet : Bool) (GetEndPos actual_size : Nat) (buf : List Nat) (s : BaseScanner)
    (r : R) (extra : Nat) :
    Process.loop sm T buf (Process.to_pos IsBoundarySet GetEndPos actual_size) s.buffer_pos
        (Process.to_pos IsBoundarySet GetEndPos actual_size - s.buffer_pos + extra) s r
      = Process sm T IsBoundarySet GetEndPos actual_size buf s r := by
  induction extra with
  | zero => rfl
  | succ n ih =>
    rw [← ih, ← Nat.add_assoc]
    exact Process.loop_fuel sm T buf _ _ _ s r (by omega)

end BaseScanner

/-! ## A rule for the main loop with a property of the outcome -/

namespace BaseScanner

/-- The main loop with an invariant `I` for the states at the loop head and a property `Q` for
the outcome: `Q` has to hold after a pass that returns and after the assignment of
`bytes_read` that follows the loop when the cursor has reached the chunk end. -/
theorem Process.loop_rule {R : Type} (sm : CSVStateMachine) (T : Behavior R) (buf : List Nat)
    (to_pos start_pos : Nat) (I Q : BaseScanner → R → Prop)
    (hreturn : ∀ s r, s.buffer_pos < to_pos → I s r →
      (Process.iteration sm T buf to_pos start_pos s r).returned = true →
      Q (Process.iteration sm T buf to_pos start_pos s r).scanner
        (Process.iteration sm T buf to_pos start_pos s r).result)
    (hnext : ∀ s r, s.buffer_pos < to_pos → I s r →
      (Process.iteration sm T buf to_pos start_pos s r).returned = false →
      I (Process.iteration sm T buf to_pos start_pos s r).scanner
        (Process.iteration sm T buf to_pos start_pos s r).result)
    (hexit : ∀ s r, ¬ s.buffer_pos < to_pos → I s r →
      Q { s with bytes_read := s.buffer_pos - start_pos } r) :
    ∀ (fuel : Nat) (s : BaseScanner) (r : R), to_pos - s.buffer_pos ≤ fuel → I s r →
      Q (Process.loop sm T buf to_pos start_pos fuel s r).1
        (Process.loop sm T buf to_pos start_pos fuel s r).2 := by
  intro fuel
  induction fuel with
  | zero =>
    intro s r hf hI
    exact hexit s r (by omega) hI
  | succ n ih =>
    intro s r hf hI
    rw [Process.loop]
    by_cases hp : s.buffer_pos < to_pos
    · simp only [hp, if_true]
      cases hr : (Process.iteration sm T buf to_pos start_pos s r).returned
      · simp only [Bool.false_eq_true, if_false]
        have := Process.iteration_progress sm T buf to_pos start_pos s r
        exact ih _ _ (by omega) (hnext s r hp hI hr)
      · simp only [if_true]
        exact hreturn s r hp hI hr
    · simp only [hp, if_false]
      exact hexit s r hp hI

/-- A pass that starts below the chunk end leaves the cursor at or below it. -/
theorem Process.iteration_within {R : Type} (sm : CSVStateMachine) (T : Behavior R)
    (buf : List Nat) (to_pos start_pos : Nat) (s : BaseScanner) (r : R)
    (hp : s.buffer_pos < to_pos) :
    (Process.iteration sm T buf to_pos start_pos s r).scanner.buffer_pos ≤ to_pos := by
  have hskip : ∀ (special skip : Nat → Bool) (s' : BaseScanner), s'.buffer_pos ≤ to_pos →
      (Process.skipLoops special skip buf to_pos s').buffer_pos ≤ to_pos := by
    intro special skip s' h
    rcases (Process.skipLoops_skips special skip buf to_pos (fun _ => True)
      (fun _ _ _ _ => trivial) (fun _ _ => trivial) s').2.1 with h1 | h1
    · rw [h1]; exact h
    · exact Nat.le_of_lt h1
  unfold Process.iteration
  cases h : (sm.Transition s.states (byteAt buf s.buffer_pos)).states_1 <;>
    simp only [h, BaseScanner.logCall, Process.stopAfterTerminator] <;>
    (try split_ifs) <;>
    first
      | exact hp
      | (refine hskip _ _ _ ?_; exact hp)

/-- A pass returns only on `INVALID` or after a hook of the pass returned true; it then has
assigned `bytes_read`. -/
theorem Process.iteration_returned {R : Type} (sm : CSVStateMachine) (T : Behavior R)
    (buf : List Nat) (to_pos start_pos : Nat) (s : BaseScanner) (r : R)
    (hret : (Process.iteration sm T buf to_pos start_pos s r).returned = true) :
    (Process.iteration sm T buf to_pos start_pos s r).scanner.bytes_read
      = (Process.iteration sm T buf to_pos start_pos s r).scanner.buffer_pos - start_pos ∧
    ((sm.Transition s.states (byteAt buf s.buffer_pos)).states_1 = CSVState.INVALID ∨
      ∃ c, c ∈ (Process.iteration sm T buf to_pos start_pos s r).scanner.calls.drop
          s.calls.length ∧ c.stopsAt s.buffer_pos) := by
  revert hret
  unfold Process.iteration
  cases h : (sm.Transition s.states (byteAt buf s.buffer_pos)).states_1 <;>
    simp only [h, BaseScanner.logCall, Process.stopAfterTerminator] <;>
    (try split_ifs) <;> intro hret <;>
    simp_all [HookCall.stopsAt]

end BaseScanner

/-! ## C12 and C13: the chunk end and `bytes_read` -/

namespace BaseScanner

/-- Every pass appends to the call log. -/
theorem Process.iteration_calls_append {R : Type} (sm : CSVStateMachine) (T : Behavior R)
    (buf : List Nat) (to_pos start_pos : Nat) (s : BaseScanner) (r : R) :
    ∃ new : List HookCall,
      (Process.iteration sm T buf to_pos start_pos s r).scanner.calls = s.calls ++ new :=
  (Process.iteration_addValue sm T buf to_pos start_pos s r).imp fun _ h => h.1

/-- With enough fuel the main loop ends with the cursor at the chunk end, unless a pass
returned after a hook that asked to stop or on `INVALID`. -/
theorem Process.loop_ends_at_chunk_end {R : Type} (sm : CSVStateMachine) (T : Behavior R)
    (buf : List Nat) (to_pos start_pos fuel : Nat) (s : BaseScanner) (r : R)
    (hfuel : to_pos - s.buffer_pos ≤ fuel) (hstart : s.buffer_pos ≤ to_pos) :
    ∃ (new : List HookCall) (nt : List (Nat × CSVStates)),
      (Process.loop sm T buf to_pos start_pos fuel s r).1.calls = s.calls ++ new ∧
      (Process.loop sm T buf to_pos start_pos fuel s r).1.transitions = s.transitions ++ nt ∧
      ((Process.loop sm T buf to_pos start_pos fuel s r).1.buffer_pos = to_pos ∨
        (∃ c ∈ new, ∃ p, c.stopsAt p) ∨
        (∃ t ∈ nt, t.2.states_1 = CSVState.INVALID)) := by
  refine Process.loop_rule sm T buf to_pos start_pos
    (fun s' _ => s'.buffer_pos ≤ to_pos ∧ ∃ (new : List HookCall) (nt : List (Nat × CSVStates)),
      s'.calls = s.calls ++ new ∧ s'.transitions = s.transitions ++ nt)
    (fun s' _ => ∃ (new : List HookCall) (nt : List (Nat × CSVStates)),
      s'.calls = s.calls ++ new ∧ s'.transitions = s.transitions ++ nt ∧
      (s'.buffer_pos = to_pos ∨ (∃ c ∈ new, ∃ p, c.stopsAt p) ∨
        (∃ t ∈ nt, t.2.states_1 = CSVState.INVALID)))
    ?_ ?_ ?_ fuel s r hfuel ⟨hstart, [], [], by simp, by simp⟩
  · rintro s' r' hp ⟨_, new, nt, hc, ht⟩ hret
    obtain ⟨new', hc'⟩ := Process.iteration_calls_append sm T buf to_pos start_pos s' r'
    refine ⟨new ++ new', nt ++ [(s'.buffer_pos,
      sm.Transition s'.states (byteAt buf s'.buffer_pos))], ?_, ?_, Or.inr ?_⟩
    · rw [hc', hc, List.append_assoc]
    · rw [Process.iteration_transitions, ht, List.append_assoc]
    · rcases (Process.iteration_returned sm T buf to_pos start_pos s' r' hret).2 with h | h
      · exact Or.inr ⟨_, List.mem_append_right _ (List.mem_singleton_self _), h⟩
      · obtain ⟨c, hmem, hstop⟩ := h
        rw [hc', List.drop_left] at hmem
        exact Or.inl ⟨c, List.mem_append_right _ hmem, _, hstop⟩
  · rintro s' r' hp ⟨_, new, nt, hc, ht⟩ _
    obtain ⟨new', hc'⟩ := Process.iteration_calls_append sm T buf to_pos start_pos s' r'
    refine ⟨Process.iteration_within sm T buf to_pos start_pos s' r' hp, new ++ new',
      nt ++ [(s'.buffer_pos, sm.Transition s'.states (byteAt buf s'.buffer_pos))], ?_, ?_⟩
    · rw [hc', hc, List.append_assoc]
    · rw [Process.iteration_transitions, ht, List.append_assoc]
  · rintro s' r' hp ⟨hle, new, nt, hc, ht⟩
    exact ⟨new, nt, hc, ht, Or.inl (by simp only; omega)⟩

/-- The cursor is at or below the chunk end after any number of passes of the main loop. -/
theorem Process.loop_within {R : Type} (sm : CSVStateMachine) (T : Behavior R)
    (buf : List Nat) (to_pos start_pos fuel : Nat) (s : BaseScanner) (r : R)
    (hstart : s.buffer_pos ≤ to_pos) :
    (Process.loop sm T buf to_pos start_pos fuel s r).1.buffer_pos ≤ to_pos :=
  Process.loop_invariant sm T buf to_pos start_pos (fun s' _ => s'.buffer_pos ≤ to_pos)
    (fun s' r' hp _ => Process.iteration_within sm T buf to_pos start_pos s' r' hp)
    (fun _ _ h => h) fuel s r hstart

/-- On every way out of the main loop `bytes_read` is the distance from `start_pos` to the
cursor. -/
theorem Process.loop_bytes_read {R : Type} (sm : CSVStateMachine) (T : Behavior R)
    (buf : List Nat) (to_pos start_pos fuel : Nat) (s : BaseScanner) (r : R)
    (hfuel : to_pos - s.buffer_pos ≤ fuel) (hstart : start_pos ≤ s.buffer_pos) :
    (Process.loop sm T buf to_pos start_pos fuel s r).1.bytes_read
      = (Process.loop sm T buf to_pos start_pos fuel s r).1.buffer_pos - start_pos ∧
    start_pos ≤ (Process.loop sm T buf to_pos start_pos fuel s r).1.buffer_pos := by
  refine Process.loop_rule sm T buf to_pos start_pos
    (fun s' _ => start_pos ≤ s'.buffer_pos)
    (fun s' _ => s'.bytes_read = s'.buffer_pos - start_pos ∧ start_pos ≤ s'.buffer_pos)
    ?_ ?_ ?_ fuel s r hfuel hstart
  · intro s' r' _ hI hret
    have := Process.iteration_progress sm T buf to_pos start_pos s' r'
    exact ⟨(Process.iteration_returned sm T buf to_pos start_pos s' r' hret).1, by omega⟩
  · intro s' r' _ hI _
    have := Process.iteration_progress sm T buf to_pos start_pos s' r'
    show start_pos ≤ _
    omega
  · intro s' r' _ hI
    exact ⟨rfl, hI⟩

end BaseScanner

/-- C12: let `E = to_pos`, the minimum of the assigned range end and the valid length when a
boundary is set and the valid length otherwise.  For a run of `Process` that starts with the
cursor at or below `E`, the cursor is at or below `E` after any number of passes of the main
loop, after any number of passes of the word loop and of the table loop inside a pass, and at
the end of the run; and when no `AddRow`, `EmptyLine` or `UnsetComment` call of the run
returned true and no `Transition` of the run came out as `INVALID`, the run ends with the
cursor equal to `E`. -/
theorem Process_cursor_within_chunk {R : Type} (sm : CSVStateMachine) (T : Behavior R)
    (IsBoundarySet : Bool) (GetEndPos actual_size : Nat) (buf : List Nat) (s : BaseScanner)
    (r : R)
    (hstart : s.buffer_pos ≤ BaseScanner.Process.to_pos IsBoundarySet GetEndPos actual_size) :
    BaseScanner.Process.to_pos IsBoundarySet GetEndPos actual_size
      = (if IsBoundarySet then min GetEndPos actual_size else actual_size) ∧
    (∀ fuel : Nat,
      (BaseScanner.Process.loop sm T buf
        (BaseScanner.Process.to_pos IsBoundarySet GetEndPos actual_size) s.buffer_pos fuel s
        r).1.buffer_pos ≤ BaseScanner.Process.to_pos IsBoundarySet GetEndPos actual_size) ∧
    (∀ (special skip : Nat → Bool) (fuel : Nat) (s' : BaseScanner),
      s'.buffer_pos ≤ BaseScanner.Process.to_pos IsBoundarySet GetEndPos actual_size →
      (BaseScanner.Process.wordLoop special buf
        (BaseScanner.Process.to_pos IsBoundarySet GetEndPos actual_size) fuel s').buffer_pos
        ≤ BaseScanner.Process.to_pos IsBoundarySet GetEndPos actual_size ∧
      (BaseScanner.Process.tableLoop skip buf
        (BaseScanner.Process.to_pos IsBoundarySet GetEndPos actual_size) fuel s').buffer_pos
        ≤ BaseScanner.Process.to_pos IsBoundarySet GetEndPos actual_size) ∧
    (BaseScanner.Process sm T IsBoundarySet GetEndPos actual_size buf s r).1.buffer_pos
      ≤ BaseScanner.Process.to_pos IsBoundarySet GetEndPos actual_size ∧
    (∀ (new : List HookCall) (nt : List (Nat × CSVStates)),
      (BaseScanner.Process sm T IsBoundarySet GetEndPos actual_size buf s r).1.calls
        = s.calls ++ new →
      (BaseScanner.Process sm T IsBoundarySet GetEndPos actual_size buf s r).1.transitions
        = s.transitions ++ nt →
      (∀ c ∈ new, ∀ p, ¬ c.stopsAt p) →
      (∀ t ∈ nt, t.2.states_1 ≠ CSVState.INVALID) →
      (BaseScanner.Process sm T IsBoundarySet GetEndPos actual_size buf s r).1.buffer_pos
        = BaseScanner.Process.to_pos IsBoundarySet GetEndPos actual_size) := by
  refine ⟨?_, ?_, ?_, ?_, ?_⟩
  · unfold BaseScanner.Process.to_pos
    cases IsBoundarySet
    · simp
    · simp only [if_true]
      split_ifs with h
      · exact (Nat.min_eq_right (Nat.le_of_lt h)).symm
      · exact (Nat.min_eq_left (Nat.le_of_not_lt h)).symm
  · intro fuel
    exact BaseScanner.Process.loop_within sm T buf _ _ fuel s r hstart
  · intro special skip fuel s' hs'
    constructor
    · rcases (BaseScanner.Process.wordLoop_skips special buf _ (fun _ => True)
        (fun _ _ _ _ => trivial) fuel s').2.1 with h | h
      · rw [h]; exact hs'
      · exact Nat.le_of_lt h
    · rcases (BaseScanner.Process.tableLoop_skips skip buf _ (fun _ => True)
        (fun _ _ => trivial) fuel s').2.1 with h | h
      · rw [h]; exact hs'
      · exact Nat.le_of_lt h
  · exact BaseScanner.Process.loop_within sm T buf _ _ _ s r hstart
  · intro new nt hc ht hnostop hnoinv
    obtain ⟨new', nt', hc', ht', h⟩ := BaseScanner.Process.loop_ends_at_chunk_end sm T buf
      (BaseScanner.Process.to_pos IsBoundarySet GetEndPos actual_size) s.buffer_pos
      (BaseScanner.Process.to_pos IsBoundarySet GetEndPos actual_size - s.buffer_pos) s r
      (le_refl _) hstart
    have e1 : new' = new := List.append_cancel_left (hc'.symm.trans hc)
    have e2 : nt' = nt := List.append_cancel_left (ht'.symm.trans ht)
    subst e1 e2
    rcases h with h | ⟨c, hmem, p, hstop⟩ | ⟨t, hmem, hinv⟩
    · exact h
    · exact absurd hstop (hnostop c hmem p)
    · exact absurd hinv (hnoinv t hmem)

/-- C13: on every way out of `Process` (the loop condition failing, `INVALID`, or a hook that
returned true) `bytes_read` is the final cursor minus the cursor at entry, the final cursor
being at or after the one at entry; when the cursor is at or past the chunk end on entry,
`bytes_read` is 0 and the cursor is where it was. -/
theorem Process_bytes_read_is_distance {R : Type} (sm : CSVStateMachine) (T : Behavior R)
    (IsBoundarySet : Bool) (GetEndPos actual_size : Nat) (buf : List Nat) (s : BaseScanner)
    (r : R) :
    (BaseScanner.Process sm T IsBoundarySet GetEndPos actual_size buf s r).1.bytes_read
      = (BaseScanner.Process sm T IsBoundarySet GetEndPos actual_size buf s r).1.buffer_pos
        - s.buffer_pos ∧
    s.buffer_pos
      ≤ (BaseScanner.Process sm T IsBoundarySet GetEndPos actual_size buf s r).1.buffer_pos ∧
    (BaseScanner.Process.to_pos IsBoundarySet GetEndPos actual_size ≤ s.buffer_pos →
      (BaseScanner.Process sm T IsBoundarySet GetEndPos actual_size buf s r).1.bytes_read = 0 ∧
      (BaseScanner.Process sm T IsBoundarySet GetEndPos actual_size buf s r).1.buffer_pos
        = s.buffer_pos) := by
  obtain ⟨h1, h2⟩ := BaseScanner.Process.loop_bytes_read sm T buf
    (BaseScanner.Process.to_pos IsBoundarySet GetEndPos actual_size) s.buffer_pos
    (BaseScanner.Process.to_pos IsBoundarySet GetEndPos actual_size - s.buffer_pos) s r
    (le_refl _) (le_refl _)
  refine ⟨h1, h2, ?_⟩
  intro hle
  unfold BaseScanner.Process
  rw [BaseScanner.Process.loop_exit sm T buf _ _ _ s r (by omega)]
  simp

/-! ## C11: empty lines -/

namespace BaseScanner

/-- One pass calls `EmptyLine` exactly on a line break on an empty line, at the cursor, and
then makes no other call. -/
theorem Process.iteration_emptyLine {R : Type} (sm : CSVStateMachine) (T : Behavior R)
    (buf : List Nat) (to_pos start_pos : Nat) (s : BaseScanner) (r : R) :
    ∃ new : List HookCall,
      (Process.iteration sm T buf to_pos start_pos s r).scanner.calls = s.calls ++ new ∧
      new.filterMap HookCall.emptyLinePos =
        (emptyLinePosOf
          (s.buffer_pos, sm.Transition s.states (byteAt buf s.buffer_pos))).toList ∧
      (isEmptyLine (sm.Transition s.states (byteAt buf s.buffer_pos)) →
        new = [HookCall.EmptyLine s.buffer_pos
          (T.EmptyLine (sm.Transition s.states (byteAt buf s.buffer_pos)) r s.buffer_pos).2]) := by
  unfold Process.iteration
  cases h : (sm.Transition s.states (byteAt buf s.buffer_pos)).states_1 <;>
    simp only [h, BaseScanner.logCall, Process.stopAfterTerminator, Process.skipLoops_calls,
      emptyLinePosOf, isEmptyLine, reduceCtorEq, or_self, false_and, true_and, or_true, true_or,
      if_false, if_true, Option.toList, List.append_assoc] <;>
    (try split_ifs) <;> (try simp only [List.append_assoc]) <;>
    first
      | exact ⟨_, rfl, by simp_all [HookCall.emptyLinePos], by simp_all⟩
      | exact ⟨[], (List.append_nil _).symm, by simp_all, by simp_all⟩

/-- Along the main loop the positions of the `EmptyLine` calls are the positions of the
`Transition`s that came out as a line break on an empty line, in the same order. -/
theorem Process.loop_emptyLine {R : Type} (sm : CSVStateMachine) (T : Behavior R)
    (buf : List Nat) (to_pos start_pos fuel : Nat) (s : BaseScanner) (r : R) :
    ∃ (new : List HookCall) (nt : List (Nat × CSVStates)),
      (Process.loop sm T buf to_pos start_pos fuel s r).1.calls = s.calls ++ new ∧
      (Process.loop sm T buf to_pos start_pos fuel s r).1.transitions = s.transitions ++ nt ∧
      new.filterMap HookCall.emptyLinePos = nt.filterMap emptyLinePosOf := by
  refine Process.loop_invariant sm T buf to_pos start_pos
    (fun s' _ => ∃ (new : List HookCall) (nt : List (Nat × CSVStates)),
      s'.calls = s.calls ++ new ∧ s'.transitions = s.transitions ++ nt ∧
      new.filterMap HookCall.emptyLinePos = nt.filterMap emptyLinePosOf)
    ?_ ?_ fuel s r ⟨[], [], by simp, by simp, by simp⟩
  · rintro s' r' _ ⟨new, nt, hc, ht, hf⟩
    obtain ⟨new', hc', hf', _⟩ := Process.iteration_emptyLine sm T buf to_pos start_pos s' r'
    refine ⟨new ++ new', nt ++ [(s'.buffer_pos,
      sm.Transition s'.states (byteAt buf s'.buffer_pos))], ?_, ?_, ?_⟩
    · rw [hc', hc, List.append_assoc]
    · rw [Process.iteration_transitions, ht, List.append_assoc]
    · rw [List.filterMap_append, List.filterMap_append, hf, hf']
      cases hd : emptyLinePosOf (s'.buffer_pos,
        sm.Transition s'.states (byteAt buf s'.buffer_pos)) <;>
        simp [List.filterMap_cons, hd]
  · rintro s' r' ⟨new, nt, hc, ht, hf⟩
    exact ⟨new, nt, hc, ht, hf⟩

end BaseScanner

/-- C11: in every run of `Process` the positions at which `EmptyLine` is called are exactly the
positions of the bytes that came out as `RECORD_SEPARATOR` or `CARRIAGE_RETURN` with previous
state `RECORD_SEPARATOR` or `NOT_SET`, in the same order and each once; the pass on such a byte
makes the `EmptyLine` call and no other call (neither `AddRow` nor `UnsetComment`); and the
full scan of `a,b\n\nc,d\n` calls `EmptyLine` exactly once, at index 4, after the `AddRow` at
index 3 and before the `AddRow` at index 8. -/
theorem Process_emptyLine_iff_empty_line {R : Type} (sm : CSVStateMachine) (T : Behavior R)
    (IsBoundarySet : Bool) (GetEndPos actual_size : Nat) (buf : List Nat)
    (to_pos start_pos : Nat) (s : BaseScanner) (r : R) :
    (∃ (new : List HookCall) (nt : List (Nat × CSVStates)),
      (BaseScanner.Process sm T IsBoundarySet GetEndPos actual_size buf s r).1.calls
        = s.calls ++ new ∧
      (BaseScanner.Process sm T IsBoundarySet GetEndPos actual_size buf s r).1.transitions
        = s.transitions ++ nt ∧
      new.filterMap HookCall.emptyLinePos = nt.filterMap emptyLinePosOf) ∧
    (isEmptyLine (sm.Transition s.states (BaseScanner.byteAt buf s.buffer_pos)) →
      (BaseScanner.Process.iteration sm T buf to_pos start_pos s r).scanner.calls =
        s.calls ++ [HookCall.EmptyLine s.buffer_pos
          (T.EmptyLine (sm.Transition s.states (BaseScanner.byteAt buf s.buffer_pos)) r
            s.buffer_pos).2]) ∧
    (fullScan lenientMachine emptyLineInput).1.calls =
      [HookCall.AddValue 1, HookCall.IsCommentSet false, HookCall.AddRow 3 false,
       HookCall.EmptyLine 4 false, HookCall.AddValue 6, HookCall.IsCommentSet false,
       HookCall.AddRow 8 false] ∧
    (fullScan lenientMachine emptyLineInput).1.calls.filterMap HookCall.emptyLinePos = [4] := by
  refine ⟨BaseScanner.Process.loop_emptyLine sm T buf _ _ _ s r, ?_, by decide, by decide⟩
  intro hempty
  obtain ⟨new, hc, _, hnew⟩ :=
    BaseScanner.Process.iteration_emptyLine sm T buf to_pos start_pos s r
  rw [hc, hnew hempty]

/-! ## C14 and C15: `SetQuoted` and `SetUnquoted` -/

/-- C14: `ScannerResult::SetQuoted(result, pos)` sets `quoted` and `unquoted`, assigns `pos` to
`quoted_position` exactly when `quoted` was false before (otherwise `quoted_position` keeps its
value), and leaves `escaped`, `comment`, `last_position` and `result_size` as they are; so
after a sequence of `SetQuoted` calls on a result whose `quoted` was false, `quoted_position`
is the position of the first call. -/
theorem SetQuoted_records_first_position (result other : ScannerResult) (pos : Nat)
    (later : List Nat) (hfirst : result.quoted = false) :
    (other.SetQuoted pos).quoted = true ∧
    (other.SetQuoted pos).unquoted = true ∧
    (other.SetQuoted pos).quoted_position
      = (if other.quoted = false then pos else other.quoted_position) ∧
    (other.SetQuoted pos).escaped = other.escaped ∧
    (other.SetQuoted pos).comment = other.comment ∧
    (other.SetQuoted pos).last_position = other.last_position ∧
    (other.SetQuoted pos).result_size = other.result_size ∧
    ((pos :: later).foldl ScannerResult.SetQuoted result).quoted_position = pos ∧
    ((pos :: later).foldl ScannerResult.SetQuoted result).quoted = true := by
  refine ⟨rfl, rfl, ?_, ?_, ?_, ?_, ?_, ?_⟩
  · cases h : other.quoted <;> simp [ScannerResult.SetQuoted, h]
  · cases h : other.quoted <;> simp [ScannerResult.SetQuoted, h]
  · cases h : other.quoted <;> simp [ScannerResult.SetQuoted, h]
  · cases h : other.quoted <;> simp [ScannerResult.SetQuoted, h]
  · cases h : other.quoted <;> simp [ScannerResult.SetQuoted, h]
  · have key : ∀ (l : List Nat) (r : ScannerResult), r.quoted = true →
        (l.foldl ScannerResult.SetQuoted r).quoted_position = r.quoted_position ∧
        (l.foldl ScannerResult.SetQuoted r).quoted = true := by
      intro l
      induction l with
      | nil => intro r hr; exact ⟨rfl, hr⟩
      | cons a l ih =>
        intro r hr
        rw [List.foldl_cons]
        have h1 : (r.SetQuoted a).quoted = true := rfl
        have h2 : (r.SetQuoted a).quoted_position = r.quoted_position := by
          simp [ScannerResult.SetQuoted, hr]
        obtain ⟨i1, i2⟩ := ih (r.SetQuoted a) h1
        exact ⟨i1.trans h2, i2⟩
    rw [List.foldl_cons]
    obtain ⟨k1, k2⟩ := key later (result.SetQuoted pos) rfl
    refine ⟨k1.trans ?_, k2⟩
    simp [ScannerResult.SetQuoted, hfirst]

/-- C14, at a concrete input: three `SetQuoted` calls at 5, 9 and 12 on a fresh result. -/
theorem SetQuoted_records_first_position_witness :
    ({} : ScannerResult).quoted = false ∧
    ([5, 9, 12].foldl ScannerResult.SetQuoted ({} : ScannerResult)).quoted_position = 5 :=
  ⟨rfl, (SetQuoted_records_first_position {} {} 5 [9, 12] rfl).2.2.2.2.2.2.2.1⟩

/-- C15: `ScannerResult::SetUnquoted(result)` sets `escaped` when `states[0]` and `states[1]`
are both `UNQUOTED` and the dialect's escape byte is not `'\0'`; in every other case `escaped`
keeps its value, and it is never cleared; `quoted_position`, `unquoted`, `comment`,
`last_position` and `result_size` are unchanged, and `quoted` is set. -/
theorem SetUnquoted_effect (sm : CSVStateMachine) (states : CSVStates)
    (result : ScannerResult) :
    (ScannerResult.SetUnquoted sm states result).escaped
      = (if states.states_0 = CSVState.UNQUOTED ∧ states.states_1 = CSVState.UNQUOTED ∧
            sm.dialect_options.state_machine_options.escape ≠ 0
          then true else result.escaped) ∧
    (result.escaped = true → (ScannerResult.SetUnquoted sm states result).escaped = true) ∧
    (ScannerResult.SetUnquoted sm states result).quoted_position = result.quoted_position ∧
    (ScannerResult.SetUnquoted sm states result).unquoted = result.unquoted ∧
    (ScannerResult.SetUnquoted sm states result).comment = result.comment ∧
    (ScannerResult.SetUnquoted sm states result).last_position = result.last_position ∧
    (ScannerResult.SetUnquoted sm states result).result_size = result.result_size ∧
    (ScannerResult.SetUnquoted sm states result).quoted = true := by
  unfold ScannerResult.SetUnquoted
  by_cases h : states.states_0 = CSVState.UNQUOTED ∧ states.states_1 = CSVState.UNQUOTED ∧
      sm.dialect_options.state_machine_options.escape ≠ 0
  · simp only [h, and_self, if_true, implies_true, ne_eq, not_false_eq_true]
  · simp only [h, if_false, imp_self, and_self]

/-! ## C17 and C18: `LinePosition` -/

/-- C17: for two `LinePosition` values with the same `buffer_idx` (their `buffer_pos` being
values of `idx_t`), `(p1 - p2) + (p2 - p1)` is 0 in the 64-bit arithmetic of `idx_t`. -/
theorem LinePosition_sub_add_sub_eq_zero (p1 p2 : LinePosition)
    (h1 : p1.buffer_pos < 2 ^ 64) (h2 : p2.buffer_pos < 2 ^ 64)
    (hidx : p1.buffer_idx = p2.buffer_idx) :
    (p1.sub p2 + p2.sub p1) % 2 ^ 64 = 0 := by
  unfold LinePosition.sub
  simp only [hidx, if_true]
  norm_num at h1 h2 ⊢
  omega

/-- C17, at a concrete input: offsets 3 and 10 in segment 2. -/
theorem LinePosition_sub_add_sub_eq_zero_witness :
    (3 < 2 ^ 64) ∧ (10 < 2 ^ 64) ∧ (2 = 2) ∧
    ((LinePosition.sub ⟨3, 100, 2⟩ ⟨10, 100, 2⟩ + LinePosition.sub ⟨10, 100, 2⟩ ⟨3, 100, 2⟩)
      % 2 ^ 64 = 0) ∧
    LinePosition.sub ⟨3, 100, 2⟩ ⟨10, 100, 2⟩ = 2 ^ 64 - 7 ∧
    LinePosition.sub ⟨10, 100, 2⟩ ⟨3, 100, 2⟩ = 7 :=
  ⟨by norm_num, by norm_num, rfl,
    LinePosition_sub_add_sub_eq_zero ⟨3, 100, 2⟩ ⟨10, 100, 2⟩ (by norm_num) (by norm_num) rfl,
    by decide, by decide⟩

/-- C18: for positions whose fields are values of `idx_t`, `LinePosition::operator-` is the
reference distance of the specification reduced modulo `2^64`: the offset difference when the
two `buffer_idx` are equal, `other.buffer_size - other.buffer_pos + this.buffer_pos` when they
differ.  For `other` in segment `i` with `other.buffer_pos ≤ other.buffer_size` and `this` in
segment `i + 1` of a stream that fits the 64 bits, it is the number of stream bytes from
`other` forward to `this`, and it is `GetGlobalPosition(this) - GetGlobalPosition(other)` in
the arithmetic of `idx_t` when `other.buffer_size` is the requested buffer size. -/
theorem LinePosition_sub_refines_Distance (this other : LinePosition)
    (ht : this.buffer_pos < 2 ^ 64) (ho : other.buffer_pos < 2 ^ 64)
    (hs : other.buffer_size < 2 ^ 64) :
    ((this.sub other : Nat) : Int) = this.Distance other % 2 ^ 64 ∧
    (this.buffer_idx = other.buffer_idx → other.buffer_pos ≤ this.buffer_pos →
      this.sub other = this.buffer_pos - other.buffer_pos) ∧
    (∀ (sizes : List Nat) (i : Nat), other.buffer_idx = i → this.buffer_idx = i + 1 →
      sizes[i]? = some other.buffer_size → other.buffer_pos ≤ other.buffer_size →
      streamOffset sizes this < 2 ^ 64 →
      streamOffset sizes other ≤ streamOffset sizes this ∧
      this.sub other = streamOffset sizes this - streamOffset sizes other) ∧
    (∀ (requested_buffer_size i : Nat), other.buffer_idx = i → this.buffer_idx = i + 1 →
      other.buffer_size = requested_buffer_size →
      this.sub other =
        (this.GetGlobalPosition requested_buffer_size + 2 ^ 64
          - other.GetGlobalPosition requested_buffer_size) % 2 ^ 64) := by
  refine ⟨?_, ?_, ?_, ?_⟩
  · unfold LinePosition.sub LinePosition.Distance
    by_cases h : this.buffer_idx = other.buffer_idx
    · simp only [h, if_true]
      norm_num at ht ho ⊢
      omega
    · have h' : ¬ other.buffer_idx = this.buffer_idx := fun e => h e.symm
      simp only [h, h', if_false]
      norm_num at ht ho hs ⊢
      omega
  · intro h hle
    unfold LinePosition.sub
    simp only [h, if_true]
    norm_num at ht ho ⊢
    omega
  · intro sizes i hoi hti hsz hle hfit
    have hne : ¬ other.buffer_idx = this.buffer_idx := by omega
    have hsum : (sizes.take (i + 1)).sum = (sizes.take i).sum + other.buffer_size := by
      rw [List.take_succ, hsz, List.sum_append]
      simp
    unfold LinePosition.sub
    simp only [hne, if_false]
    unfold streamOffset at *
    rw [hti, hsum] at hfit ⊢
    rw [hoi]
    norm_num at ht ho hs hfit ⊢
    constructor
    · omega
    · omega
  · intro R i hoi hti hR
    have hne : ¬ other.buffer_idx = this.buffer_idx := by omega
    unfold LinePosition.sub LinePosition.GetGlobalPosition
    simp only [hne, if_false, hoi, hti, hR, Bool.false_eq_true, Nat.add_zero]
    rw [Nat.mul_succ]
    generalize R * i = a
    subst hR
    norm_num at ht ho hs ⊢
    omega

/-! ## C16, C19 and C20: the zero-byte test and the word tests -/

set_option maxRecDepth 100000 in
theorem and_high_bit_zero : ∀ b, b < 256 → 1 ≤ b → (b - 1) &&& (255 - b) &&& 128 = 0 := by
  decide

theorem byteOfWord_sub_ones (v i : Nat) (hv : v < 2 ^ 64) (hi : i < 8)
    (hall : ∀ j, j < 8 → byteOfWord v j ≠ 0) :
    byteOfWord ((v + 2 ^ 64 - 0x0101010101010101) % 2 ^ 64) i = byteOfWord v i - 1 := by
  have h0 := hall 0 (by norm_num)
  have h1 := hall 1 (by norm_num)
  have h2 := hall 2 (by norm_num)
  have h3 := hall 3 (by norm_num)
  have h4 := hall 4 (by norm_num)
  have h5 := hall 5 (by norm_num)
  have h6 := hall 6 (by norm_num)
  have h7 := hall 7 (by norm_num)
  unfold byteOfWord at *
  norm_num at h0 h1 h2 h3 h4 h5 h6 h7 hv
  have hge : 0x0101010101010101 ≤ v := by omega
  have hA : (v + 2 ^ 64 - 0x0101010101010101) % 2 ^ 64 = v - 0x0101010101010101 := by
    norm_num; omega
  rw [hA]
  clear hA hall
  interval_cases i <;> norm_num <;> omega
theorem byteOfWord_not (v i : Nat) (hv : v < 2 ^ 64) (hi : i < 8) :
    byteOfWord (2 ^ 64 - 1 - v) i = 255 - byteOfWord v i := by
  unfold byteOfWord
  norm_num at hv
  interval_cases i <;> norm_num <;> omega


theorem byteOfWord_lt (v i : Nat) : byteOfWord v i < 256 := by
  unfold byteOfWord
  omega

/-- A word below `2^64` all of whose eight bytes are zero is zero. -/
theorem eq_zero_of_bytes_zero (x : Nat) (hx : x < 2 ^ 64)
    (h : ∀ i, i < 8 → byteOfWord x i = 0) : x = 0 := by
  apply Nat.eq_of_testBit_eq
  intro j
  rw [Nat.zero_testBit]
  by_cases hj : j < 64
  · have hb := byteOfWord_testBit x (j / 8) (j % 8)
    rw [h (j / 8) (by omega), Nat.zero_testBit,
      show 8 * (j / 8) + j % 8 = j by omega] at hb
    have h8 : decide (j % 8 < 8) = true := by
      simp only [decide_eq_true_eq]; omega
    rw [h8, Bool.true_and] at hb
    exact hb.symm
  · exact Nat.testBit_lt_two_pow
      (lt_of_lt_of_le hx (Nat.pow_le_pow_right (by norm_num) (by omega)))

theorem byteOfWord_high_bits (i : Nat) (hi : i < 8) :
    byteOfWord 0x8080808080808080 i = 128 := by
  unfold byteOfWord
  interval_cases i <;> norm_num

theorem ContainsZeroByte_false_of_bytes_ne_zero (v : Nat) (hv : v < 2 ^ 64)
    (hall : ∀ j, j < 8 → byteOfWord v j ≠ 0) : BaseScanner.ContainsZeroByte v = false := by
  unfold BaseScanner.ContainsZeroByte
  have hx : ((v + 2 ^ 64 - 0x0101010101010101) % 2 ^ 64) &&& (2 ^ 64 - 1 - v) &&&
      0x8080808080808080 = 0 := by
    apply eq_zero_of_bytes_zero
    · exact Nat.and_lt_two_pow _ (by norm_num)
    · intro i hi
      rw [byteOfWord_and, byteOfWord_and, byteOfWord_sub_ones v i hv hi hall,
        byteOfWord_not v i hv hi, byteOfWord_high_bits i hi]
      exact and_high_bit_zero _ (byteOfWord_lt v i) (Nat.one_le_iff_ne_zero.2 (hall i hi))
  rw [hx]
  rfl


/-- `ContainsZeroByte` finds exactly the words with a zero byte. -/
theorem ContainsZeroByte_eq_true_iff (v : Nat) (hv : v < 2 ^ 64) :
    BaseScanner.ContainsZeroByte v = true ↔ ∃ i, i < 8 ∧ byteOfWord v i = 0 := by
  constructor
  · intro h
    by_contra hne
    have hall : ∀ j, j < 8 → byteOfWord v j ≠ 0 := fun j hj h0 => hne ⟨j, hj, h0⟩
    rw [ContainsZeroByte_false_of_bytes_ne_zero v hv hall] at h
    exact absurd h (by decide)
  · rintro ⟨i, hi, h0⟩
    exact ContainsZeroByte_of_byte_zero v i hv hi h0

/-- The test of the word loop of the `QUOTED` case, byte by byte. -/
theorem quotedSpecial_iff (sm : CSVStateMachine) (d n c q e m : Nat)
    (hmasks : BroadcastMasks sm d n c q e m) (v : Nat) (hv : v < 2 ^ 64) :
    BaseScanner.Process.quotedSpecial sm v = true ↔
      ∃ i, i < 8 ∧ (byteOfWord v i ^^^ q) &&& (byteOfWord v i ^^^ e) = 0 := by
  obtain ⟨⟨hd, hn, hc, hq, he, hm⟩, md, mn, mc, mq, me, mm⟩ := hmasks
  unfold BaseScanner.Process.quotedSpecial
  rw [mq, me, ContainsZeroByte_eq_true_iff _
    (Nat.and_lt_two_pow _ (Nat.xor_lt_two_pow hv (broadcast_lt e he)))]
  constructor
  · rintro ⟨i, hi, h⟩
    refine ⟨i, hi, ?_⟩
    rwa [byteOfWord_and, byteOfWord_xor_broadcast v q i hq hi,
      byteOfWord_xor_broadcast v e i he hi] at h
  · rintro ⟨i, hi, h⟩
    refine ⟨i, hi, ?_⟩
    rwa [byteOfWord_and, byteOfWord_xor_broadcast v q i hq hi,
      byteOfWord_xor_broadcast v e i he hi]

/-- The test of the word loop of the `STANDARD` case, byte by byte. -/
theorem standardSpecial_iff (sm : CSVStateMachine) (d n c q e m : Nat)
    (hmasks : BroadcastMasks sm d n c q e m) (v : Nat) (hv : v < 2 ^ 64) :
    BaseScanner.Process.standardSpecial sm v = true ↔
      ∃ i, i < 8 ∧ (byteOfWord v i ^^^ d) &&& (byteOfWord v i ^^^ n) &&&
        (byteOfWord v i ^^^ c) &&& (byteOfWord v i ^^^ e) &&& (byteOfWord v i ^^^ m) = 0 := by
  obtain ⟨⟨hd, hn, hc, hq, he, hm⟩, md, mn, mc, mq, me, mm⟩ := hmasks
  unfold BaseScanner.Process.standardSpecial
  rw [md, mn, mc, me, mm, ContainsZeroByte_eq_true_iff _
    (Nat.and_lt_two_pow _ (Nat.xor_lt_two_pow hv (broadcast_lt m hm)))]
  constructor
  · rintro ⟨i, hi, h⟩
    refine ⟨i, hi, ?_⟩
    rwa [byteOfWord_and, byteOfWord_and, byteOfWord_and, byteOfWord_and,
      byteOfWord_xor_broadcast v d i hd hi, byteOfWord_xor_broadcast v n i hn hi,
      byteOfWord_xor_broadcast v c i hc hi, byteOfWord_xor_broadcast v e i he hi,
      byteOfWord_xor_broadcast v m i hm hi] at h
  · rintro ⟨i, hi, h⟩
    refine ⟨i, hi, ?_⟩
    rwa [byteOfWord_and, byteOfWord_and, byteOfWord_and, byteOfWord_and,
      byteOfWord_xor_broadcast v d i hd hi, byteOfWord_xor_broadcast v n i hn hi,
      byteOfWord_xor_broadcast v c i hc hi, byteOfWord_xor_broadcast v e i he hi,
      byteOfWord_xor_broadcast v m i hm hi]

/-- The test of the word loop of the `COMMENT` case, byte by byte. -/
theorem commentSpecial_iff (sm : CSVStateMachine) (d n c q e m : Nat)
    (hmasks : BroadcastMasks sm d n c q e m) (v : Nat) (hv : v < 2 ^ 64) :
    BaseScanner.Process.commentSpecial sm v = true ↔
      ∃ i, i < 8 ∧ (byteOfWord v i ^^^ n) &&& (byteOfWord v i ^^^ c) = 0 := by
  obtain ⟨⟨hd, hn, hc, hq, he, hm⟩, md, mn, mc, mq, me, mm⟩ := hmasks
  unfold BaseScanner.Process.commentSpecial
  rw [mn, mc, ContainsZeroByte_eq_true_iff _
    (Nat.and_lt_two_pow _ (Nat.xor_lt_two_pow hv (broadcast_lt c hc)))]
  constructor
  · rintro ⟨i, hi, h⟩
    refine ⟨i, hi, ?_⟩
    rwa [byteOfWord_and, byteOfWord_xor_broadcast v n i hn hi,
      byteOfWord_xor_broadcast v c i hc hi] at h
  · rintro ⟨i, hi, h⟩
    refine ⟨i, hi, ?_⟩
    rwa [byteOfWord_and, byteOfWord_xor_broadcast v n i hn hi,
      byteOfWord_xor_broadcast v c i hc hi]

/-- The masks of the sample machine are the broadcasts of its bytes. -/
theorem sampleMachine_broadcastMasks (d q e m : Nat) (hd : d < 256) (hq : q < 256)
    (he : e < 256) (hm : m < 256) (strict_mode : CSVOption Bool)
    (new_line : CSVOption NewLineIdentifier) :
    BroadcastMasks (sampleMachine d q e m strict_mode new_line) d 10 13 q e m :=
  ⟨⟨hd, by norm_num, by norm_num, hq, he, hm⟩, rfl, rfl, rfl, rfl, rfl, rfl⟩

/-! ## C16, C19 and C20: the word tests, and the witnesses of C12 and C18 -/

/-- A byte equal to the quote or to the escape byte makes the byte-wise condition of the
`QUOTED` word test hold, and so for the other two tests. -/
theorem lane_condition_of_eq (b d n c q e m : Nat) :
    ((b = q ∨ b = e) → (b ^^^ q) &&& (b ^^^ e) = 0) ∧
    ((b = d ∨ b = n ∨ b = c ∨ b = e ∨ b = m) →
      (b ^^^ d) &&& (b ^^^ n) &&& (b ^^^ c) &&& (b ^^^ e) &&& (b ^^^ m) = 0) ∧
    ((b = n ∨ b = c) → (b ^^^ n) &&& (b ^^^ c) = 0) := by
  refine ⟨?_, ?_, ?_⟩
  · rintro (h | h) <;> subst h <;> simp [Nat.xor_self]
  · rintro (h | h | h | h | h) <;> subst h <;> simp [Nat.xor_self]
  · rintro (h | h) <;> subst h <;> simp [Nat.xor_self]

/-- C16: for every 64-bit word `v`, `ContainsZeroByte(v)` is true if and only if one of the
eight bytes of `v` is zero. -/
theorem ContainsZeroByte_iff_zero_byte (v : Nat) (hv : v < 2 ^ 64) :
    BaseScanner.ContainsZeroByte v = true ↔ ∃ i, i < 8 ∧ byteOfWord v i = 0 :=
  ContainsZeroByte_eq_true_iff v hv

/-- C16, at concrete inputs: the word `0x6162630065666768` has the zero byte of index 4, and
the word `0x6162636465666768` has none. -/
theorem ContainsZeroByte_iff_zero_byte_witness :
    (0x6162630065666768 < 2 ^ 64) ∧
    (BaseScanner.ContainsZeroByte 0x6162630065666768 = true ↔
      ∃ i, i < 8 ∧ byteOfWord 0x6162630065666768 i = 0) ∧
    BaseScanner.ContainsZeroByte 0x6162630065666768 = true ∧
    byteOfWord 0x6162630065666768 4 = 0 ∧
    BaseScanner.ContainsZeroByte 0x6162636465666768 = false :=
  ⟨by norm_num, ContainsZeroByte_iff_zero_byte 0x6162630065666768 (by norm_num),
    by decide, by decide, by decide⟩

/-- C19 (counterexample): the word `a\tbcdefg` contains neither `\n` nor `\r`, yet the word test
of the `COMMENT` case, with the masks `broadcast('\n')` and `broadcast('\r')`, finds a special
byte in it: at the tab (0x09), `(0x09 XOR 0x0A) AND (0x09 XOR 0x0D)` is `0x03 AND 0x04 = 0`. -/
theorem commentSpecial_true_without_special_byte :
    BroadcastMasks lenientMachine 44 10 13 0 0 0 ∧
    (∀ i, i < 8 → byteOfWord (BaseScanner.Load tabInput 0) i ≠ 10 ∧
      byteOfWord (BaseScanner.Load tabInput 0) i ≠ 13) ∧
    BaseScanner.Process.commentSpecial lenientMachine (BaseScanner.Load tabInput 0) = true ∧
    ¬ (BaseScanner.Process.commentSpecial lenientMachine (BaseScanner.Load tabInput 0) = false ↔
      ∀ i, i < 8 → byteOfWord (BaseScanner.Load tabInput 0) i ≠ 10 ∧
        byteOfWord (BaseScanner.Load tabInput 0) i ≠ 13) :=
  ⟨sampleMachine_broadcastMasks 44 0 0 0 (by norm_num) (by norm_num) (by norm_num)
    (by norm_num) _ _, by decide, by decide, by decide⟩

/-- C19 (amended): with masks that are the broadcasts of the special bytes, each of the three
word tests is true exactly when some byte `b` of the word makes the AND of the terms
`b XOR t` over the special bytes `t` of the state zero (quote and escape for `QUOTED`;
delimiter, newline, carriage return, escape and comment for `STANDARD`; newline and carriage
return for `COMMENT`).  A test that is false therefore means that no byte of the word equals a
special byte; the converse is left out, a byte that is no special byte can make the AND zero
as well. -/
theorem word_test_iff_lane_condition (sm : CSVStateMachine) (d n c q e m : Nat)
    (hmasks : BroadcastMasks sm d n c q e m) (v : Nat) (hv : v < 2 ^ 64) :
    (BaseScanner.Process.quotedSpecial sm v = true ↔
      ∃ i, i < 8 ∧ (byteOfWord v i ^^^ q) &&& (byteOfWord v i ^^^ e) = 0) ∧
    (BaseScanner.Process.standardSpecial sm v = true ↔
      ∃ i, i < 8 ∧ (byteOfWord v i ^^^ d) &&& (byteOfWord v i ^^^ n) &&&
        (byteOfWord v i ^^^ c) &&& (byteOfWord v i ^^^ e) &&& (byteOfWord v i ^^^ m) = 0) ∧
    (BaseScanner.Process.commentSpecial sm v = true ↔
      ∃ i, i < 8 ∧ (byteOfWord v i ^^^ n) &&& (byteOfWord v i ^^^ c) = 0) ∧
    (BaseScanner.Process.quotedSpecial sm v = false →
      ∀ i, i < 8 → byteOfWord v i ≠ q ∧ byteOfWord v i ≠ e) ∧
    (BaseScanner.Process.standardSpecial sm v = false →
      ∀ i, i < 8 → byteOfWord v i ≠ d ∧ byteOfWord v i ≠ n ∧ byteOfWord v i ≠ c ∧
        byteOfWord v i ≠ e ∧ byteOfWord v i ≠ m) ∧
    (BaseScanner.Process.commentSpecial sm v = false →
      ∀ i, i < 8 → byteOfWord v i ≠ n ∧ byteOfWord v i ≠ c) := by
  have hq := quotedSpecial_iff sm d n c q e m hmasks v hv
  have hs := standardSpecial_iff sm d n c q e m hmasks v hv
  have hc := commentSpecial_iff sm d n c q e m hmasks v hv
  refine ⟨hq, hs, hc, ?_, ?_, ?_⟩
  · intro hf i hi
    have hno : ¬ (byteOfWord v i = q ∨ byteOfWord v i = e) := by
      intro h
      have := hq.2 ⟨i, hi, (lane_condition_of_eq (byteOfWord v i) d n c q e m).1 h⟩
      rw [hf] at this
      exact absurd this (by decide)
    exact ⟨fun h => hno (Or.inl h), fun h => hno (Or.inr h)⟩
  · intro hf i hi
    have hno : ¬ (byteOfWord v i = d ∨ byteOfWord v i = n ∨ byteOfWord v i = c ∨
        byteOfWord v i = e ∨ byteOfWord v i = m) := by
      intro h
      have := hs.2 ⟨i, hi, (lane_condition_of_eq (byteOfWord v i) d n c q e m).2.1 h⟩
      rw [hf] at this
      exact absurd this (by decide)
    exact ⟨fun h => hno (Or.inl h), fun h => hno (Or.inr (Or.inl h)),
      fun h => hno (Or.inr (Or.inr (Or.inl h))),
      fun h => hno (Or.inr (Or.inr (Or.inr (Or.inl h)))),
      fun h => hno (Or.inr (Or.inr (Or.inr (Or.inr h))))⟩
  · intro hf i hi
    have hno : ¬ (byteOfWord v i = n ∨ byteOfWord v i = c) := by
      intro h
      have := hc.2 ⟨i, hi, (lane_condition_of_eq (byteOfWord v i) d n c q e m).2.2 h⟩
      rw [hf] at this
      exact absurd this (by decide)
    exact ⟨fun h => hno (Or.inl h), fun h => hno (Or.inr h)⟩

/-- C19 (amended), at a concrete input: the lenient sample dialect and the word `a\tbcdefg`. -/
theorem word_test_iff_lane_condition_witness :
    BroadcastMasks lenientMachine 44 10 13 0 0 0 ∧
    (BaseScanner.Load tabInput 0 < 2 ^ 64) ∧
    (BaseScanner.Process.commentSpecial lenientMachine (BaseScanner.Load tabInput 0) = true ↔
      ∃ i, i < 8 ∧ (byteOfWord (BaseScanner.Load tabInput 0) i ^^^ 10) &&&
        (byteOfWord (BaseScanner.Load tabInput 0) i ^^^ 13) = 0) ∧
    (byteOfWord (BaseScanner.Load tabInput 0) 1 ^^^ 10) &&&
      (byteOfWord (BaseScanner.Load tabInput 0) 1 ^^^ 13) = 0 :=
  ⟨sampleMachine_broadcastMasks 44 0 0 0 (by norm_num) (by norm_num) (by norm_num)
    (by norm_num) _ _, Load_lt tabInput 0,
    (word_test_iff_lane_condition lenientMachine 44 10 13 0 0 0
      (sampleMachine_broadcastMasks 44 0 0 0 (by norm_num) (by norm_num) (by norm_num)
        (by norm_num) _ _) (BaseScanner.Load tabInput 0) (Load_lt tabInput 0)).2.2.1,
    by decide⟩


/-- C20: with masks that are the broadcasts of the special bytes, a word one of whose bytes
equals a special byte of the state makes the word test of that state true (quote and escape for
`QUOTED`; delimiter, newline, carriage return, escape and comment for `STANDARD`; newline and
carriage return for `COMMENT`); so every index that a word loop of `Process` moves the cursor
over, whatever the number of its passes, holds a byte that is none of the special bytes of the
state. -/
theorem word_test_sound (sm : CSVStateMachine) (d n c q e m : Nat)
    (hmasks : BroadcastMasks sm d n c q e m) (v i : Nat) (hv : v < 2 ^ 64) (hi : i < 8) :
    ((byteOfWord v i = q ∨ byteOfWord v i = e) →
      BaseScanner.Process.quotedSpecial sm v = true) ∧
    ((byteOfWord v i = d ∨ byteOfWord v i = n ∨ byteOfWord v i = c ∨ byteOfWord v i = e ∨
        byteOfWord v i = m) →
      BaseScanner.Process.standardSpecial sm v = true) ∧
    ((byteOfWord v i = n ∨ byteOfWord v i = c) →
      BaseScanner.Process.commentSpecial sm v = true) ∧
    (∀ (buf : List Nat) (to_pos fuel : Nat) (s : BaseScanner) (j : Nat), s.buffer_pos ≤ j →
      j < (BaseScanner.Process.wordLoop (BaseScanner.Process.quotedSpecial sm) buf to_pos fuel
        s).buffer_pos →
      BaseScanner.byteAt buf j ≠ q ∧ BaseScanner.byteAt buf j ≠ e) ∧
    (∀ (buf : List Nat) (to_pos fuel : Nat) (s : BaseScanner) (j : Nat), s.buffer_pos ≤ j →
      j < (BaseScanner.Process.wordLoop (BaseScanner.Process.standardSpecial sm) buf to_pos
        fuel s).buffer_pos →
      BaseScanner.byteAt buf j ≠ d ∧ BaseScanner.byteAt buf j ≠ n ∧
      BaseScanner.byteAt buf j ≠ c ∧ BaseScanner.byteAt buf j ≠ e ∧
      BaseScanner.byteAt buf j ≠ m) ∧
    (∀ (buf : List Nat) (to_pos fuel : Nat) (s : BaseScanner) (j : Nat), s.buffer_pos ≤ j →
      j < (BaseScanner.Process.wordLoop (BaseScanner.Process.commentSpecial sm) buf to_pos fuel
        s).buffer_pos →
      BaseScanner.byteAt buf j ≠ n ∧ BaseScanner.byteAt buf j ≠ c) := by
  have hq := fun w hw => quotedSpecial_iff sm d n c q e m hmasks w hw
  have hs := fun w hw => standardSpecial_iff sm d n c q e m hmasks w hw
  have hc := fun w hw => commentSpecial_iff sm d n c q e m hmasks w hw
  have sq : ∀ w k, w < 2 ^ 64 → k < 8 → BaseScanner.Process.quotedSpecial sm w = false →
      byteOfWord w k ≠ q ∧ byteOfWord w k ≠ e := by
    intro w k hw hk hf
    have hno : ¬ (byteOfWord w k = q ∨ byteOfWord w k = e) := by
      intro h
      have := (hq w hw).2 ⟨k, hk, (lane_condition_of_eq (byteOfWord w k) d n c q e m).1 h⟩
      rw [hf] at this
      exact absurd this (by decide)
    exact ⟨fun h => hno (Or.inl h), fun h => hno (Or.inr h)⟩
  have ss : ∀ w k, w < 2 ^ 64 → k < 8 → BaseScanner.Process.standardSpecial sm w = false →
      byteOfWord w k ≠ d ∧ byteOfWord w k ≠ n ∧ byteOfWord w k ≠ c ∧ byteOfWord w k ≠ e ∧
      byteOfWord w k ≠ m := by
    intro w k hw hk hf
    have hno : ¬ (byteOfWord w k = d ∨ byteOfWord w k = n ∨ byteOfWord w k = c ∨
        byteOfWord w k = e ∨ byteOfWord w k = m) := by
      intro h
      have := (hs w hw).2 ⟨k, hk, (lane_condition_of_eq (byteOfWord w k) d n c q e m).2.1 h⟩
      rw [hf] at this
      exact absurd this (by decide)
    exact ⟨fun h => hno (Or.inl h), fun h => hno (Or.inr (Or.inl h)),
      fun h => hno (Or.inr (Or.inr (Or.inl h))),
      fun h => hno (Or.inr (Or.inr (Or.inr (Or.inl h)))),
      fun h => hno (Or.inr (Or.inr (Or.inr (Or.inr h))))⟩
  have sc : ∀ w k, w < 2 ^ 64 → k < 8 → BaseScanner.Process.commentSpecial sm w = false →
      byteOfWord w k ≠ n ∧ byteOfWord w k ≠ c := by
    intro w k hw hk hf
    have hno : ¬ (byteOfWord w k = n ∨ byteOfWord w k = c) := by
      intro h
      have := (hc w hw).2 ⟨k, hk, (lane_condition_of_eq (byteOfWord w k) d n c q e m).2.2 h⟩
      rw [hf] at this
      exact absurd this (by decide)
    exact ⟨fun h => hno (Or.inl h), fun h => hno (Or.inr h)⟩
  refine ⟨?_, ?_, ?_, ?_, ?_, ?_⟩
  · intro h
    exact (hq v hv).2 ⟨i, hi, (lane_condition_of_eq (byteOfWord v i) d n c q e m).1 h⟩
  · intro h
    exact (hs v hv).2 ⟨i, hi, (lane_condition_of_eq (byteOfWord v i) d n c q e m).2.1 h⟩
  · intro h
    exact (hc v hv).2 ⟨i, hi, (lane_condition_of_eq (byteOfWord v i) d n c q e m).2.2 h⟩
  · intro buf to_pos fuel s j h1 h2
    exact (BaseScanner.Process.wordLoop_skips (BaseScanner.Process.quotedSpecial sm) buf to_pos
      (fun j => BaseScanner.byteAt buf j ≠ q ∧ BaseScanner.byteAt buf j ≠ e)
      (fun pos k hk hf => by
        show BaseScanner.byteAt buf (pos + k) ≠ q ∧ BaseScanner.byteAt buf (pos + k) ≠ e
        rw [← byteOfWord_Load buf pos k hk]
        exact sq _ k (Load_lt buf pos) hk hf) fuel s).2.2 j h1 h2
  · intro buf to_pos fuel s j h1 h2
    exact (BaseScanner.Process.wordLoop_skips (BaseScanner.Process.standardSpecial sm) buf
      to_pos
      (fun j => BaseScanner.byteAt buf j ≠ d ∧ BaseScanner.byteAt buf j ≠ n ∧
        BaseScanner.byteAt buf j ≠ c ∧ BaseScanner.byteAt buf j ≠ e ∧
        BaseScanner.byteAt buf j ≠ m)
      (fun pos k hk hf => by
        show BaseScanner.byteAt buf (pos + k) ≠ d ∧ BaseScanner.byteAt buf (pos + k) ≠ n ∧
          BaseScanner.byteAt buf (pos + k) ≠ c ∧ BaseScanner.byteAt buf (pos + k) ≠ e ∧
          BaseScanner.byteAt buf (pos + k) ≠ m
        rw [← byteOfWord_Load buf pos k hk]
        exact ss _ k (Load_lt buf pos) hk hf) fuel s).2.2 j h1 h2
  · intro buf to_pos fuel s j h1 h2
    exact (BaseScanner.Process.wordLoop_skips (BaseScanner.Process.commentSpecial sm) buf
      to_pos
      (fun j => BaseScanner.byteAt buf j ≠ n ∧ BaseScanner.byteAt buf j ≠ c)
      (fun pos k hk hf => by
        show BaseScanner.byteAt buf (pos + k) ≠ n ∧ BaseScanner.byteAt buf (pos + k) ≠ c
        rw [← byteOfWord_Load buf pos k hk]
        exact sc _ k (Load_lt buf pos) hk hf) fuel s).2.2 j h1 h2

/-- C20, at a concrete input: the lenient sample dialect and the eight bytes `,b\r\nc,d\r` that
follow the first byte of `a,b\r\nc,d\r\n`; the byte of index 0 is the delimiter. -/
theorem word_test_sound_witness :
    BroadcastMasks lenientMachine 44 10 13 0 0 0 ∧
    (BaseScanner.Load crlfInput 1 < 2 ^ 64) ∧ (0 < 8) ∧
    byteOfWord (BaseScanner.Load crlfInput 1) 0 = 44 ∧
    BaseScanner.Process.standardSpecial lenientMachine (BaseScanner.Load crlfInput 1) = true :=
  ⟨sampleMachine_broadcastMasks 44 0 0 0 (by norm_num) (by norm_num) (by norm_num)
    (by norm_num) _ _, Load_lt crlfInput 1, by norm_num, by decide,
    (word_test_sound lenientMachine 44 10 13 0 0 0
      (sampleMachine_broadcastMasks 44 0 0 0 (by norm_num) (by norm_num) (by norm_num)
        (by norm_num) _ _) (BaseScanner.Load crlfInput 1) 0 (Load_lt crlfInput 1)
      (by norm_num)).2.1 (Or.inl (by decide))⟩

/-- C18, at a concrete input: `other` at offset 90 of segment 2 (size 100), `this` at offset
5 of segment 3, in a stream of four segments of 100 bytes. -/
theorem LinePosition_sub_refines_Distance_witness :
    (5 < 2 ^ 64) ∧ (90 < 2 ^ 64) ∧ (100 < 2 ^ 64) ∧
    LinePosition.sub ⟨5, 100, 3⟩ ⟨90, 100, 2⟩ = 15 ∧
    LinePosition.sub ⟨5, 100, 3⟩ ⟨90, 100, 2⟩
      = streamOffset [100, 100, 100, 100] ⟨5, 100, 3⟩
        - streamOffset [100, 100, 100, 100] ⟨90, 100, 2⟩ ∧
    LinePosition.sub ⟨5, 100, 3⟩ ⟨90, 100, 2⟩
      = (LinePosition.GetGlobalPosition ⟨5, 100, 3⟩ 100 + 2 ^ 64
          - LinePosition.GetGlobalPosition ⟨90, 100, 2⟩ 100) % 2 ^ 64 :=
  have h := LinePosition_sub_refines_Distance ⟨5, 100, 3⟩ ⟨90, 100, 2⟩ (by norm_num)
    (by norm_num) (by norm_num)
  ⟨by norm_num, by norm_num, by norm_num, by decide,
    (h.2.2.1 [100, 100, 100, 100] 2 rfl rfl rfl (by decide) (by decide)).2,
    h.2.2.2 100 2 rfl rfl rfl⟩

/-- C12, at a concrete input: `a,b\r\nc,d\r\n` (valid length 10) with a boundary whose range
end 20 lies beyond the valid length; the run ends with the cursor at 10. -/
theorem Process_cursor_within_chunk_witness :
    (BaseScanner.fresh 0).buffer_pos ≤ BaseScanner.Process.to_pos true 20 10 ∧
    BaseScanner.Process.to_pos true 20 10 = 10 ∧
    (BaseScanner.Process lenientMachine (ScannerResult.behavior lenientMachine) true 20 10
      crlfInput (BaseScanner.fresh 0) {}).1.buffer_pos
      ≤ BaseScanner.Process.to_pos true 20 10 ∧
    (BaseScanner.Process lenientMachine (ScannerResult.behavior lenientMachine) true 20 10
      crlfInput (BaseScanner.fresh 0) {}).1.buffer_pos = 10 :=
  have h := Process_cursor_within_chunk lenientMachine (ScannerResult.behavior lenientMachine)
    true 20 10 crlfInput (BaseScanner.fresh 0) ({} : ScannerResult) (by decide)
  ⟨by decide, by decide, h.2.2.2.1, by decide⟩

/-! ## C23: progress and termination -/

namespace BaseScanner

/-- The main loop logs at most one `Transition` per byte between the cursor and the chunk
end. -/
theorem Process.loop_transitions_length {R : Type} (sm : CSVStateMachine) (T : Behavior R)
    (buf : List Nat) (to_pos start_pos : Nat) :
    ∀ (fuel : Nat) (s : BaseScanner) (r : R),
      (Process.loop sm T buf to_pos start_pos fuel s r).1.transitions.length
        ≤ s.transitions.length + (to_pos - s.buffer_pos) := by
  intro fuel
  induction fuel with
  | zero => intro s r; simp [Process.loop]
  | succ n ih =>
    intro s r
    rw [Process.loop]
    by_cases hp : s.buffer_pos < to_pos
    · simp only [hp, if_true]
      have hlen : (Process.iteration sm T buf to_pos start_pos s r).scanner.transitions.length
          = s.transitions.length + 1 := by
        rw [Process.iteration_transitions]; simp
      have hprog := Process.iteration_progress sm T buf to_pos start_pos s r
      cases hr : (Process.iteration sm T buf to_pos start_pos s r).returned
      · simp only [Bool.false_eq_true, if_false]
        have := ih (Process.iteration sm T buf to_pos start_pos s r).scanner
          (Process.iteration sm T buf to_pos start_pos s r).result
        omega
      · simp only [if_true]
        omega
    · simp only [hp, if_false]
      omega

/-- A pass that brings the cursor to the chunk end is the pass that fed the last byte before
the chunk end to `Transition`: the skip loops never take the cursor to the chunk end. -/
theorem Process.iteration_reaches_end {R : Type} (sm : CSVStateMachine) (T : Behavior R)
    (buf : List Nat) (to_pos start_pos : Nat) (s : BaseScanner) (r : R)
    (hend : (Process.iteration sm T buf to_pos start_pos s r).scanner.buffer_pos = to_pos) :
    s.buffer_pos + 1 = to_pos := by
  have hskip : ∀ (special skip : Nat → Bool) (s' : BaseScanner),
      (Process.skipLoops special skip buf to_pos s').buffer_pos = to_pos →
      s'.buffer_pos = to_pos := by
    intro special skip s' h
    rcases (Process.skipLoops_skips special skip buf to_pos (fun _ => True)
      (fun _ _ _ _ => trivial) (fun _ _ => trivial) s').2.1 with h1 | h1
    · rw [← h1]; exact h
    · omega
  revert hend
  unfold Process.iteration
  cases h : (sm.Transition s.states (byteAt buf s.buffer_pos)).states_1 <;>
    simp only [h, BaseScanner.logCall, Process.stopAfterTerminator] <;>
    (try split_ifs) <;> intro hend <;>
    first
      | exact hend
      | exact hskip _ _ _ hend

end BaseScanner

/-- C23: every pass of the main loop of `Process` moves the cursor forward by at least one
byte; the skip loops only move it forward and, when they move it, keep it below the chunk end,
and neither of them uses up its passes; so, whatever the automaton and the hooks return,
`Process` makes at most `to_pos - start_pos` calls of `Transition`, and the `to_pos - start_pos`
passes that the main loop is given are never used up: any larger number of passes gives the
same outcome. -/
theorem Process_terminates {R : Type} (sm : CSVStateMachine) (T : Behavior R)
    (IsBoundarySet : Bool) (GetEndPos actual_size : Nat) (buf : List Nat) (s : BaseScanner)
    (r : R) :
    (∀ (to_pos start_pos : Nat) (s' : BaseScanner) (r' : R),
      s'.buffer_pos + 1
        ≤ (BaseScanner.Process.iteration sm T buf to_pos start_pos s' r').scanner.buffer_pos) ∧
    (∀ (special skip : Nat → Bool) (to_pos : Nat) (s' : BaseScanner),
      s'.buffer_pos ≤ (BaseScanner.Process.skipLoops special skip buf to_pos s').buffer_pos ∧
      ((BaseScanner.Process.skipLoops special skip buf to_pos s').buffer_pos = s'.buffer_pos ∨
        (BaseScanner.Process.skipLoops special skip buf to_pos s').buffer_pos < to_pos)) ∧
    (∀ (special : Nat → Bool) (to_pos : Nat) (s' : BaseScanner) (extra : Nat),
      BaseScanner.Process.wordLoop special buf to_pos (to_pos + extra) s'
        = BaseScanner.Process.wordLoop special buf to_pos to_pos s') ∧
    (∀ (skip : Nat → Bool) (to_pos : Nat) (s' : BaseScanner) (extra : Nat), 1 ≤ to_pos →
      BaseScanner.Process.tableLoop skip buf to_pos (to_pos + extra) s'
        = BaseScanner.Process.tableLoop skip buf to_pos to_pos s') ∧
    (BaseScanner.Process sm T IsBoundarySet GetEndPos actual_size buf s r).1.transitions.length
      ≤ s.transitions.length
        + (BaseScanner.Process.to_pos IsBoundarySet GetEndPos actual_size - s.buffer_pos) ∧
    (∀ extra : Nat,
      BaseScanner.Process.loop sm T buf
          (BaseScanner.Process.to_pos IsBoundarySet GetEndPos actual_size) s.buffer_pos
          (BaseScanner.Process.to_pos IsBoundarySet GetEndPos actual_size - s.buffer_pos + extra)
          s r
        = BaseScanner.Process sm T IsBoundarySet GetEndPos actual_size buf s r) :=
  ⟨fun to_pos start_pos s' r' =>
      BaseScanner.Process.iteration_progress sm T buf to_pos start_pos s' r',
    fun special skip to_pos s' =>
      ⟨(BaseScanner.Process.skipLoops_skips special skip buf to_pos (fun _ => True)
          (fun _ _ _ _ => trivial) (fun _ _ => trivial) s').1,
        (BaseScanner.Process.skipLoops_skips special skip buf to_pos (fun _ => True)
          (fun _ _ _ _ => trivial) (fun _ _ => trivial) s').2.1⟩,
    fun special to_pos s' extra =>
      BaseScanner.Process.wordLoop_fuel_adequate special buf to_pos s' extra,
    fun skip to_pos s' extra hpos =>
      BaseScanner.Process.tableLoop_fuel_adequate skip buf to_pos hpos s' extra,
    BaseScanner.Process.loop_transitions_length sm T buf _ _ _ s r,
    fun extra =>
      BaseScanner.Process_fuel_adequate sm T IsBoundarySet GetEndPos actual_size buf s r extra⟩

/-! ## C21: `Process` against the same procedure without the skip loops -/

/-- The calls listed by `isOutputCall` are among those that are no span marks. -/
theorem filter_isOutputCall_of_filter_not_isSpanMark (l1 l2 : List HookCall)
    (h : l1.filter (fun c => !c.isSpanMark) = l2.filter (fun c => !c.isSpanMark)) :
    l1.filter HookCall.isOutputCall = l2.filter HookCall.isOutputCall := by
  have key : ∀ l : List HookCall,
      (l.filter (fun c => !c.isSpanMark)).filter HookCall.isOutputCall
        = l.filter HookCall.isOutputCall := by
    intro l
    rw [List.filter_filter]
    congr 1
    funext c
    cases c <;> rfl
  rw [← key l1, ← key l2, h]

/-- With enough fuel, a run of the main loop that starts below the chunk end and ends with the
cursor at the chunk end has fed the last byte before the chunk end to `Transition`, in its
last call of `Transition`. -/
theorem BaseScanner.Process.loop_feeds_last_byte {R : Type} (sm : CSVStateMachine)
    (T : Behavior R) (buf : List Nat) (to_pos start_pos : Nat) (fuel : Nat) (s : BaseScanner)
    (r : R) (hfuel : to_pos - s.buffer_pos ≤ fuel) (hstart : s.buffer_pos < to_pos)
    (hend : (BaseScanner.Process.loop sm T buf to_pos start_pos fuel s r).1.buffer_pos
      = to_pos) :
    ∃ st, (BaseScanner.Process.loop sm T buf to_pos start_pos fuel s r).1.transitions.getLast?
      = some (to_pos - 1, st) := by
  have hpass : ∀ (s' : BaseScanner) (r' : R),
      (BaseScanner.Process.iteration sm T buf to_pos start_pos s' r').scanner.buffer_pos
        = to_pos →
      ∃ st,
        (BaseScanner.Process.iteration sm T buf to_pos start_pos s' r').scanner.transitions.getLast?
          = some (to_pos - 1, st) := by
    intro s' r' h
    have h1 := BaseScanner.Process.iteration_reaches_end sm T buf to_pos start_pos s' r' h
    rw [BaseScanner.Process.iteration_transitions]
    refine ⟨sm.Transition s'.states (BaseScanner.byteAt buf s'.buffer_pos), ?_⟩
    rw [List.getLast?_append]
    simp
    omega
  exact BaseScanner.Process.loop_rule sm T buf to_pos start_pos
    (fun s' _ => s'.buffer_pos = to_pos →
      ∃ st, s'.transitions.getLast? = some (to_pos - 1, st))
    (fun s' _ => s'.buffer_pos = to_pos →
      ∃ st, s'.transitions.getLast? = some (to_pos - 1, st))
    (fun s' r' _ _ _ => hpass s' r')
    (fun s' r' _ _ _ => hpass s' r')
    (fun s' r' _ hI => hI)
    fuel s r hfuel (fun h => absurd h (by omega)) hend

/-- C21: let the masks and the skip tables agree with the transition function (`SkipAgrees`)
and let `SetQuoted` and `SetComment` be the flag hooks of `ScannerResult`, the other hooks
being arbitrary.  Then for every buffer, chunk end and start state, `Process` and the same
procedure without the skip loops end with the same cursor, `lines_read`, `bytes_read`, state
pair, `ever_quoted`, `ever_escaped` and result, and make the same `AddValue`, `AddRow`,
`EmptyLine`, `UnsetComment`, `QuotedNewLine` and `InvalidState` calls in the same order, with
the same positions and returned values.  The last byte before the chunk end is never skipped:
the skip loops leave a cursor below the chunk end below it, a pass that brings the cursor to
the chunk end is the one that fed the byte `to_pos - 1` to `Transition`, and a run that starts
below the chunk end and reaches it has fed that byte to `Transition` in its last call. -/
theorem Process_observably_eq_ByteWalk (sm : CSVStateMachine) (T : Behavior ScannerResult)
    (hagree : SkipAgrees sm)
    (hquoted : T.SetQuoted = fun _ result quoted_position =>
      ScannerResult.SetQuoted result quoted_position)
    (hcomment : T.SetComment = fun _ result buffer_pos =>
      ScannerResult.SetComment result buffer_pos)
    (IsBoundarySet : Bool) (GetEndPos actual_size : Nat) (buf : List Nat) (s : BaseScanner)
    (r : ScannerResult) :
    (BaseScanner.Process sm T IsBoundarySet GetEndPos actual_size buf s r).1.buffer_pos
      = (BaseScanner.ByteWalk sm T IsBoundarySet GetEndPos actual_size buf s r).1.buffer_pos ∧
    (BaseScanner.Process sm T IsBoundarySet GetEndPos actual_size buf s r).1.lines_read
      = (BaseScanner.ByteWalk sm T IsBoundarySet GetEndPos actual_size buf s r).1.lines_read ∧
    (BaseScanner.Process sm T IsBoundarySet GetEndPos actual_size buf s r).1.bytes_read
      = (BaseScanner.ByteWalk sm T IsBoundarySet GetEndPos actual_size buf s r).1.bytes_read ∧
    (BaseScanner.Process sm T IsBoundarySet GetEndPos actual_size buf s r).1.states
      = (BaseScanner.ByteWalk sm T IsBoundarySet GetEndPos actual_size buf s r).1.states ∧
    (BaseScanner.Process sm T IsBoundarySet GetEndPos actual_size buf s r).1.ever_quoted
      = (BaseScanner.ByteWalk sm T IsBoundarySet GetEndPos actual_size buf s r).1.ever_quoted ∧
    (BaseScanner.Process sm T IsBoundarySet GetEndPos actual_size buf s r).1.ever_escaped
      = (BaseScanner.ByteWalk sm T IsBoundarySet GetEndPos actual_size buf s r).1.ever_escaped ∧
    (BaseScanner.Process sm T IsBoundarySet GetEndPos actual_size buf s r).2
      = (BaseScanner.ByteWalk sm T IsBoundarySet GetEndPos actual_size buf s r).2 ∧
    (BaseScanner.Process sm T IsBoundarySet GetEndPos actual_size buf s r).1.calls.filter
        HookCall.isOutputCall
      = (BaseScanner.ByteWalk sm T IsBoundarySet GetEndPos actual_size buf s r).1.calls.filter
        HookCall.isOutputCall ∧
    (∀ (special skip : Nat → Bool) (to_pos : Nat) (s' : BaseScanner), s'.buffer_pos < to_pos →
      (BaseScanner.Process.skipLoops special skip buf to_pos s').buffer_pos < to_pos) ∧
    (∀ (to_pos start_pos : Nat) (s' : BaseScanner) (r' : ScannerResult),
      (BaseScanner.Process.iteration sm T buf to_pos start_pos s' r').scanner.buffer_pos
        = to_pos →
      s'.buffer_pos = to_pos - 1 ∧
      (BaseScanner.Process.iteration sm T buf to_pos start_pos s' r').scanner.transitions
        = s'.transitions ++
          [(to_pos - 1, sm.Transition s'.states (BaseScanner.byteAt buf (to_pos - 1)))]) ∧
    (s.buffer_pos < BaseScanner.Process.to_pos IsBoundarySet GetEndPos actual_size →
      (BaseScanner.Process sm T IsBoundarySet GetEndPos actual_size buf s r).1.buffer_pos
        = BaseScanner.Process.to_pos IsBoundarySet GetEndPos actual_size →
      ∃ st, (BaseScanner.Process sm T IsBoundarySet GetEndPos actual_size buf s
          r).1.transitions.getLast?
        = some (BaseScanner.Process.to_pos IsBoundarySet GetEndPos actual_size - 1, st)) := by
  have habs : T.AbsorbsRepeats := by
    constructor
    · intro states result p q
      rw [hquoted]
      simp [ScannerResult.SetQuoted]
    · intro states result p q
      rw [hcomment]
      simp [ScannerResult.SetComment]
  obtain ⟨hcore, hstates, hres, new, extra, hc1, hc2, _, hfil⟩ :=
    BaseScanner.Process.loop_simulates_byteWalk sm T hagree habs buf
      (BaseScanner.Process.to_pos IsBoundarySet GetEndPos actual_size) s.buffer_pos
      (BaseScanner.Process.to_pos IsBoundarySet GetEndPos actual_size - s.buffer_pos) s s r
      (BaseScanner.Process.to_pos IsBoundarySet GetEndPos actual_size - s.buffer_pos)
      (BaseScanner.Process.to_pos IsBoundarySet GetEndPos actual_size - s.buffer_pos)
      (le_refl _) rfl (Or.inl rfl) (le_refl _) (le_refl _)
  simp only [BaseScanner.core, Prod.mk.injEq] at hcore
  obtain ⟨_, c2, c3, c4, c5, c6⟩ := hcore
  refine ⟨c4, c5, c6, hstates, c2, c3, hres, ?_, ?_, ?_, ?_⟩
  · unfold BaseScanner.Process BaseScanner.ByteWalk
    rw [hc1, hc2, List.filter_append, List.filter_append,
      filter_isOutputCall_of_filter_not_isSpanMark new extra hfil]
  · intro special skip to_pos s' h
    rcases (BaseScanner.Process.skipLoops_skips special skip buf to_pos (fun _ => True)
      (fun _ _ _ _ => trivial) (fun _ _ => trivial) s').2.1 with h1 | h1
    · rw [h1]; exact h
    · exact h1
  · intro to_pos start_pos s' r' h
    have h1 := BaseScanner.Process.iteration_reaches_end sm T buf to_pos start_pos s' r' h
    have h2 : s'.buffer_pos = to_pos - 1 := by omega
    refine ⟨h2, ?_⟩
    rw [BaseScanner.Process.iteration_transitions, h2]
  · intro hstart hend
    exact BaseScanner.Process.loop_feeds_last_byte sm T buf _ _ _ s r (le_refl _) hstart hend

/-- C21, at a concrete input: `"abc",d` with the sample dialect with quote `"` and the flag
hooks of `ScannerResult`; the run ends at the chunk end 7, and its last `Transition` is the
one on the byte 6. -/
theorem Process_observably_eq_ByteWalk_witness :
    SkipAgrees quoteMachine ∧
    (BaseScanner.Process quoteMachine (ScannerResult.behavior quoteMachine) false 0 7
        quotedSpanInput (BaseScanner.fresh 0) {}).1.calls.filter HookCall.isOutputCall
      = (BaseScanner.ByteWalk quoteMachine (ScannerResult.behavior quoteMachine) false 0 7
        quotedSpanInput (BaseScanner.fresh 0) {}).1.calls.filter HookCall.isOutputCall ∧
    (BaseScanner.Process quoteMachine (ScannerResult.behavior quoteMachine) false 0 7
        quotedSpanInput (BaseScanner.fresh 0) {}).1.states
      = (BaseScanner.ByteWalk quoteMachine (ScannerResult.behavior quoteMachine) false 0 7
        quotedSpanInput (BaseScanner.fresh 0) {}).1.states ∧
    (BaseScanner.Process quoteMachine (ScannerResult.behavior quoteMachine) false 0 7
        quotedSpanInput (BaseScanner.fresh 0) {}).1.transitions.getLast?
      = some (6, ⟨CSVState.DELIMITER, CSVState.STANDARD⟩) :=
  have h := Process_observably_eq_ByteWalk quoteMachine (ScannerResult.behavior quoteMachine)
    (sampleMachine_skipAgrees 44 34 0 0 (by decide) (by decide) (by decide) (by decide) _ _)
    rfl rfl false 0 7 quotedSpanInput (BaseScanner.fresh 0) ({} : ScannerResult)
  ⟨sampleMachine_skipAgrees 44 34 0 0 (by decide) (by decide) (by decide) (by decide) _ _,
    h.2.2.2.2.2.2.2.1, h.2.2.2.1, by decide⟩

/-! ## C22: the lifecycle guard -/

/-- One call of `ParseChunkInternal`: what it calls and what becomes of `initialized`. -/
theorem BaseScanner.ParseChunkInternal_calls {R : Type} (sm : CSVStateMachine)
    (T : Behavior R) (Initialize FinalizeChunkProcess : ChunkScanner R → ChunkScanner R)
    (hfinal : ∀ s, (FinalizeChunkProcess s).initialized = s.initialized)
    (self : ChunkScanner R) :
    (self.done = true →
      BaseScanner.ParseChunkInternal sm T Initialize FinalizeChunkProcess self = (self, [])) ∧
    (LifecycleCall.Initialize ∈
        (BaseScanner.ParseChunkInternal sm T Initialize FinalizeChunkProcess self).2 ↔
      self.done = false ∧ self.initialized = false) ∧
    (BaseScanner.ParseChunkInternal sm T Initialize FinalizeChunkProcess self).2.count
      LifecycleCall.Initialize ≤ 1 ∧
    (self.done = false →
      (BaseScanner.ParseChunkInternal sm T Initialize FinalizeChunkProcess self).1.initialized
        = true) := by
  unfold BaseScanner.ParseChunkInternal
  cases hd : self.done <;> cases hi : self.initialized <;>
    simp only [Bool.false_eq_true, if_false, if_true, Bool.not_false, Bool.not_true] <;>
    refine ⟨?_, ?_, ?_, ?_⟩ <;>
    (try split) <;> (try split_ifs) <;> simp_all [List.count_cons, List.count_nil]

/-- `Process` runs in a call of `ParseChunkInternal` exactly when the range is not done on
entry and, after the guarded `Initialize`, the range is not done and a buffer handle is
bound. -/
theorem BaseScanner.ParseChunkInternal_runs_Process {R : Type} (sm : CSVStateMachine)
    (T : Behavior R) (Initialize FinalizeChunkProcess : ChunkScanner R → ChunkScanner R)
    (self : ChunkScanner R) :
    LifecycleCall.Process ∈
        (BaseScanner.ParseChunkInternal sm T Initialize FinalizeChunkProcess self).2 ↔
      self.done = false ∧
      (if self.initialized then self
        else { Initialize self with initialized := true }).done = false ∧
      (if self.initialized then self
        else { Initialize self with initialized := true }).cur_buffer_handle.isSome
          = true := by
  unfold BaseScanner.ParseChunkInternal
  cases hd : self.done <;> cases hi : self.initialized <;>
    simp only [Bool.false_eq_true, if_false, if_true, Bool.not_false, Bool.not_true] <;>
    (try split) <;> (try split_ifs) <;> simp_all

/-- Once `initialized` is set, no call of a sequence calls `Initialize`. -/
theorem BaseScanner.ParseChunks_initialized {R : Type} (sm : CSVStateMachine)
    (T : Behavior R) (Initialize FinalizeChunkProcess : ChunkScanner R → ChunkScanner R)
    (hfinal : ∀ s, (FinalizeChunkProcess s).initialized = s.initialized) :
    ∀ (between : List (ChunkScanner R → ChunkScanner R)) (self : ChunkScanner R),
      (∀ b ∈ between, ∀ s, (b s).initialized = s.initialized) →
      self.initialized = true →
      ∀ call ∈ (BaseScanner.ParseChunks sm T Initialize FinalizeChunkProcess between self).2,
        LifecycleCall.Initialize ∉ call.2 := by
  intro between
  induction between with
  | nil => intro self _ _ call hcall; simp [BaseScanner.ParseChunks] at hcall
  | cons b rest ih =>
    intro self hb hinit call hcall
    have hb0 : (b self).initialized = true := by
      rw [hb b (List.mem_cons_self _ _)]; exact hinit
    obtain ⟨h1, h2, _, h4⟩ := BaseScanner.ParseChunkInternal_calls sm T Initialize
      FinalizeChunkProcess hfinal (b self)
    simp only [BaseScanner.ParseChunks, List.mem_cons] at hcall
    rcases hcall with hcall | hcall
    · rw [hcall]
      intro hmem
      have := (h2.1 hmem).2
      rw [hb0] at this
      exact absurd this (by decide)
    · refine ih _ (fun b' hb' => hb b' (List.mem_cons_of_mem _ hb')) ?_ call hcall
      cases hd : (b self).done
      · exact h4 hd
      · rw [h1 hd]; exact hb0

/-- In a sequence of calls on a scanner that is not yet initialized, the call that calls
`Initialize` is the first one made while `iterator.done` is false. -/
theorem BaseScanner.ParseChunks_first_call {R : Type} (sm : CSVStateMachine)
    (T : Behavior R) (Initialize FinalizeChunkProcess : ChunkScanner R → ChunkScanner R)
    (hfinal : ∀ s, (FinalizeChunkProcess s).initialized = s.initialized) :
    ∀ (between : List (ChunkScanner R → ChunkScanner R)) (self : ChunkScanner R),
      (∀ b ∈ between, ∀ s, (b s).initialized = s.initialized) →
      self.initialized = false →
      ∀ (k : Nat) (call : Bool × List LifecycleCall),
        (BaseScanner.ParseChunks sm T Initialize FinalizeChunkProcess between self).2[k]?
          = some call →
        (LifecycleCall.Initialize ∈ call.2 ↔
          call.1 = false ∧
          ∀ (j : Nat) (earlier : Bool × List LifecycleCall), j < k →
            (BaseScanner.ParseChunks sm T Initialize FinalizeChunkProcess between self).2[j]?
              = some earlier →
            earlier.1 = true) := by
  intro between
  induction between with
  | nil => intro self _ _ k call hcall; simp [BaseScanner.ParseChunks] at hcall
  | cons b rest ih =>
    intro self hb hinit k call hcall
    have hb0 : (b self).initialized = false := by
      rw [hb b (List.mem_cons_self _ _)]; exact hinit
    have hrest : ∀ b' ∈ rest, ∀ s, (b' s).initialized = s.initialized :=
      fun b' hb' => hb b' (List.mem_cons_of_mem _ hb')
    obtain ⟨h1, h2, _, h4⟩ := BaseScanner.ParseChunkInternal_calls sm T Initialize
      FinalizeChunkProcess hfinal (b self)
    simp only [BaseScanner.ParseChunks] at hcall ⊢
    cases k with
    | zero =>
      simp only [List.getElem?_cons_zero, Option.some.injEq] at hcall
      rw [← hcall]
      simp only [h2, hb0, and_true]
      constructor
      · intro hd
        exact ⟨hd, fun j _ hj => absurd hj (Nat.not_lt_zero j)⟩
      · intro hd
        exact hd.1
    | succ k =>
      simp only [List.getElem?_cons_succ] at hcall
      cases hd : (b self).done
      · -- the first call is made with a range that is not done: it calls `Initialize`
        have hnot := BaseScanner.ParseChunks_initialized sm T Initialize FinalizeChunkProcess
          hfinal rest _ hrest (h4 hd) call (List.getElem?_mem hcall)
        constructor
        · intro hmem; exact absurd hmem hnot
        · intro hall
          have := hall.2 0 (false, (BaseScanner.ParseChunkInternal sm T Initialize
            FinalizeChunkProcess (b self)).2) (Nat.succ_pos k) (List.getElem?_cons_zero)
          exact absurd this Bool.false_ne_true
      · -- the first call returns at once
        rw [h1 hd] at hcall ⊢
        rw [ih (b self) hrest hb0 k call hcall]
        constructor
        · intro hall
          refine ⟨hall.1, ?_⟩
          intro j earlier hj hearlier
          cases j with
          | zero =>
            simp only [List.getElem?_cons_zero, Option.some.injEq] at hearlier
            rw [← hearlier]
          | succ j =>
            simp only [List.getElem?_cons_succ] at hearlier
            exact hall.2 j earlier (by omega) hearlier
        · intro hall
          refine ⟨hall.1, ?_⟩
          intro j earlier hj hearlier
          exact hall.2 (j + 1) earlier (by omega) (by simpa using hearlier)

/-- Over a sequence of calls, `Initialize` is called at most once. -/
theorem BaseScanner.ParseChunks_Initialize_once {R : Type} (sm : CSVStateMachine)
    (T : Behavior R) (Initialize FinalizeChunkProcess : ChunkScanner R → ChunkScanner R)
    (hfinal : ∀ s, (FinalizeChunkProcess s).initialized = s.initialized) :
    ∀ (between : List (ChunkScanner R → ChunkScanner R)) (self : ChunkScanner R),
      (∀ b ∈ between, ∀ s, (b s).initialized = s.initialized) →
      (((BaseScanner.ParseChunks sm T Initialize FinalizeChunkProcess between self).2.map
          (fun call => call.2.count LifecycleCall.Initialize)).sum ≤ 1 ∧
        (self.initialized = true →
          ((BaseScanner.ParseChunks sm T Initialize FinalizeChunkProcess between self).2.map
            (fun call => call.2.count LifecycleCall.Initialize)).sum = 0)) := by
  intro between
  induction between with
  | nil => intro self _; simp [BaseScanner.ParseChunks]
  | cons b rest ih =>
    intro self hb
    have hrest : ∀ b' ∈ rest, ∀ s, (b' s).initialized = s.initialized :=
      fun b' hb' => hb b' (List.mem_cons_of_mem _ hb')
    obtain ⟨h1, h2, h3, h4⟩ := BaseScanner.ParseChunkInternal_calls sm T Initialize
      FinalizeChunkProcess hfinal (b self)
    obtain ⟨i1, i2⟩ := ih (BaseScanner.ParseChunkInternal sm T Initialize
      FinalizeChunkProcess (b self)).1 hrest
    simp only [BaseScanner.ParseChunks, List.map_cons, List.sum_cons]
    have hzero : (b self).done = true ∨ (b self).initialized = true →
        (BaseScanner.ParseChunkInternal sm T Initialize FinalizeChunkProcess (b self)).2.count
          LifecycleCall.Initialize = 0 := by
      intro h
      rw [List.count_eq_zero]
      intro hmem
      have := h2.1 hmem
      rcases h with h | h
      · rw [this.1] at h; exact absurd h (by decide)
      · rw [this.2] at h; exact absurd h (by decide)
    constructor
    · cases hd : (b self).done
      · have := i2 (h4 hd)
        omega
      · have := hzero (Or.inl hd)
        omega
    · intro hinit
      have hb0 : (b self).initialized = true := by
        rw [hb b (List.mem_cons_self _ _)]; exact hinit
      have hz := hzero (Or.inr hb0)
      have : (BaseScanner.ParseChunkInternal sm T Initialize FinalizeChunkProcess
          (b self)).1.initialized = true := by
        cases hd : (b self).done
        · exact h4 hd
        · rw [h1 hd]; exact hb0
      have := i2 this
      omega

/-- C22: let the overrides of `FinalizeChunkProcess` and the code that acts on the scanner
between two calls leave the member `initialized` alone (this header assigns it in
`ParseChunkInternal` only).  Then over any sequence of `ParseChunkInternal` calls on one
scanner `Initialize` is called at most once; on a scanner whose `initialized` is still false
it is called in the first call made while `iterator.done` is false and in no other; a call
made while `iterator.done` is true returns the scanner as it was (with its logs of hook
calls) and calls no member function; and `Process` runs in a call exactly when the range is
not done on entry and, after the guarded `Initialize`, the range is not done and a buffer
handle is bound. -/
theorem ParseChunkInternal_lifecycle_guard {R : Type} (sm : CSVStateMachine)
    (T : Behavior R) (Initialize FinalizeChunkProcess : ChunkScanner R → ChunkScanner R)
    (hfinal : ∀ s, (FinalizeChunkProcess s).initialized = s.initialized)
    (between : List (ChunkScanner R → ChunkScanner R))
    (hbetween : ∀ b ∈ between, ∀ s, (b s).initialized = s.initialized)
    (self : ChunkScanner R) :
    ((BaseScanner.ParseChunks sm T Initialize FinalizeChunkProcess between self).2.map
        (fun call => call.2.count LifecycleCall.Initialize)).sum ≤ 1 ∧
    (self.initialized = false →
      ∀ (k : Nat) (call : Bool × List LifecycleCall),
        (BaseScanner.ParseChunks sm T Initialize FinalizeChunkProcess between self).2[k]?
          = some call →
        (LifecycleCall.Initialize ∈ call.2 ↔
          call.1 = false ∧
          ∀ (j : Nat) (earlier : Bool × List LifecycleCall), j < k →
            (BaseScanner.ParseChunks sm T Initialize FinalizeChunkProcess between self).2[j]?
              = some earlier →
            earlier.1 = true)) ∧
    (∀ s : ChunkScanner R, s.done = true →
      BaseScanner.ParseChunkInternal sm T Initialize FinalizeChunkProcess s = (s, [])) ∧
    (∀ s : ChunkScanner R,
      LifecycleCall.Process ∈
          (BaseScanner.ParseChunkInternal sm T Initialize FinalizeChunkProcess s).2 ↔
        s.done = false ∧
        (if s.initialized then s else { Initialize s with initialized := true }).done
          = false ∧
        (if s.initialized then s
          else { Initialize s with initialized := true }).cur_buffer_handle.isSome = true) :=
  ⟨(BaseScanner.ParseChunks_Initialize_once sm T Initialize FinalizeChunkProcess hfinal
      between self hbetween).1,
    fun hnew => BaseScanner.ParseChunks_first_call sm T Initialize FinalizeChunkProcess hfinal
      between self hbetween hnew,
    fun s hd => (BaseScanner.ParseChunkInternal_calls sm T Initialize FinalizeChunkProcess
      hfinal s).1 hd,
    fun s => BaseScanner.ParseChunkInternal_runs_Process sm T Initialize FinalizeChunkProcess
      s⟩

/-- C22, at a concrete input: three calls on a fresh scanner whose `Initialize` binds the
segment `a,b\r\nc,d\r\n` and whose `FinalizeChunkProcess` marks the range done at the end of
the segment.  The first call calls `Initialize`, `Process` and `FinalizeChunkProcess`, the
two others nothing. -/
theorem ParseChunkInternal_lifecycle_guard_witness :
    (∀ s, (sampleFinalizeChunkProcess s).initialized = s.initialized) ∧
    (∀ b ∈ [id, id, id], ∀ s : ChunkScanner ScannerResult, (b s).initialized = s.initialized) ∧
    (BaseScanner.ParseChunks lenientMachine (ScannerResult.behavior lenientMachine)
        sampleInitialize sampleFinalizeChunkProcess [id, id, id] ChunkScanner.fresh).2
      = [(false, [LifecycleCall.Initialize, LifecycleCall.Process,
            LifecycleCall.FinalizeChunkProcess]), (true, []), (true, [])] ∧
    ((BaseScanner.ParseChunks lenientMachine (ScannerResult.behavior lenientMachine)
        sampleInitialize sampleFinalizeChunkProcess [id, id, id] ChunkScanner.fresh).2.map
        (fun call => call.2.count LifecycleCall.Initialize)).sum ≤ 1 :=
  ⟨fun _ => rfl, fun b hb s => by simp at hb; subst hb; rfl, by decide,
    (ParseChunkInternal_lifecycle_guard lenientMachine (ScannerResult.behavior lenientMachine)
      sampleInitialize sampleFinalizeChunkProcess (fun _ => rfl) [id, id, id]
      (fun b hb s => by simp at hb; subst hb; rfl) ChunkScanner.fresh).1⟩

/-! ## Truncating division -/

/-- Quotient and remainder of the truncating division by a positive number. -/
theorem tdiv_tmod_spec (a b : Int) (hb : 0 < b) :
    a = b * a.tdiv b + a.tmod b ∧
    (0 ≤ a → 0 ≤ a.tdiv b ∧ 0 ≤ a.tmod b ∧ a.tmod b < b) ∧
    (a ≤ 0 → a.tdiv b ≤ 0 ∧ a.tmod b ≤ 0 ∧ -b < a.tmod b) := by
  have e := Int.tdiv_add_tmod a b
  refine ⟨e.symm, ?_, ?_⟩
  · intro ha
    exact ⟨Int.tdiv_nonneg ha (le_of_lt hb), Int.tmod_nonneg b ha, Int.tmod_lt_of_pos a hb⟩
  · intro ha
    have hn : 0 ≤ -a := by omega
    have e' := Int.tdiv_add_tmod (-a) b
    have q := Int.neg_tdiv a b
    have h1 := Int.tdiv_nonneg hn (le_of_lt hb)
    have h2 := Int.tmod_nonneg b hn
    have h3 := Int.tmod_lt_of_pos (-a) hb
    rw [q] at e' h1
    have hmul : b * -a.tdiv b = -(b * a.tdiv b) := by ring
    rw [hmul] at e'
    refine ⟨by omega, by omega, by omega⟩

/-! ## C25: `Interval::FromMicro` -/

/-- C25: for every `int64_t` value `delta_us`, the result `r` of `Interval::FromMicro` has
`r.months = 0`, `r.days * MICROS_PER_DAY + r.micros = delta_us` (the product fits `int64_t`),
`|r.micros| < MICROS_PER_DAY`, `r.days` and `r.micros` are each zero or of the sign of
`delta_us`, and the quotient `delta_us / MICROS_PER_DAY` fits `int32_t`, so that the
unchecked narrowing cast returns the quotient itself. -/
theorem FromMicro_exact_decomposition (delta_us : Int)
    (h : IntervalField.int64_t.fits delta_us = true) :
    (Interval.FromMicro delta_us).months = 0 ∧
    (Interval.FromMicro delta_us).days * Interval.MICROS_PER_DAY
      + (Interval.FromMicro delta_us).micros = delta_us ∧
    IntervalField.int64_t.fits ((Interval.FromMicro delta_us).days * Interval.MICROS_PER_DAY)
      = true ∧
    -Interval.MICROS_PER_DAY < (Interval.FromMicro delta_us).micros ∧
    (Interval.FromMicro delta_us).micros < Interval.MICROS_PER_DAY ∧
    (0 ≤ delta_us → 0 ≤ (Interval.FromMicro delta_us).days ∧
      0 ≤ (Interval.FromMicro delta_us).micros) ∧
    (delta_us ≤ 0 → (Interval.FromMicro delta_us).days ≤ 0 ∧
      (Interval.FromMicro delta_us).micros ≤ 0) ∧
    IntervalField.int32_t.fits (delta_us.tdiv Interval.MICROS_PER_DAY) = true ∧
    (Interval.FromMicro delta_us).days = delta_us.tdiv Interval.MICROS_PER_DAY := by
  simp only [IntervalField.fits, decide_eq_true_eq] at h ⊢
  obtain ⟨e, hpos, hneg⟩ := tdiv_tmod_spec delta_us 86400000000 (by norm_num)
  have hq : -2147483648 ≤ delta_us.tdiv 86400000000 ∧ delta_us.tdiv 86400000000 ≤ 2147483647 := by
    rcases le_total 0 delta_us with h0 | h0
    · have := hpos h0; omega
    · have := hneg h0; omega
  have hw : wrap_int32 (delta_us.tdiv 86400000000) = delta_us.tdiv 86400000000 := by
    unfold wrap_int32; omega
  simp only [Interval.FromMicro, Interval.MICROS_PER_DAY, hw]
  refine ⟨trivial, by omega, ?_, ?_, ?_, ?_, ?_, hq, trivial⟩
  · rcases le_total 0 delta_us with h0 | h0
    · have := hpos h0; omega
    · have := hneg h0; omega
  · rcases le_total 0 delta_us with h0 | h0
    · have := hpos h0; omega
    · have := hneg h0; omega
  · rcases le_total 0 delta_us with h0 | h0
    · have := hpos h0; omega
    · have := hneg h0; omega
  · intro h0; have := hpos h0; omega
  · intro h0; have := hneg h0; omega

/-- C25, at a concrete input: one day and one microsecond back. -/
theorem FromMicro_exact_decomposition_witness :
    IntervalField.int64_t.fits (-86400000001) = true ∧
    Interval.FromMicro (-86400000001) = { months := 0, days := -1, micros := -1 } ∧
    (Interval.FromMicro (-86400000001)).days * Interval.MICROS_PER_DAY
      + (Interval.FromMicro (-86400000001)).micros = -86400000001 :=
  ⟨by decide, by decide, (FromMicro_exact_decomposition (-86400000001) (by decide)).2.1⟩

/-! ## C26: `Interval::Add` on a time of day -/

/-- C26 (failing input): one microsecond before midnight plus one microsecond, on the date
`INT32_MAX`.  The time wraps to midnight and `date.days++` is run on the largest `int32_t`: a
signed overflow, so that the call has no defined result, and no new `date.days` that differs
from the old one by +1.  Likewise for midnight minus one microsecond on the date `INT32_MIN`.
One day below `INT32_MAX` the same call steps the date by +1. -/
theorem Add_date_step_overflows :
    (0 ≤ (⟨86399999999⟩ : dtime_t).micros ∧
      (⟨86399999999⟩ : dtime_t).micros < Interval.MICROS_PER_DAY) ∧
    IntervalField.int64_t.fits (1 : Int) = true ∧
    IntervalField.int32_t.fits (2147483647 : Int) = true ∧
    Interval.Add ⟨86399999999⟩ ⟨0, 0, 1⟩ ⟨2147483647⟩ = none ∧
    Interval.Add ⟨0⟩ ⟨0, 0, -1⟩ ⟨-2147483648⟩ = none ∧
    Interval.Add ⟨86399999999⟩ ⟨0, 0, 1⟩ ⟨2147483646⟩ = some (⟨0⟩, ⟨2147483647⟩) ∧
    IntervalField.int32_t.fits ((2147483647 : Int) + 1) = false :=
  ⟨by decide, by decide, by decide, by decide, by decide, by decide, by decide⟩

/-- C26 (what holds): for every time `left` with `0 ≤ left.micros < MICROS_PER_DAY`, every
`right` and every date, `Interval::Add(left, right, date)` has no defined result exactly when
the date is `INT32_MAX` and the time wraps forward, or the date is `INT32_MIN` and the time
wraps backward (the unchecked `date.days++`, `date.days--`).  In every other case, so for
every date strictly between `INT32_MIN` and `INT32_MAX`, it returns a time `t` with
`0 ≤ t.micros < MICROS_PER_DAY`, `date.days` changes by exactly -1, 0 or +1, and
`(date'.days - date.days) * MICROS_PER_DAY + t.micros
  = left.micros + (right.micros rem MICROS_PER_DAY)` with the truncating remainder;
`right.days` and `right.months` have no effect. -/
theorem Add_wraps_within_one_day (left : dtime_t) (right : interval_t) (date : date_t)
    (hleft : 0 ≤ left.micros ∧ left.micros < Interval.MICROS_PER_DAY)
    (hright : IntervalField.int64_t.fits right.micros = true)
    (hdate : IntervalField.int32_t.fits date.days = true) :
    (Interval.Add left right date = none ↔
      (date.days = 2147483647 ∧
        Interval.MICROS_PER_DAY ≤ left.micros + right.micros.tmod Interval.MICROS_PER_DAY) ∨
      (date.days = -2147483648 ∧
        left.micros + right.micros.tmod Interval.MICROS_PER_DAY < 0)) ∧
    (∀ (t : dtime_t) (date' : date_t), Interval.Add left right date = some (t, date') →
      0 ≤ t.micros ∧ t.micros < Interval.MICROS_PER_DAY ∧
      (date'.days - date.days = -1 ∨ date'.days - date.days = 0 ∨
        date'.days - date.days = 1) ∧
      (date'.days - date.days) * Interval.MICROS_PER_DAY + t.micros
        = left.micros + right.micros.tmod Interval.MICROS_PER_DAY ∧
      IntervalField.int32_t.fits date'.days = true) ∧
    (-2147483648 < date.days ∧ date.days < 2147483647 →
      ∃ (t : dtime_t) (date' : date_t), Interval.Add left right date = some (t, date')) ∧
    (∀ months days : Int,
      Interval.Add left { right with months := months, days := days } date
        = Interval.Add left right date) := by
  simp only [IntervalField.fits, decide_eq_true_eq, Interval.MICROS_PER_DAY] at hleft hright hdate ⊢
  obtain ⟨e, hpos, hneg⟩ := tdiv_tmod_spec right.micros 86400000000 (by norm_num)
  have hrem : -86400000000 < right.micros.tmod 86400000000 ∧
      right.micros.tmod 86400000000 < 86400000000 := by
    rcases le_total 0 right.micros with h0 | h0
    · have h5 := hpos h0; omega
    · have h5 := hneg h0; omega
  have hquot : -9223372036854775808 ≤ right.micros.tdiv 86400000000 * 86400000000 ∧
      right.micros.tdiv 86400000000 * 86400000000 ≤ 9223372036854775807 := by
    rcases le_total 0 right.micros with h0 | h0
    · have h5 := hpos h0; omega
    · have h5 := hneg h0; omega
  have hdiff : right.micros - right.micros.tdiv 86400000000 * 86400000000
      = right.micros.tmod 86400000000 := by omega
  have hform : Interval.Add left right date =
      if 86400000000 ≤ left.micros + right.micros.tmod 86400000000 then
        if date.days + 1 ≤ 2147483647 then
          some (⟨left.micros + right.micros.tmod 86400000000 - 86400000000⟩,
            ⟨date.days + 1⟩)
        else none
      else if left.micros + right.micros.tmod 86400000000 < 0 then
        if -2147483648 ≤ date.days - 1 then
          some (⟨left.micros + right.micros.tmod 86400000000 + 86400000000⟩,
            ⟨date.days - 1⟩)
        else none
      else some (⟨left.micros + right.micros.tmod 86400000000⟩, date) := by
    simp only [Interval.Add, Interval.MICROS_PER_DAY, IntervalField.fits, hdiff, ge_iff_le,
      Bool.not_eq_true', decide_eq_false_iff_not]
    have c1 : ¬ ¬ (-9223372036854775808 ≤ right.micros.tdiv 86400000000 * 86400000000 ∧
        right.micros.tdiv 86400000000 * 86400000000 ≤ 9223372036854775807) :=
      not_not.mpr hquot
    have c2 : ¬ ¬ (-9223372036854775808 ≤ right.micros.tmod 86400000000 ∧
        right.micros.tmod 86400000000 ≤ 9223372036854775807) :=
      not_not.mpr ⟨by omega, by omega⟩
    have c3 : ¬ ¬ (-9223372036854775808 ≤ left.micros + right.micros.tmod 86400000000 ∧
        left.micros + right.micros.tmod 86400000000 ≤ 9223372036854775807) :=
      not_not.mpr ⟨by omega, by omega⟩
    simp only [c1, c2, c3, if_false]
    split_ifs <;> first | rfl | omega
  have hindep : ∀ months days : Int,
      Interval.Add left { right with months := months, days := days } date
        = Interval.Add left right date := fun _ _ => rfl
  refine ⟨?_, ?_, ?_, hindep⟩
  · rw [hform]
    split_ifs <;> simp <;> omega
  · intro t date' h
    rw [hform] at h
    split_ifs at h <;> simp only [Option.some.injEq, Prod.mk.injEq] at h <;>
      obtain ⟨ht, hd⟩ := h <;> subst ht <;> subst hd <;> dsimp only <;>
      refine ⟨by omega, by omega, by omega, by omega, ⟨by omega, by omega⟩⟩
  · intro hfin
    rw [hform]
    split_ifs <;> first | exact ⟨_, _, rfl⟩ | omega

/-- C26 (what holds), at a concrete input: one microsecond before midnight plus an interval
of five months, seven days, two days' worth of microseconds and two microseconds more; the
time wraps to one microsecond past midnight, the date moves on by one day. -/
theorem Add_wraps_within_one_day_witness :
    (0 ≤ (⟨86399999999⟩ : dtime_t).micros ∧
      (⟨86399999999⟩ : dtime_t).micros < Interval.MICROS_PER_DAY) ∧
    IntervalField.int64_t.fits (172800000002 : Int) = true ∧
    IntervalField.int32_t.fits (19000 : Int) = true ∧
    Interval.Add ⟨86399999999⟩ ⟨5, 7, 172800000002⟩ ⟨19000⟩ = some (⟨1⟩, ⟨19001⟩) ∧
    (((⟨19001⟩ : date_t).days - (⟨19000⟩ : date_t).days) * Interval.MICROS_PER_DAY
        + (⟨1⟩ : dtime_t).micros
      = (⟨86399999999⟩ : dtime_t).micros
        + (172800000002 : Int).tmod Interval.MICROS_PER_DAY) :=
  ⟨by decide, by decide, by decide, by decide,
    ((Add_wraps_within_one_day ⟨86399999999⟩ ⟨5, 7, 172800000002⟩ ⟨19000⟩ (by decide)
      (by decide) (by decide)).2.1 ⟨1⟩ ⟨19001⟩ (by decide)).2.2.2.1⟩

/-! ## C24: the fraction term of `IntervalTryAddition` -/

/-- The loop over the fractional digits adds at most `10 * mult - 1` to the fraction. -/
theorem fractionLoop_bounds : ∀ (str : List Nat) (mult fraction : Int), 0 ≤ mult →
    fraction ≤ Interval.FromCString.fractionLoop str mult fraction ∧
    Interval.FromCString.fractionLoop str mult fraction
      ≤ fraction + (if 0 < mult then 10 * mult - 1 else 0) := by
  intro str
  induction str with
  | nil =>
    intro mult fraction hm
    simp only [Interval.FromCString.fractionLoop]
    split_ifs <;> omega
  | cons c rest ih =>
    intro mult fraction hm
    simp only [Interval.FromCString.fractionLoop]
    have hdiv : mult.tdiv 10 = mult / 10 := Int.tdiv_eq_ediv hm (by norm_num)
    by_cases hc : 48 ≤ c ∧ c ≤ 57
    · simp only [hc, and_self, if_true, gt_iff_lt]
      have hd : 0 ≤ mult / 10 := by omega
      rw [hdiv]
      by_cases hpos : 0 < mult
      · simp only [hpos, if_true]
        obtain ⟨i1, i2⟩ := ih (mult / 10) (fraction + ((c : Int) - 48) * mult) hd
        have hc1 : (0 : Int) ≤ (c : Int) - 48 := by omega
        have hc2 : (c : Int) - 48 ≤ 9 := by omega
        have hm1 : 0 ≤ ((c : Int) - 48) * mult := mul_nonneg hc1 hm
        have hm2 : ((c : Int) - 48) * mult ≤ 9 * mult :=
          mul_le_mul_of_nonneg_right hc2 hm
        constructor
        · omega
        · split_ifs at i2 <;> omega
      · simp only [hpos, if_false]
        obtain ⟨i1, i2⟩ := ih (mult / 10) fraction hd
        have : ¬ 0 < mult / 10 := by omega
        simp only [this, if_false] at i2
        constructor <;> omega
    · simp only [hc, if_false]
      split_ifs <;> omega

/-- The fraction that reaches the specifier switch has at most six digits. -/
theorem parseFraction_bounds (has_point : Bool) (digits : List Nat) (negative : Bool) :
    -999999 ≤ Interval.FromCString.parseFraction has_point digits negative ∧
    Interval.FromCString.parseFraction has_point digits negative ≤ 999999 := by
  obtain ⟨h1, h2⟩ := fractionLoop_bounds digits 100000 0 (by norm_num)
  simp only [show (0 : Int) < 100000 by norm_num, if_true] at h2
  unfold Interval.FromCString.parseFraction
  cases has_point <;> cases negative <;> simp <;> omega

/-- The fraction term of `IntervalTryAddition`: for a fraction of at most six digits and a
multiplier of at most `INT32_MAX` when the target is an `int32_t`, of at most
9223372036854 when it is an `int64_t`, the product fits `int64_t` and the quotient fits the
target type. -/
theorem IntervalTryAddition_fraction_fits (T : IntervalField) (multiplier fraction : Int)
    (hf : -999999 ≤ fraction ∧ fraction ≤ 999999)
    (hm : 0 ≤ multiplier ∧
      multiplier ≤ (match T with
        | IntervalField.int32_t => 2147483647
        | IntervalField.int64_t => 9223372036854)) :
    IntervalField.int64_t.fits (fraction * multiplier) = true ∧
    T.fits ((fraction * multiplier).tdiv Interval.MICROS_PER_SEC) = true := by
  have hp1 : fraction * multiplier ≤ 999999 * multiplier :=
    mul_le_mul_of_nonneg_right hf.2 hm.1
  have hp2 : -999999 * multiplier ≤ fraction * multiplier :=
    mul_le_mul_of_nonneg_right hf.1 hm.1
  obtain ⟨e, hpos, hneg⟩ := tdiv_tmod_spec (fraction * multiplier) 1000000 (by norm_num)
  rcases le_total 0 (fraction * multiplier) with h0 | h0
  · have h5 := hpos h0
    cases T <;>
      simp only [IntervalField.fits, decide_eq_true_eq, Interval.MICROS_PER_SEC] at hm ⊢ <;>
      omega
  · have h5 := hneg h0
    cases T <;>
      simp only [IntervalField.fits, decide_eq_true_eq, Interval.MICROS_PER_SEC] at hm ⊢ <;>
      omega

/-- With a fraction term that fits, `IntervalTryAddition` fails neither in the product nor in
the cast of the fraction term. -/
theorem IntervalTryAddition_fraction_safe (T : IntervalField)
    (target input multiplier fraction : Int)
    (h : fraction ≠ 0 → IntervalField.int64_t.fits (fraction * multiplier) = true ∧
      T.fits ((fraction * multiplier).tdiv Interval.MICROS_PER_SEC) = true) :
    ∀ e, IntervalTryAddition T target input multiplier fraction = Except.error e →
      e = IntervalError.value_out_of_range ∨ e = IntervalError.value_cast ∨
      e = IntervalError.fraction_out_of_range := by
  intro e
  unfold IntervalTryAddition
  by_cases hfr : fraction = 0
  · simp only [hfr, ne_eq, not_true_eq_false, if_false]
    split_ifs <;> simp <;> intro h' <;> simp [← h']
  · obtain ⟨h1, h2⟩ := h hfr
    simp only [ne_eq, hfr, not_false_eq_true, if_true, h1, h2, Bool.not_true,
      Bool.false_eq_true, if_false]
    split_ifs <;> simp <;> intro h' <;> simp [← h']

/-- An error of `Except.map` is an error of its argument. -/
theorem except_map_error {ε α β : Type} (f : α → β) (x : Except ε α) (e : ε)
    (h : x.map f = Except.error e) : x = Except.error e := by
  cases x with
  | error e' => simpa [Except.map] using h
  | ok v => simp [Except.map] at h

/-- An error of `Except.bind` is an error of its argument or of the continuation. -/
theorem except_bind_error {ε α β : Type} (x : Except ε α) (g : α → Except ε β) (e : ε)
    (h : x.bind g = Except.error e) :
    x = Except.error e ∨ ∃ v, x = Except.ok v ∧ g v = Except.error e := by
  cases x with
  | error e' => left; simpa [Except.bind] using h
  | ok v => right; exact ⟨v, rfl, by simpa [Except.bind] using h⟩

/-- C24: the fraction that `Interval::FromCString` has parsed when it reaches the specifier
switch lies between -999999 and 999999; for every specifier, interval and number the switch
then fails neither by an overflow of a product `fraction * multiplier`, nor by the cast of a
fraction term, nor by an overflow of a reduction `fraction *= k` (QUARTER, WEEK).  In general,
for every fraction between -999999 and 999999 and every multiplier between 0 and `INT32_MAX`
(target `int32_t`) or 9223372036854 (target `int64_t`) the product fits `int64_t` and
`(fraction * multiplier) / MICROS_PER_SEC` fits the target type; the multipliers of the call
sites are within these bounds. -/
theorem IntervalTryAddition_fraction_always_in_range (has_point : Bool) (digits : List Nat)
    (negative : Bool) (specifier : DatePartSpecifier) (result : interval_t) (number : Int) :
    (-999999 ≤ Interval.FromCString.parseFraction has_point digits negative ∧
      Interval.FromCString.parseFraction has_point digits negative ≤ 999999) ∧
    (∀ e, Interval.FromCString.addSpecifier specifier result number
        (Interval.FromCString.parseFraction has_point digits negative) = Except.error e →
      e ≠ IntervalError.fraction_product_overflow ∧ e ≠ IntervalError.fraction_cast ∧
      e ≠ IntervalError.fraction_reduction_overflow) ∧
    (∀ (T : IntervalField) (multiplier fraction : Int),
      -999999 ≤ fraction ∧ fraction ≤ 999999 →
      0 ≤ multiplier ∧
        multiplier ≤ (match T with
          | IntervalField.int32_t => 2147483647
          | IntervalField.int64_t => 9223372036854) →
      IntervalField.int64_t.fits (fraction * multiplier) = true ∧
      T.fits ((fraction * multiplier).tdiv Interval.MICROS_PER_SEC) = true) ∧
    (∀ m ∈ [Interval.MONTHS_PER_MILLENIUM, Interval.MONTHS_PER_CENTURY,
        Interval.MONTHS_PER_DECADE, Interval.MONTHS_PER_YEAR, Interval.MONTHS_PER_QUARTER,
        Interval.DAYS_PER_MONTH, Interval.DAYS_PER_WEEK], 0 ≤ m ∧ m ≤ 2147483647) ∧
    (∀ m ∈ [Interval.MICROS_PER_DAY, Interval.MICROS_PER_MSEC, Interval.MICROS_PER_SEC,
        Interval.MICROS_PER_MINUTE, Interval.MICROS_PER_HOUR], 0 ≤ m ∧ m ≤ 9223372036854) := by
  have hf := parseFraction_bounds has_point digits negative
  refine ⟨hf, ?_, fun T multiplier fraction h1 h2 =>
    IntervalTryAddition_fraction_fits T multiplier fraction h1 h2, by decide, by decide⟩
  generalize Interval.FromCString.parseFraction has_point digits negative = fraction at hf ⊢
  have good : ∀ e, (e = IntervalError.value_out_of_range ∨ e = IntervalError.value_cast ∨
      e = IntervalError.fraction_out_of_range) →
      e ≠ IntervalError.fraction_product_overflow ∧ e ≠ IntervalError.fraction_cast ∧
      e ≠ IntervalError.fraction_reduction_overflow := by
    intro e h
    rcases h with h | h | h <;> subst h <;> decide
  have key : ∀ (T : IntervalField) (target input multiplier fr : Int),
      (fr ≠ 0 → (-999999 ≤ fr ∧ fr ≤ 999999) ∧ 0 ≤ multiplier ∧
        multiplier ≤ (match T with
          | IntervalField.int32_t => 2147483647
          | IntervalField.int64_t => 9223372036854)) →
      ∀ e, IntervalTryAddition T target input multiplier fr = Except.error e →
        e ≠ IntervalError.fraction_product_overflow ∧ e ≠ IntervalError.fraction_cast ∧
        e ≠ IntervalError.fraction_reduction_overflow := by
    intro T target input multiplier fr h e he
    exact good e (IntervalTryAddition_fraction_safe T target input multiplier fr
      (fun hne => IntervalTryAddition_fraction_fits T multiplier fr (h hne).1 (h hne).2) e he)
  have hred : ∀ k : Int, 0 ≤ k → k ≤ 7 →
      IntervalField.int64_t.fits (fraction * k) = true ∧
      -999999 ≤ (fraction * k).tmod 1000000 ∧ (fraction * k).tmod 1000000 ≤ 999999 := by
    intro k hk0 hk7
    have hp1 : fraction * k ≤ 999999 * k := mul_le_mul_of_nonneg_right hf.2 hk0
    have hp2 : -999999 * k ≤ fraction * k := mul_le_mul_of_nonneg_right hf.1 hk0
    obtain ⟨_, hpos, hneg⟩ := tdiv_tmod_spec (fraction * k) 1000000 (by norm_num)
    simp only [IntervalField.fits, decide_eq_true_eq]
    rcases le_total 0 (fraction * k) with h0 | h0
    · have := hpos h0; omega
    · have := hneg h0; omega
  intro e he
  cases specifier <;> simp only [Interval.FromCString.addSpecifier] at he
  case MILLENNIUM =>
    exact key _ _ _ _ _ (fun _ => ⟨hf, by decide⟩) e (except_map_error _ _ e he)
  case CENTURY =>
    exact key _ _ _ _ _ (fun _ => ⟨hf, by decide⟩) e (except_map_error _ _ e he)
  case DECADE =>
    exact key _ _ _ _ _ (fun _ => ⟨hf, by decide⟩) e (except_map_error _ _ e he)
  case YEAR =>
    exact key _ _ _ _ _ (fun _ => ⟨hf, by decide⟩) e (except_map_error _ _ e he)
  case QUARTER =>
    rcases except_bind_error _ _ e he with h | ⟨v, _, h⟩
    · exact key _ _ _ _ _ (fun _ => ⟨hf, by decide⟩) e h
    · obtain ⟨r1, r2⟩ := hred Interval.MONTHS_PER_QUARTER (by decide) (by decide)
      simp only [r1, Bool.not_true, Bool.false_eq_true, if_false] at h
      exact key _ _ _ _ _ (fun _ => ⟨r2, by decide⟩) e (except_map_error _ _ e h)
  case MONTH =>
    rcases except_bind_error _ _ e he with h | ⟨v, _, h⟩
    · exact key _ _ _ _ _ (fun hne => absurd rfl hne) e h
    · exact key _ _ _ _ _ (fun _ => ⟨hf, by decide⟩) e (except_map_error _ _ e h)
  case DAY =>
    rcases except_bind_error _ _ e he with h | ⟨v, _, h⟩
    · exact key _ _ _ _ _ (fun hne => absurd rfl hne) e h
    · exact key _ _ _ _ _ (fun _ => ⟨hf, by decide⟩) e (except_map_error _ _ e h)
  case WEEK =>
    rcases except_bind_error _ _ e he with h | ⟨v, _, h⟩
    · exact key _ _ _ _ _ (fun _ => ⟨hf, by decide⟩) e h
    · obtain ⟨r1, r2⟩ := hred Interval.DAYS_PER_WEEK (by decide) (by decide)
      simp only [r1, Bool.not_true, Bool.false_eq_true, if_false] at h
      exact key _ _ _ _ _ (fun _ => ⟨r2, by decide⟩) e (except_map_error _ _ e h)
  case MICROSECONDS =>
    split_ifs at he
    · simp only [Except.error.injEq] at he
      subst he
      decide
    · exact key _ _ _ _ _ (fun hne => absurd rfl hne) e (except_map_error _ _ e he)
  case MILLISECONDS =>
    exact key _ _ _ _ _ (fun _ => ⟨hf, by decide⟩) e (except_map_error _ _ e he)
  case SECOND =>
    exact key _ _ _ _ _ (fun _ => ⟨hf, by decide⟩) e (except_map_error _ _ e he)
  case MINUTE =>
    exact key _ _ _ _ _ (fun _ => ⟨hf, by decide⟩) e (except_map_error _ _ e he)
  case HOUR =>
    exact key _ _ _ _ _ (fun _ => ⟨hf, by decide⟩) e (except_map_error _ _ e he)
  case OTHER tag =>
    simp only [Except.error.injEq] at he
    subst he
    decide

end duckdb
